import Mathlib

/-!
# Sudoku solver: grid, legality check, backtracking search, validation, loading

A shallow embedding of `src/sudoku_solver.cpp` (class `SudokuGrid`).

* The cell matrix `std::vector<std::vector<int> >` is a list of rows, each a list of
  integers.  An access `grid[r][c]` outside the stored rows is undefined behaviour in
  the source; here every such access is reported explicitly (`none`, or `Outcome.oob`).
* The member function `solve` is recursive; the embedding `solveAux` carries a budget of
  nested activations and `solve` starts it with one more than the number of empty cells.
* A puzzle file is the list of its lines (what successive `std::getline` calls return),
  each line being the list of its characters.
* `generateRandom` takes the results of `std::rand()` from a list, three per iteration of
  its fill loop; the loop is still running when the list ends, or it has ended.
* `solveAuxT` is `solveAux` with the list of the placements it makes.
-/

namespace Sudoku

/-- The state of a `SudokuGrid` object: the cell matrix, `size` and `boxSize`. -/
structure SudokuGrid where
  grid : List (List Int)
  size : Nat
  boxSize : Nat
deriving DecidableEq, Repr

/-- The constructor `SudokuGrid(int gridSize = 9)`: a `gridSize` by `gridSize` matrix of zeros,
with box size 3 for `gridSize == 9` and 2 otherwise. -/
def SudokuGrid.construct (gridSize : Nat) : SudokuGrid :=
  { grid := List.replicate gridSize (List.replicate gridSize 0)
    size := gridSize
    boxSize := if gridSize = 9 then 3 else 2 }

/-- Reading `grid[r][c]`; `none` when the access falls outside the stored rows. -/
def SudokuGrid.cell (g : SudokuGrid) (r c : Nat) : Option Int :=
  match g.grid[r]? with
  | none => none
  | some rw => rw[c]?

/-- Writing `grid[r][c] = v`; `none` when the access falls outside the stored rows. -/
def SudokuGrid.put (g : SudokuGrid) (r c : Nat) (v : Int) : Option SudokuGrid :=
  match g.grid[r]? with
  | none => none
  | some rw =>
    if c < rw.length then some { g with grid := g.grid.set r (rw.set c v) } else none

/-- A counting `for` loop whose body may `return`: the body is run on the indices in
order; `some (some a)` is a `return a` from inside the loop, `some none` is the loop
running to its end, and `none` is an out-of-range access in the body. -/
def forEach {α : Type} (idxs : List Nat) (body : Nat → Option (Option α)) :
    Option (Option α) :=
  match idxs with
  | [] => some none
  | i :: rest =>
    match body i with
    | none => none
    | some (some a) => some (some a)
    | some none => forEach rest body

/-- The loop body `if (grid[r][c] == num) return false;` -/
def hitBody (g : SudokuGrid) (r c : Nat) (num : Int) : Option (Option Bool) :=
  match g.cell r c with
  | none => none
  | some v => if v = num then some (some false) else some none

/-- `SudokuGrid::isValid(row, col, num)`: the row loop, the column loop, then the box
loops starting at `row - row % boxSize`, `col - col % boxSize`. -/
def SudokuGrid.isValid (g : SudokuGrid) (row col : Nat) (num : Int) : Option Bool :=
  match forEach (List.range g.size) (fun c => hitBody g row c num) with
  | none => none
  | some (some b) => some b
  | some none =>
    match forEach (List.range g.size) (fun r => hitBody g r col num) with
    | none => none
    | some (some b) => some b
    | some none =>
      let boxRow := row - row % g.boxSize
      let boxCol := col - col % g.boxSize
      match forEach (List.range g.boxSize) (fun r =>
          forEach (List.range g.boxSize) (fun c => hitBody g (boxRow + r) (boxCol + c) num)) with
      | none => none
      | some (some b) => some b
      | some none => some true

/-- `SudokuGrid::findEmptyCell(row, col)`: `some (some (row, col))` when it returns true with
the two reference parameters set, `some none` when it returns false. -/
def SudokuGrid.findEmptyCell (g : SudokuGrid) : Option (Option (Nat × Nat)) :=
  forEach (List.range g.size) (fun row =>
    forEach (List.range g.size) (fun col =>
      match g.cell row col with
      | none => none
      | some v => if v = 0 then some (some (row, col)) else some none))

/-- What a call of `solve` produces: an out-of-range access, an exhausted budget of nested
activations, or a return value together with the grid left behind. -/
inductive Outcome where
  | oob : Outcome
  | timeout : Outcome
  | done (ok : Bool) (g : SudokuGrid) : Outcome
deriving DecidableEq, Repr

/-- The loop `for (num = ...; num <= size; num++)` of `solve` at the empty cell `(row, col)`,
over the digits still to be tried; `again` is the recursive call `solve()`. -/
def tryDigits (again : SudokuGrid → Outcome) (row col : Nat) :
    List Int → SudokuGrid → Outcome
  | [], g => Outcome.done false g
  | num :: rest, g =>
    match g.isValid row col num with
    | none => Outcome.oob
    | some false => tryDigits again row col rest g
    | some true =>
      match g.put row col num with
      | none => Outcome.oob
      | some g1 =>
        match again g1 with
        | Outcome.done true g2 => Outcome.done true g2
        | Outcome.done false g2 =>
          match g2.put row col 0 with
          | none => Outcome.oob
          | some g3 => tryDigits again row col rest g3
        | Outcome.oob => Outcome.oob
        | Outcome.timeout => Outcome.timeout

/-- The digits `1, 2, ..., size` in the order `solve` tries them. -/
def digits (size : Nat) : List Int :=
  (List.range size).map (fun (k : Nat) => (k : Int) + 1)

/-- `SudokuGrid::solve()` with a budget of nested activations. -/
def solveAux : Nat → SudokuGrid → Outcome
  | 0, _ => Outcome.timeout
  | fuel + 1, g =>
    match g.findEmptyCell with
    | none => Outcome.oob
    | some none => Outcome.done true g
    | some (some (row, col)) => tryDigits (solveAux fuel) row col (digits g.size) g

/-- The cells `(row, col)` with `row, col < size`, in row-major order. -/
def cellIndices (size : Nat) : List (Nat × Nat) :=
  List.product (List.range size) (List.range size)

/-- The number of empty cells (value 0) among the `size * size` cells. -/
def SudokuGrid.emptyCount (g : SudokuGrid) : Nat :=
  (cellIndices g.size).countP (fun p => g.cell p.1 p.2 == some 0)

/-- `SudokuGrid::solve()`: the recursion started with one activation more than there are
empty cells. -/
def SudokuGrid.solve (g : SudokuGrid) : Outcome :=
  solveAux (g.emptyCount + 1) g

/-- One step of a duplicate check of `validateSolution`:
`if (seen[num]) return false; seen[num] = true;` over the values of one group of cells.
Result `some true` when the group ran through, `some false` on a duplicate, `none` when
a cell or `seen[num]` is out of range. -/
def seenLoop : List (Option Int) → List Bool → Option Bool
  | [], _ => some true
  | none :: _, _ => none
  | some num :: rest, seen =>
    if num < 0 then none
    else
      match seen[num.toNat]? with
      | none => none
      | some true => some false
      | some false => seenLoop rest (seen.set num.toNat true)

/-- A duplicate check over one group of cells with a fresh
`std::vector<bool> seen(size + 1, false)`, as a loop body: returns false on a duplicate. -/
def groupBody (g : SudokuGrid) (cells : List (Nat × Nat)) : Option (Option Bool) :=
  match seenLoop (cells.map (fun p => g.cell p.1 p.2)) (List.replicate (g.size + 1) false) with
  | none => none
  | some false => some (some false)
  | some true => some none

/-- The values `0, step, 2 * step, ...` below `size` taken by `boxRow` and `boxCol` in
`for (boxRow = 0; boxRow < size; boxRow += boxSize)`, for a positive `step` (the
constructor and the loader only ever set `boxSize` to 2 or 3). -/
def boxStarts (size step : Nat) : List Nat :=
  (List.range size).filter (fun k => k % step = 0)

/-- `SudokuGrid::validateSolution()`. -/
def SudokuGrid.validateSolution (g : SudokuGrid) : Option Bool :=
  match forEach (List.range g.size) (fun row =>
      forEach (List.range g.size) (fun col => hitBody g row col 0)) with
  | none => none
  | some (some b) => some b
  | some none =>
    match forEach (List.range g.size) (fun row =>
        groupBody g ((List.range g.size).map (fun col => (row, col)))) with
    | none => none
    | some (some b) => some b
    | some none =>
      match forEach (List.range g.size) (fun col =>
          groupBody g ((List.range g.size).map (fun row => (row, col)))) with
      | none => none
      | some (some b) => some b
      | some none =>
        match forEach (boxStarts g.size g.boxSize) (fun boxRow =>
            forEach (boxStarts g.size g.boxSize) (fun boxCol =>
              groupBody g (List.product (List.range g.boxSize) (List.range g.boxSize) |>.map
                (fun p => (boxRow + p.1, boxCol + p.2))))) with
        | none => none
        | some (some b) => some b
        | some none => some true

/-- `SudokuGrid::getValue(row, col)`: the bounds-checked read. -/
def SudokuGrid.getValue (g : SudokuGrid) (row col : Int) : Option Int :=
  if 0 ≤ row ∧ row < g.size ∧ 0 ≤ col ∧ col < g.size then g.cell row.toNat col.toNat
  else some 0

/-- `SudokuGrid::setValue(row, col, value)`: the bounds-checked write. -/
def SudokuGrid.setValue (g : SudokuGrid) (row col value : Int) : Option SudokuGrid :=
  if 0 ≤ row ∧ row < g.size ∧ 0 ≤ col ∧ col < g.size then g.put row.toNat col.toNat value
  else some g

/-- `grid.resize(n, std::vector<int>(n, 0))`: rows beyond the first `n` are dropped, the rows
that stay keep their length and contents, and missing rows are appended as `n` zeros. -/
def resizeRows (rows : List (List Int)) (n : Nat) : List (List Int) :=
  rows.take n ++ List.replicate (n - rows.length) (List.replicate n 0)

/-- The character loop of `loadFromFile` over one line, writing row `row`.  With
`checkFour = false` it is the loop over the first line (source lines 46-54); with
`checkFour = true` it is the loop over a later line (source lines 64-75), which also
rejects a digit above 4 when `size == 4`.  `some (false, g)` is the `return false` from
inside the loop, `some (true, g)` the loop running to its end. -/
def loadRow (checkFour : Bool) (ln : List Char) (row : Nat) :
    List Nat → SudokuGrid → Option (Bool × SudokuGrid)
  | [], g => some (true, g)
  | c :: rest, g =>
    match ln[c]? with
    | none => none
    | some ch =>
      if ch = '.' ∨ ch = '0' then
        match g.put row c 0 with
        | none => none
        | some g1 => loadRow checkFour ln row rest g1
      else if '1' ≤ ch ∧ ch ≤ '9' then
        if checkFour = true ∧ g.size = 4 ∧ '4' < ch then some (false, g)
        else
          match g.put row c ((ch.toNat : Int) - ('0'.toNat : Int)) with
          | none => none
          | some g1 => loadRow checkFour ln row rest g1
      else some (false, g)

/-- The loop `while (std::getline(file, line) && row < size)` of `loadFromFile` followed by
`return (row == size);`, over the lines not yet read. -/
def loadRest : List (List Char) → Nat → SudokuGrid → Option (Bool × SudokuGrid)
  | [], row, g => some (decide (row = g.size), g)
  | ln :: more, row, g =>
    if row < g.size then
      if ln.length ≠ g.size then some (false, g)
      else
        match loadRow true ln row (List.range g.size) g with
        | none => none
        | some (false, g1) => some (false, g1)
        | some (true, g1) => loadRest more (row + 1) g1
    else some (decide (row = g.size), g)

/-- `SudokuGrid::loadFromFile` on a file that could be opened, given as the list of its
lines: the returned flag and the grid left behind, or `none` on an out-of-range access. -/
def SudokuGrid.loadFromFile (g : SudokuGrid) (lines : List (List Char)) :
    Option (Bool × SudokuGrid) :=
  match lines with
  | [] => some (decide (0 = g.size), g)
  | ln :: more =>
    if 4 ≤ ln.length ∧ ln.length ≤ 9 then
      let g1 : SudokuGrid :=
        { grid := resizeRows g.grid ln.length
          size := ln.length
          boxSize := if ln.length = 9 then 3 else 2 }
      match loadRow false ln 0 (List.range g1.size) g1 with
      | none => none
      | some (false, g2) => some (false, g2)
      | some (true, g2) => loadRest more 1 g2
    else some (false, g)

/-! ## Specification vocabulary -/

/-- Every cell `(r, c)` with `r, c < size` is stored in the matrix. -/
def SudokuGrid.Alloc (g : SudokuGrid) : Prop :=
  ∀ r, r < g.size → ∀ c, c < g.size → g.cell r c ≠ none

/-- The grid is 4x4 with 2x2 boxes or 9x9 with 3x3 boxes. -/
def SudokuGrid.Boxed (g : SudokuGrid) : Prop :=
  (g.size = 4 ∧ g.boxSize = 2) ∨ (g.size = 9 ∧ g.boxSize = 3)

/-- A grid of size 4 or 9 whose `size * size` cells are all stored. -/
def SudokuGrid.WellFormed (g : SudokuGrid) : Prop :=
  g.Alloc ∧ g.Boxed

/-- Every cell holds a value in `[0, size]`. -/
def SudokuGrid.InRange (g : SudokuGrid) : Prop :=
  ∀ r, r < g.size → ∀ c, c < g.size →
    ∃ v, g.cell r c = some v ∧ 0 ≤ v ∧ v ≤ (g.size : Int)

/-- No cell is 0. -/
def SudokuGrid.Full (g : SudokuGrid) : Prop :=
  ∀ r, r < g.size → ∀ c, c < g.size → g.cell r c ≠ some 0

/-- The value `num` appears in row `row`. -/
def SudokuGrid.inRow (g : SudokuGrid) (row : Nat) (num : Int) : Prop :=
  ∃ c, c < g.size ∧ g.cell row c = some num

/-- The value `num` appears in column `col`. -/
def SudokuGrid.inCol (g : SudokuGrid) (col : Nat) (num : Int) : Prop :=
  ∃ r, r < g.size ∧ g.cell r col = some num

/-- The value `num` appears in the `boxSize` by `boxSize` box containing `(row, col)`. -/
def SudokuGrid.inBox (g : SudokuGrid) (row col : Nat) (num : Int) : Prop :=
  ∃ r, r < g.size ∧ ∃ c, c < g.size ∧
    r / g.boxSize = row / g.boxSize ∧ c / g.boxSize = col / g.boxSize ∧ g.cell r c = some num

/-- Two different cells that share a row, a column or a box. -/
def peers (boxSize r1 c1 r2 c2 : Nat) : Prop :=
  (r1 ≠ r2 ∨ c1 ≠ c2) ∧
    (r1 = r2 ∨ c1 = c2 ∨ (r1 / boxSize = r2 / boxSize ∧ c1 / boxSize = c2 / boxSize))

/-- No digit (non-zero value) occurs twice in a row, a column or a box. -/
def SudokuGrid.Consistent (g : SudokuGrid) : Prop :=
  ∀ r1, r1 < g.size → ∀ c1, c1 < g.size → ∀ r2, r2 < g.size → ∀ c2, c2 < g.size →
    peers g.boxSize r1 c1 r2 c2 → g.cell r1 c1 ≠ some 0 → g.cell r1 c1 ≠ g.cell r2 c2

/-- The grid `s` assigns a digit `1..size` to every empty cell of `g`, keeps the other
cells of `g`, and has no digit twice in a row, column or box. -/
def SudokuGrid.Completion (g s : SudokuGrid) : Prop :=
  s.size = g.size ∧ s.boxSize = g.boxSize ∧
  (∀ r, r < g.size → ∀ c, c < g.size →
    if g.cell r c = some 0 then
      ∃ v, s.cell r c = some v ∧ 1 ≤ v ∧ v ≤ (g.size : Int)
    else s.cell r c = g.cell r c) ∧
  s.Consistent

/-- Some completion of the grid exists. -/
def SudokuGrid.Solvable (g : SudokuGrid) : Prop :=
  ∃ s, g.Completion s

/-- The grid `g2` keeps every non-empty cell of `g`. -/
def SudokuGrid.Extends (g g2 : SudokuGrid) : Prop :=
  ∀ r, r < g.size → ∀ c, c < g.size → g.cell r c ≠ some 0 → g2.cell r c = g.cell r c

/-- What `solve` leaves behind in `g2` when it returns true on `g`. -/
def Solved (g g2 : SudokuGrid) : Prop :=
  g2.WellFormed ∧ g2.size = g.size ∧ g2.boxSize = g.boxSize ∧ g2.Full ∧ g.Extends g2 ∧
    (g.Consistent → g2.Consistent) ∧ (g.InRange → g2.InRange)

/-- The contract of `solve` on `g`: it returns; when it returns false the grid is `g` again
and `g` has no completion; when it returns true the grid is a filled extension of `g`. -/
def SolveSpec (g : SudokuGrid) (out : Outcome) : Prop :=
  ∃ b g2, out = Outcome.done b g2 ∧
    (b = false → g2 = g ∧ ¬ g.Solvable) ∧ (b = true → Solved g g2)

/-- The cells of row `r` in the order `validateSolution` visits them. -/
def rowCells (n r : Nat) : List (Nat × Nat) :=
  (List.range n).map (fun col => (r, col))

/-- The cells of column `c` in the order `validateSolution` visits them. -/
def colCells (n c : Nat) : List (Nat × Nat) :=
  (List.range n).map (fun row => (row, c))

/-- The cells of the `b` by `b` box whose top-left cell is `(br, bc)`. -/
def boxCells (b br bc : Nat) : List (Nat × Nat) :=
  (List.product (List.range b) (List.range b)).map (fun p => (br + p.1, bc + p.2))

/-- The groups of cells checked for duplicates: the rows, the columns and the boxes. -/
def IsGroup (size b : Nat) (cells : List (Nat × Nat)) : Prop :=
  (∃ r, r < size ∧ cells = rowCells size r) ∨
  (∃ c, c < size ∧ cells = colCells size c) ∨
  (∃ br ∈ boxStarts size b, ∃ bc ∈ boxStarts size b, cells = boxCells b br bc)

/-- How many cells of a group hold the digit `d`. -/
def SudokuGrid.occurrences (g : SudokuGrid) (cells : List (Nat × Nat)) (d : Int) : Nat :=
  cells.countP (fun p => decide (g.cell p.1 p.2 = some d))

/-- Every row, every column and every box contains each digit `1..size` exactly once. -/
def SudokuGrid.EachDigitOnce (g : SudokuGrid) : Prop :=
  ∀ d : Int, 1 ≤ d → d ≤ (g.size : Int) →
    (∀ r, r < g.size → g.occurrences (rowCells g.size r) d = 1) ∧
    (∀ c, c < g.size → g.occurrences (colCells g.size c) d = 1) ∧
    (∀ br ∈ boxStarts g.size g.boxSize, ∀ bc ∈ boxStarts g.size g.boxSize,
      g.occurrences (boxCells g.boxSize br bc) d = 1)

/-- The cell value a puzzle character stands for: 0 for `.` and `0`, otherwise the
character code minus the code of `0` (the digit, for `1`..`9`). -/
def charValue (ch : Char) : Int :=
  if ch = '.' ∨ ch = '0' then 0 else (ch.toNat : Int) - ('0'.toNat : Int)

/-- The characters on which a character loop of `loadFromFile` does not return false. -/
def charAccepted (checkFour : Bool) (size : Nat) (ch : Char) : Prop :=
  ch = '.' ∨ ch = '0' ∨
    (('1' ≤ ch ∧ ch ≤ '9') ∧ ¬ (checkFour = true ∧ size = 4 ∧ '4' < ch))

/-- Every stored row has room for `n` cells. -/
def SudokuGrid.RowsHold (g : SudokuGrid) (n : Nat) : Prop :=
  ∀ rw ∈ g.grid, n ≤ rw.length

/-- The lines of the 9x9 puzzle file of the concrete scenario. -/
def scenarioLines : List (List Char) :=
  ["53..7....", "6..195...", ".98....6.", "8...6...3", "4..8.3..1", "7...2...6",
   ".6....28.", "...419..5", "....8..79"].map String.toList

/-- Nine equal lines of nine characters: every row holds the digits 1 and 2 twice, and
columns 0, 1, 7 and 8 hold one digit nine times. -/
def repeatedLines : List (List Char) :=
  List.replicate 9 "11.....22".toList

/-- The scenario file with its fifth line cut to 8 characters. -/
def raggedLines : List (List Char) :=
  ["53..7....", "6..195...", ".98....6.", "8...6...3", "4..8.3..", "7...2...6",
   ".6....28.", "...419..5", "....8..79"].map String.toList

/-- A 4x4 file whose first line holds the digit 5. -/
def fiveFirstLines : List (List Char) :=
  ["5...", "....", "....", "...."].map String.toList

/-- A 4x4 file whose second line holds the digit 5. -/
def fiveSecondLines : List (List Char) :=
  ["....", "5...", "....", "...."].map String.toList

/-- Five lines of five characters. -/
def fiveByFiveLines : List (List Char) :=
  [".....", ".....", ".....", ".....", "....."].map String.toList

/-- The 9x9 puzzle of the concrete scenario, as the grid it loads to. -/
def scenarioPuzzle : SudokuGrid :=
  { grid := [[5, 3, 0, 0, 7, 0, 0, 0, 0],
             [6, 0, 0, 1, 9, 5, 0, 0, 0],
             [0, 9, 8, 0, 0, 0, 0, 6, 0],
             [8, 0, 0, 0, 6, 0, 0, 0, 3],
             [4, 0, 0, 8, 0, 3, 0, 0, 1],
             [7, 0, 0, 0, 2, 0, 0, 0, 6],
             [0, 6, 0, 0, 0, 0, 2, 8, 0],
             [0, 0, 0, 4, 1, 9, 0, 0, 5],
             [0, 0, 0, 0, 8, 0, 0, 7, 9]]
    size := 9
    boxSize := 3 }

/-- A completion of `scenarioPuzzle`; its row 0 reads `534678912`. -/
def scenarioSolution : SudokuGrid :=
  { grid := [[5, 3, 4, 6, 7, 8, 9, 1, 2],
             [6, 7, 2, 1, 9, 5, 3, 4, 8],
             [1, 9, 8, 3, 4, 2, 5, 6, 7],
             [8, 5, 9, 7, 6, 1, 4, 2, 3],
             [4, 2, 6, 8, 5, 3, 7, 9, 1],
             [7, 1, 3, 9, 2, 4, 8, 5, 6],
             [9, 6, 1, 5, 3, 7, 2, 8, 4],
             [2, 8, 7, 4, 1, 9, 6, 3, 5],
             [3, 4, 5, 2, 8, 6, 1, 7, 9]]
    size := 9
    boxSize := 3 }

/-- A 4x4 grid with consistent givens and no completion: cell `(0, 3)` needs a 4, which
column 3 already holds. -/
def blockedGrid : SudokuGrid :=
  { grid := [[1, 2, 3, 0], [0, 0, 0, 4], [0, 0, 0, 0], [0, 0, 0, 0]]
    size := 4
    boxSize := 2 }

/-- A 4x4 grid whose givens conflict: two 1s in row 0. -/
def conflictGrid : SudokuGrid :=
  { grid := [[1, 1, 2, 3], [0, 2, 3, 4], [0, 0, 0, 0], [0, 0, 0, 0]]
    size := 4
    boxSize := 2 }

/-- A 4x4 grid with one empty cell and values outside `[0, 4]` elsewhere. -/
def junkGrid : SudokuGrid :=
  { grid := [[7, 7, 7, 7], [7, 7, 7, 7], [7, 7, 0, 7], [7, 7, 7, -3]]
    size := 4
    boxSize := 2 }

instance optionExistsDecidable (o : Option Int) (P : Int → Prop) [DecidablePred P] :
    Decidable (∃ v, o = some v ∧ P v) :=
  match o with
  | none => isFalse (by rintro ⟨v, h, _⟩; cases h)
  | some w =>
    if h : P w then isTrue ⟨w, rfl, h⟩
    else isFalse (by rintro ⟨v, hv, hp⟩; cases hv; exact h hp)

instance (g : SudokuGrid) : Decidable g.Alloc := by
  unfold SudokuGrid.Alloc; infer_instance

instance (g : SudokuGrid) : Decidable g.Boxed := by
  unfold SudokuGrid.Boxed; infer_instance

instance (g : SudokuGrid) : Decidable g.WellFormed := by
  unfold SudokuGrid.WellFormed; infer_instance

instance (g : SudokuGrid) : Decidable g.Full := by
  unfold SudokuGrid.Full; infer_instance

instance (b r1 c1 r2 c2 : Nat) : Decidable (peers b r1 c1 r2 c2) := by
  unfold peers; infer_instance

instance (g : SudokuGrid) : Decidable g.InRange := by
  unfold SudokuGrid.InRange; infer_instance

set_option synthInstance.maxSize 1000 in
instance (g : SudokuGrid) : Decidable g.Consistent := by
  unfold SudokuGrid.Consistent; infer_instance

instance (g s : SudokuGrid) : Decidable (g.Completion s) := by
  unfold SudokuGrid.Completion; infer_instance

instance (g : SudokuGrid) (n : Nat) : Decidable (g.RowsHold n) := by
  unfold SudokuGrid.RowsHold; infer_instance

/-- The completed scenario grid with cell `(0, 0)` changed from 5 to 6, so that row 0,
column 0 and the top-left box hold 6 twice, and with cell `(8, 8)` emptied. -/
def clashGrid : SudokuGrid :=
  { grid := [[6, 3, 4, 6, 7, 8, 9, 1, 2],
             [6, 7, 2, 1, 9, 5, 3, 4, 8],
             [1, 9, 8, 3, 4, 2, 5, 6, 7],
             [8, 5, 9, 7, 6, 1, 4, 2, 3],
             [4, 2, 6, 8, 5, 3, 7, 9, 1],
             [7, 1, 3, 9, 2, 4, 8, 5, 6],
             [9, 6, 1, 5, 3, 7, 2, 8, 4],
             [2, 8, 7, 4, 1, 9, 6, 3, 5],
             [3, 4, 5, 2, 8, 6, 1, 7, 0]]
    size := 9
    boxSize := 3 }

/-- A well-formed 4x4 file. -/
def fourByFourLines : List (List Char) :=
  ["12..", "..3.", "....", "...4"].map String.toList

/-- One placement `grid[row][col] = num` made by `solve`: the grid before it, the cell, the
digit, and the grid after it, which is the grid the recursive call `solve()` starts on. -/
structure Placement where
  before : SudokuGrid
  row : Nat
  col : Nat
  num : Int
  after : SudokuGrid

/-- The loop of `solve` as in `tryDigits`, with the list of the placements made, in the order
in which they are made; `again` is the recursive call with the placements it makes. -/
def tryDigitsT (again : SudokuGrid → Outcome × List Placement) (row col : Nat) :
    List Int → SudokuGrid → Outcome × List Placement
  | [], g => (Outcome.done false g, [])
  | num :: rest, g =>
    match g.isValid row col num with
    | none => (Outcome.oob, [])
    | some false => tryDigitsT again row col rest g
    | some true =>
      match g.put row col num with
      | none => (Outcome.oob, [])
      | some g1 =>
        match again g1 with
        | (Outcome.done true g2, made) =>
          (Outcome.done true g2, { before := g, row := row, col := col, num := num, after := g1 } :: made)
        | (Outcome.done false g2, made) =>
          match g2.put row col 0 with
          | none =>
            (Outcome.oob, { before := g, row := row, col := col, num := num, after := g1 } :: made)
          | some g3 =>
            ((tryDigitsT again row col rest g3).1,
              { before := g, row := row, col := col, num := num, after := g1 } :: made ++
                (tryDigitsT again row col rest g3).2)
        | (Outcome.oob, made) =>
          (Outcome.oob, { before := g, row := row, col := col, num := num, after := g1 } :: made)
        | (Outcome.timeout, made) =>
          (Outcome.timeout, { before := g, row := row, col := col, num := num, after := g1 } :: made)

/-- `solveAux` with the list of the placements made. -/
def solveAuxT : Nat → SudokuGrid → Outcome × List Placement
  | 0, _ => (Outcome.timeout, [])
  | fuel + 1, g =>
    match g.findEmptyCell with
    | none => (Outcome.oob, [])
    | some none => (Outcome.done true g, [])
    | some (some (row, col)) => tryDigitsT (solveAuxT fuel) row col (digits g.size) g

/-- The placements `solve` makes on `g`, in order. -/
def SudokuGrid.placements (g : SudokuGrid) : List Placement :=
  (solveAuxT (g.emptyCount + 1) g).2

/-- The placement writes a digit `1..size` into a cell of the grid that holds 0 and for which
`isValid` returns true on the grid as it is then. -/
def Placement.Legal (pl : Placement) : Prop :=
  pl.row < pl.before.size ∧ pl.col < pl.before.size ∧
  pl.before.cell pl.row pl.col = some 0 ∧ 1 ≤ pl.num ∧ pl.num ≤ (pl.before.size : Int) ∧
  pl.before.isValid pl.row pl.col pl.num = some true ∧
  pl.before.put pl.row pl.col pl.num = some pl.after

/-- The placement is made on a grid of the shape of `g` that keeps the non-empty cells of
`g` and has no more empty cells than `g`. -/
def Placement.Within (g : SudokuGrid) (pl : Placement) : Prop :=
  pl.before.WellFormed ∧ pl.before.size = g.size ∧ pl.before.boxSize = g.boxSize ∧
  g.Extends pl.before ∧ pl.before.emptyCount ≤ g.emptyCount

/-- Lexicographic order of two fillings `x` and `y` of the empty cells of `g`, read in
row-major order: either they agree on every empty cell of `g`, or at the first empty cell
of `g` on which they differ `x` holds the smaller digit. -/
def SudokuGrid.LexLeOnEmpty (g x y : SudokuGrid) : Prop :=
  (∀ r, r < g.size → ∀ c, c < g.size → g.cell r c = some 0 → x.cell r c = y.cell r c) ∨
  ∃ row, row < g.size ∧ ∃ col, col < g.size ∧ g.cell row col = some 0 ∧
    (∃ a b, x.cell row col = some a ∧ y.cell row col = some b ∧ a < b) ∧
    ∀ r, r < g.size → ∀ c, c < g.size → g.cell r c = some 0 →
      (r < row ∨ (r = row ∧ c < col)) → x.cell r c = y.cell r c

/-- A second completion of the empty 4x4 grid. -/
def otherFourSolution : SudokuGrid :=
  { grid := [[1, 2, 3, 4], [3, 4, 1, 2], [2, 3, 4, 1], [4, 1, 2, 3]]
    size := 4
    boxSize := 2 }

/-- What a call of `generateRandom` produces, for a finite supply of random numbers: an
out-of-range access, the fill loop still running when the supply ends, or the loop having
ended with the grid left behind. -/
inductive GenOutcome where
  | oob : GenOutcome
  | pending (g : SudokuGrid) : GenOutcome
  | finished (g : SudokuGrid) : GenOutcome
deriving DecidableEq, Repr

/-- The clearing loops of `generateRandom`: `grid[i][j] = 0` for the listed cells in order. -/
def clearCells : List (Nat × Nat) → SudokuGrid → Option SudokuGrid
  | [], g => some g
  | p :: rest, g =>
    match g.put p.1 p.2 0 with
    | none => none
    | some g1 => clearCells rest g1

/-- The loop `while (filledCells < cellsToFill)` of `generateRandom`.  Each iteration takes
three results of `std::rand()` from the supply: `row = a % size`, `col = b % size`,
`num = c % size + 1`, and places `num` if `grid[row][col] == 0 && isValid(row, col, num)`. -/
def fillLoop (cellsToFill : Int) : List (Nat × Nat × Nat) → Int → SudokuGrid → GenOutcome
  | [], filledCells, g =>
    if filledCells < cellsToFill then GenOutcome.pending g else GenOutcome.finished g
  | draw :: rest, filledCells, g =>
    if filledCells < cellsToFill then
      match g.cell (draw.1 % g.size) (draw.2.1 % g.size) with
      | none => GenOutcome.oob
      | some v =>
        if v = 0 then
          match g.isValid (draw.1 % g.size) (draw.2.1 % g.size)
              (((draw.2.2 % g.size : Nat) : Int) + 1) with
          | none => GenOutcome.oob
          | some false => fillLoop cellsToFill rest filledCells g
          | some true =>
            match g.put (draw.1 % g.size) (draw.2.1 % g.size)
                (((draw.2.2 % g.size : Nat) : Int) + 1) with
            | none => GenOutcome.oob
            | some g1 => fillLoop cellsToFill rest (filledCells + 1) g1
        else fillLoop cellsToFill rest filledCells g
    else GenOutcome.finished g

/-- `SudokuGrid::generateRandom(filledPercentage)` with the results of `std::rand()` taken
from `draws`: the grid is cleared, `cellsToFill = (size * size * filledPercentage) / 100`
with the truncating division of `int`, and the fill loop runs. -/
def SudokuGrid.generateRandom (g : SudokuGrid) (filledPercentage : Int)
    (draws : List (Nat × Nat × Nat)) : GenOutcome :=
  match clearCells (cellIndices g.size) g with
  | none => GenOutcome.oob
  | some g0 =>
    fillLoop (Int.tdiv (((g.size * g.size : Nat) : Int) * filledPercentage) 100) draws 0 g0

/-- The number of non-empty cells among the `size * size` cells. -/
def SudokuGrid.filledCount (g : SudokuGrid) : Nat :=
  (cellIndices g.size).countP (fun p => g.cell p.1 p.2 != some 0)

/-- A supply of `std::rand()` results: 24 accepted draws that fill rows 0 and 1 and the first
six cells of row 2 with the digits of `scenarioSolution`, two rejected draws after the
first one (an occupied cell, a digit already in the row), and one draw that is not used. -/
def scenarioDraws : List (Nat × Nat × Nat) :=
  [(0, 0, 4), (0, 0, 3), (0, 1, 4), (9, 10, 11), (18, 2, 21), (0, 12, 32), (9, 4, 6),
   (18, 14, 16), (0, 6, 26), (9, 16, 27), (18, 8, 1), (1, 9, 14), (10, 1, 24), (19, 11, 28),
   (1, 3, 0), (10, 13, 17), (19, 5, 22), (1, 15, 29), (10, 7, 3), (19, 17, 16), (2, 0, 18),
   (11, 10, 35), (20, 2, 7), (2, 12, 11), (11, 4, 21), (20, 14, 28), (8, 8, 8)]

/-- The grid `generateRandom(30)` leaves on a 9x9 grid with the supply `scenarioDraws`. -/
def generatedGrid : SudokuGrid :=
  { grid := [[5, 3, 4, 6, 7, 8, 9, 1, 2],
             [6, 7, 2, 1, 9, 5, 3, 4, 8],
             [1, 9, 8, 3, 4, 2, 0, 0, 0],
             [0, 0, 0, 0, 0, 0, 0, 0, 0],
             [0, 0, 0, 0, 0, 0, 0, 0, 0],
             [0, 0, 0, 0, 0, 0, 0, 0, 0],
             [0, 0, 0, 0, 0, 0, 0, 0, 0],
             [0, 0, 0, 0, 0, 0, 0, 0, 0],
             [0, 0, 0, 0, 0, 0, 0, 0, 0]]
    size := 9
    boxSize := 3 }

/-- The completion of the empty 4x4 grid that `solve` finds. -/
def firstFourSolution : SudokuGrid :=
  { grid := [[1, 2, 3, 4], [3, 4, 1, 2], [2, 1, 4, 3], [4, 3, 2, 1]]
    size := 4
    boxSize := 2 }

/-- Row-major order on cells: smaller row, or same row and smaller column. -/
def rowMajorLt (p q : Nat × Nat) : Prop :=
  p.1 < q.1 ∨ (p.1 = q.1 ∧ p.2 < q.2)

/-- The empty cells of the grid in row-major order. -/
def SudokuGrid.emptyCells (g : SudokuGrid) : List (Nat × Nat) :=
  (cellIndices g.size).filter (fun p => g.cell p.1 p.2 == some 0)

/-- The values the grid `x` holds in the empty cells of `g`, read in row-major order. -/
def SudokuGrid.reading (g x : SudokuGrid) : List Int :=
  g.emptyCells.map (fun p => (x.cell p.1 p.2).getD 0)

/-- Lexicographic `≤` on sequences of digits. -/
def lexLe : List Int → List Int → Prop
  | [], _ => True
  | _ :: _, [] => False
  | a :: as, b :: bs => a < b ∨ (a = b ∧ lexLe as bs)

/-- A 4x4 puzzle with four givens; `solve` fills it after backtracking. -/
def fourPuzzle : SudokuGrid :=
  { grid := [[0, 3, 0, 0], [0, 0, 0, 2], [4, 0, 0, 0], [0, 0, 1, 0]]
    size := 4
    boxSize := 2 }

/-- The grid `solve` leaves on `fourPuzzle`. -/
def fourPuzzleSolved : SudokuGrid :=
  { grid := [[2, 3, 4, 1], [1, 4, 3, 2], [4, 1, 2, 3], [3, 2, 1, 4]]
    size := 4
    boxSize := 2 }

/-! ## Reading and writing cells -/

theorem put_eq_some {g g1 : SudokuGrid} {r c : Nat} {v : Int} (h : g.put r c v = some g1) :
    ∃ rw, g.grid[r]? = some rw ∧ c < rw.length ∧
      g1 = { g with grid := g.grid.set r (rw.set c v) } := by
  unfold SudokuGrid.put at h
  cases hr : g.grid[r]? with
  | none => simp [hr] at h
  | some rw =>
    simp only [hr] at h
    by_cases hc : c < rw.length
    · simp only [hc, if_true, Option.some.injEq] at h
      exact ⟨rw, rfl, hc, h.symm⟩
    · simp [hc] at h

theorem put_size {g g1 : SudokuGrid} {r c : Nat} {v : Int} (h : g.put r c v = some g1) :
    g1.size = g.size := by
  obtain ⟨rw, _, _, rfl⟩ := put_eq_some h
  rfl

theorem put_boxSize {g g1 : SudokuGrid} {r c : Nat} {v : Int} (h : g.put r c v = some g1) :
    g1.boxSize = g.boxSize := by
  obtain ⟨rw, _, _, rfl⟩ := put_eq_some h
  rfl

theorem cell_put_same {g g1 : SudokuGrid} {r c : Nat} {v : Int} (h : g.put r c v = some g1) :
    g1.cell r c = some v := by
  obtain ⟨rw, hr, hc, rfl⟩ := put_eq_some h
  have hlt : r < g.grid.length := by
    rcases List.getElem?_eq_some.1 hr with ⟨h1, _⟩
    exact h1
  simp [SudokuGrid.cell, List.getElem?_set, hlt, hc]

theorem cell_put_other {g g1 : SudokuGrid} {r c : Nat} {v : Int} (h : g.put r c v = some g1)
    (r2 c2 : Nat) (hne : r2 ≠ r ∨ c2 ≠ c) : g1.cell r2 c2 = g.cell r2 c2 := by
  obtain ⟨rw, hr, hc, rfl⟩ := put_eq_some h
  have hlt : r < g.grid.length := by
    rcases List.getElem?_eq_some.1 hr with ⟨h1, _⟩
    exact h1
  by_cases hrr : r2 = r
  · subst hrr
    have hcc : c2 ≠ c := by
      rcases hne with h1 | h1
      · exact absurd rfl h1
      · exact h1
    simp [SudokuGrid.cell, List.getElem?_set, hlt, hr, Ne.symm hcc]
  · simp [SudokuGrid.cell, List.getElem?_set, Ne.symm hrr]

theorem put_of_cell {g : SudokuGrid} {r c : Nat} (h : g.cell r c ≠ none) (v : Int) :
    ∃ g1, g.put r c v = some g1 := by
  unfold SudokuGrid.cell at h
  unfold SudokuGrid.put
  cases hr : g.grid[r]? with
  | none => simp [hr] at h
  | some rw =>
    simp only [hr] at h
    have hc : c < rw.length := by
      by_contra hcon
      exact h (List.getElem?_eq_none (Nat.le_of_not_lt hcon))
    simp [hc]

theorem put_restore {g g1 : SudokuGrid} {r c : Nat} {v w : Int} (h0 : g.cell r c = some w)
    (h : g.put r c v = some g1) : g1.put r c w = some g := by
  obtain ⟨rw, hr, hc, rfl⟩ := put_eq_some h
  have hlt : r < g.grid.length := by
    rcases List.getElem?_eq_some.1 hr with ⟨h1, _⟩
    exact h1
  have hw : rw[c]? = some w := by
    simpa [SudokuGrid.cell, hr] using h0
  have hrw : (rw.set c v).set c w = rw := by
    rw [List.set_set]
    apply List.ext_getElem? 
    intro k
    by_cases hk : c = k
    · subst hk; simp [List.getElem?_set, hc, hw]
    · simp [List.getElem?_set, hk]
  have hg : (g.grid.set r (rw.set c v)).set r rw = g.grid := by
    rw [List.set_set]
    apply List.ext_getElem?
    intro k
    by_cases hk : r = k
    · subst hk; simp [List.getElem?_set, hlt, hr]
    · simp [List.getElem?_set, hk]
  simp [SudokuGrid.put, List.getElem?_set, hlt, hc, hrw, hg]

/-! ## Loops with early return -/

theorem forEach_eq_some_none {α : Type} (l : List Nat) (body : Nat → Option (Option α)) :
    forEach l body = some none ↔ ∀ i ∈ l, body i = some none := by
  induction l with
  | nil => simp [forEach]
  | cons i rest ih =>
    unfold forEach
    cases hb : body i with
    | none => simp [hb]
    | some o =>
      cases o with
      | none => simp [hb, ih]
      | some a => simp [hb]

theorem forEach_eq_some_some {α : Type} {l : List Nat} {body : Nat → Option (Option α)} {a : α}
    (h : forEach l body = some (some a)) : ∃ i ∈ l, body i = some (some a) := by
  induction l with
  | nil => simp [forEach] at h
  | cons i rest ih =>
    unfold forEach at h
    cases hb : body i with
    | none => simp [hb] at h
    | some o =>
      cases o with
      | none =>
        simp only [hb] at h
        obtain ⟨j, hj, hbj⟩ := ih h
        exact ⟨j, List.mem_cons_of_mem _ hj, hbj⟩
      | some a2 =>
        simp only [hb, Option.some.injEq] at h
        exact ⟨i, List.mem_cons_self _ _, by rw [hb, h]⟩

/-- A loop all of whose returns carry the same value `a`: it either runs through, no
iteration returning, or returns `a`, some iteration returning. -/
theorem forEach_uniform {α : Type} {l : List Nat} {body : Nat → Option (Option α)} {a : α}
    (hall : ∀ i ∈ l, body i = some none ∨ body i = some (some a)) :
    (forEach l body = some none ∧ ∀ i ∈ l, body i = some none) ∨
    (forEach l body = some (some a) ∧ ∃ i ∈ l, body i = some (some a)) := by
  induction l with
  | nil => left; simp [forEach]
  | cons i rest ih =>
    have hrest : ∀ j ∈ rest, body j = some none ∨ body j = some (some a) :=
      fun j hj => hall j (List.mem_cons_of_mem _ hj)
    rcases hall i (List.mem_cons_self _ _) with hi | hi
    · rcases ih hrest with ⟨h1, h2⟩ | ⟨h1, j, hj, h2⟩
      · left
        refine ⟨by unfold forEach; simp [hi, h1], ?_⟩
        intro k hk
        rcases List.mem_cons.1 hk with rfl | hk2
        · exact hi
        · exact h2 k hk2
      · right
        exact ⟨by unfold forEach; simp [hi, h1], j, List.mem_cons_of_mem _ hj, h2⟩
    · right
      exact ⟨by unfold forEach; simp [hi], i, List.mem_cons_self _ _, hi⟩

theorem hitBody_cases {g : SudokuGrid} {r c : Nat} (h : g.cell r c ≠ none) (num : Int) :
    (hitBody g r c num = some none ∧ g.cell r c ≠ some num) ∨
    (hitBody g r c num = some (some false) ∧ g.cell r c = some num) := by
  unfold hitBody
  cases hv : g.cell r c with
  | none => exact absurd hv h
  | some v =>
    by_cases hvn : v = num
    · right; simp [hvn]
    · left; simp [hvn]

/-! ## The legality check `isValid` -/

theorem box_arith {size b : Nat} (hb : (size = 4 ∧ b = 2) ∨ (size = 9 ∧ b = 3)) {row : Nat}
    (hrow : row < size) :
    (∀ r, r < b → row - row % b + r < size ∧ (row - row % b + r) / b = row / b) ∧
    (∀ r2, r2 < size → r2 / b = row / b → ∃ r, r < b ∧ r2 = row - row % b + r) := by
  rcases hb with ⟨rfl, rfl⟩ | ⟨rfl, rfl⟩
  · constructor
    · intro r hr; omega
    · intro r2 h2 h3; exact ⟨r2 % 2, by omega, by omega⟩
  · constructor
    · intro r hr; omega
    · intro r2 h2 h3; exact ⟨r2 % 3, by omega, by omega⟩

theorem isValid_spec {g : SudokuGrid} (hwf : g.WellFormed) {row col : Nat}
    (hrow : row < g.size) (hcol : col < g.size) (num : Int) :
    ∃ b, g.isValid row col num = some b ∧
      (b = false ↔ (g.inRow row num ∨ g.inCol col num ∨ g.inBox row col num)) := by
  obtain ⟨halloc, hbox⟩ := hwf
  obtain ⟨hR1, hR2⟩ := box_arith hbox hrow
  obtain ⟨hC1, hC2⟩ := box_arith hbox hcol
  -- the row loop
  have hrowU : ∀ c ∈ List.range g.size,
      hitBody g row c num = some none ∨ hitBody g row c num = some (some false) := by
    intro c hc
    rcases hitBody_cases (halloc row hrow c (List.mem_range.1 hc)) num with h | h
    · exact Or.inl h.1
    · exact Or.inr h.1
  have hcolU : ∀ r ∈ List.range g.size,
      hitBody g r col num = some none ∨ hitBody g r col num = some (some false) := by
    intro r hr
    rcases hitBody_cases (halloc r (List.mem_range.1 hr) col hcol) num with h | h
    · exact Or.inl h.1
    · exact Or.inr h.1
  have hinU : ∀ r ∈ List.range g.boxSize, ∀ c ∈ List.range g.boxSize,
      hitBody g (row - row % g.boxSize + r) (col - col % g.boxSize + c) num = some none ∨
      hitBody g (row - row % g.boxSize + r) (col - col % g.boxSize + c) num
        = some (some false) := by
    intro r hr c hc
    rcases hitBody_cases (halloc _ (hR1 r (List.mem_range.1 hr)).1 _
      (hC1 c (List.mem_range.1 hc)).1) num with h | h
    · exact Or.inl h.1
    · exact Or.inr h.1
  have hboxU : ∀ r ∈ List.range g.boxSize,
      forEach (List.range g.boxSize) (fun c =>
        hitBody g (row - row % g.boxSize + r) (col - col % g.boxSize + c) num) = some none ∨
      forEach (List.range g.boxSize) (fun c =>
        hitBody g (row - row % g.boxSize + r) (col - col % g.boxSize + c) num)
          = some (some false) := by
    intro r hr
    rcases forEach_uniform (hinU r hr) with h | h
    · exact Or.inl h.1
    · exact Or.inr h.1
  have cellOf : ∀ {r c : Nat}, r < g.size → c < g.size →
      hitBody g r c num = some (some false) → g.cell r c = some num := by
    intro r c hr hc h
    rcases hitBody_cases (halloc r hr c hc) num with h2 | h2
    · rw [h2.1] at h; simp at h
    · exact h2.2
  have cellNot : ∀ {r c : Nat}, r < g.size → c < g.size →
      hitBody g r c num = some none → g.cell r c ≠ some num := by
    intro r c hr hc h
    rcases hitBody_cases (halloc r hr c hc) num with h2 | h2
    · exact h2.2
    · rw [h2.1] at h; simp at h
  unfold SudokuGrid.isValid
  rcases forEach_uniform hrowU with ⟨e1, n1⟩ | ⟨e1, c, hc, hit⟩
  · rcases forEach_uniform hcolU with ⟨e2, n2⟩ | ⟨e2, r, hr, hit⟩
    · rcases forEach_uniform hboxU with ⟨e3, n3⟩ | ⟨e3, r, hr, hit⟩
      · refine ⟨true, by simp [e1, e2, e3], ?_⟩
        constructor
        · intro h; simp at h
        · rintro (⟨c, hc, hv⟩ | ⟨r, hr, hv⟩ | ⟨r, hr, c, hc, hr2, hc2, hv⟩)
          · exact absurd hv (cellNot hrow hc (n1 c (List.mem_range.2 hc)))
          · exact absurd hv (cellNot hr hcol (n2 r (List.mem_range.2 hr)))
          · obtain ⟨r0, hr0, rfl⟩ := hR2 r hr hr2
            obtain ⟨c0, hc0, rfl⟩ := hC2 c hc hc2
            have hin := (forEach_eq_some_none _ _).1 (n3 r0 (List.mem_range.2 hr0)) c0
              (List.mem_range.2 hc0)
            exact absurd hv (cellNot hr hc hin)
      · refine ⟨false, by simp [e1, e2, e3], ?_⟩
        constructor
        · intro _
          obtain ⟨c, hc, hit2⟩ := forEach_eq_some_some hit
          have hr1 := hR1 r (List.mem_range.1 hr)
          have hc1 := hC1 c (List.mem_range.1 hc)
          exact Or.inr (Or.inr ⟨_, hr1.1, _, hc1.1, hr1.2, hc1.2, cellOf hr1.1 hc1.1 hit2⟩)
        · intro _; rfl
    · refine ⟨false, by simp [e1, e2], ?_⟩
      constructor
      · intro _
        exact Or.inr (Or.inl ⟨r, List.mem_range.1 hr, cellOf (List.mem_range.1 hr) hcol hit⟩)
      · intro _; rfl
  · refine ⟨false, by simp [e1], ?_⟩
    constructor
    · intro _
      exact Or.inl ⟨c, List.mem_range.1 hc, cellOf hrow (List.mem_range.1 hc) hit⟩
    · intro _; rfl

/-! ## Finding the first empty cell, counting empty cells -/

theorem forEach_ne_none {α : Type} {l : List Nat} {body : Nat → Option (Option α)}
    (h : ∀ i ∈ l, body i ≠ none) : forEach l body ≠ none := by
  induction l with
  | nil => simp [forEach]
  | cons i rest ih =>
    unfold forEach
    cases hb : body i with
    | none => exact absurd hb (h i (List.mem_cons_self _ _))
    | some o =>
      cases o with
      | none => exact ih (fun j hj => h j (List.mem_cons_of_mem _ hj))
      | some a => simp

theorem findEmptyCell_cases {g : SudokuGrid} (halloc : g.Alloc) :
    (g.findEmptyCell = some none ∧ g.Full) ∨
    (∃ r c, g.findEmptyCell = some (some (r, c)) ∧ r < g.size ∧ c < g.size ∧
      g.cell r c = some 0) := by
  have hbody : ∀ r ∈ List.range g.size, ∀ c ∈ List.range g.size,
      (match g.cell r c with
        | none => (none : Option (Option (Nat × Nat)))
        | some v => if v = 0 then some (some (r, c)) else some none) ≠ none := by
    intro r hr c hc
    cases hv : g.cell r c with
    | none => exact absurd hv (halloc r (List.mem_range.1 hr) c (List.mem_range.1 hc))
    | some v => by_cases h0 : v = 0 <;> simp [h0]
  cases hres : g.findEmptyCell with
  | none =>
    exfalso
    unfold SudokuGrid.findEmptyCell at hres
    exact forEach_ne_none (fun r hr => forEach_ne_none (hbody r hr)) hres
  | some o =>
    cases o with
    | none =>
      left
      refine ⟨rfl, ?_⟩
      unfold SudokuGrid.findEmptyCell at hres
      intro r hr c hc hv
      have h1 := (forEach_eq_some_none _ _).1 hres r (List.mem_range.2 hr)
      have h2 := (forEach_eq_some_none _ _).1 h1 c (List.mem_range.2 hc)
      simp [hv] at h2
    | some p =>
      right
      unfold SudokuGrid.findEmptyCell at hres
      obtain ⟨r, hr, h1⟩ := forEach_eq_some_some hres
      obtain ⟨c, hc, h2⟩ := forEach_eq_some_some h1
      cases hv : g.cell r c with
      | none => simp [hv] at h2
      | some v =>
        by_cases h0 : v = 0
        · simp [hv, h0] at h2
          subst h2
          exact ⟨r, c, rfl, List.mem_range.1 hr, List.mem_range.1 hc, by rw [hv, h0]⟩
        · simp [hv, h0] at h2

theorem countP_flip {α : Type} [DecidableEq α] {l : List α} (hnd : l.Nodup) {a : α}
    (ha : a ∈ l) {p q : α → Bool} (hp : p a = true) (hq : q a = false)
    (hpq : ∀ x, x ≠ a → q x = p x) : l.countP q + 1 = l.countP p := by
  induction l with
  | nil => simp at ha
  | cons x xs ih =>
    obtain ⟨hx, hxs⟩ := List.nodup_cons.1 hnd
    by_cases hax : x = a
    · subst hax
      have hsame : xs.countP q = xs.countP p := by
        apply List.countP_congr
        intro y hy
        have hne : y ≠ x := fun h => hx (h ▸ hy)
        rw [hpq y hne]
      rw [List.countP_cons_of_neg _ _ (by simp [hq]), List.countP_cons_of_pos _ _ hp, hsame]
    · have ha2 : a ∈ xs := by
        rcases List.mem_cons.1 ha with h | h
        · exact absurd h.symm hax
        · exact h
      have ih2 := ih hxs ha2
      simp only [List.countP_cons, hpq x hax]
      omega

theorem cellIndices_nodup (n : Nat) : (cellIndices n).Nodup :=
  List.Nodup.product (List.nodup_range n) (List.nodup_range n)

theorem mem_cellIndices {n r c : Nat} : (r, c) ∈ cellIndices n ↔ r < n ∧ c < n := by
  simp [cellIndices, List.mem_product]

theorem emptyCount_put {g g1 : SudokuGrid} {r c : Nat} {v : Int} (hr : r < g.size)
    (hc : c < g.size) (h0 : g.cell r c = some 0) (hv : v ≠ 0) (h : g.put r c v = some g1) :
    g1.emptyCount + 1 = g.emptyCount := by
  unfold SudokuGrid.emptyCount
  rw [put_size h]
  apply countP_flip (cellIndices_nodup g.size) (mem_cellIndices.2 ⟨hr, hc⟩)
  · simp [h0]
  · simp [cell_put_same h, hv]
  · intro x hx
    have hne : x.1 ≠ r ∨ x.2 ≠ c := by
      by_contra hcon
      push_neg at hcon
      exact hx (Prod.ext hcon.1 hcon.2)
    rw [cell_put_other h x.1 x.2 hne]

theorem put_wellFormed {g g1 : SudokuGrid} {r c : Nat} {v : Int} (hwf : g.WellFormed)
    (h : g.put r c v = some g1) : g1.WellFormed := by
  obtain ⟨halloc, hbox⟩ := hwf
  constructor
  · intro r2 hr2 c2 hc2
    rw [put_size h] at hr2 hc2
    by_cases hne : r2 ≠ r ∨ c2 ≠ c
    · rw [cell_put_other h r2 c2 hne]
      exact halloc r2 hr2 c2 hc2
    · push_neg at hne
      rw [hne.1, hne.2, cell_put_same h]
      simp
  · unfold SudokuGrid.Boxed
    rw [put_size h, put_boxSize h]
    exact hbox

/-! ## The backtracking search -/

theorem isValid_true_peers {g : SudokuGrid} (hwf : g.WellFormed) {row col : Nat}
    (hrow : row < g.size) (hcol : col < g.size) {d : Int}
    (hv : g.isValid row col d = some true) {r c : Nat} (hr : r < g.size) (hc : c < g.size)
    (hp : r = row ∨ c = col ∨ (r / g.boxSize = row / g.boxSize ∧ c / g.boxSize = col / g.boxSize)) :
    g.cell r c ≠ some d := by
  obtain ⟨b, hb, hiff⟩ := isValid_spec hwf hrow hcol d
  rw [hv] at hb
  have hbt : b = true := by simpa using hb.symm
  intro hcell
  have : b = false := by
    apply hiff.2
    rcases hp with h | h | h
    · subst h; exact Or.inl ⟨c, hc, hcell⟩
    · subst h; exact Or.inr (Or.inl ⟨r, hr, hcell⟩)
    · exact Or.inr (Or.inr ⟨r, hr, c, hc, h.1, h.2, hcell⟩)
  rw [hbt] at this
  exact absurd this (by simp)

theorem consistent_put {g g1 : SudokuGrid} (hwf : g.WellFormed) (hcons : g.Consistent)
    {row col : Nat} (hrow : row < g.size) (hcol : col < g.size) {d : Int}
    (hv : g.isValid row col d = some true) (h : g.put row col d = some g1) :
    g1.Consistent := by
  intro r1 hr1 c1 hc1 r2 hr2 c2 hc2 hp hne0
  rw [put_size h] at hr1 hc1 hr2 hc2
  rw [put_boxSize h] at hp
  by_cases e1 : r1 = row ∧ c1 = col
  · obtain ⟨rfl, rfl⟩ := e1
    have hne : r2 ≠ r1 ∨ c2 ≠ c1 := by
      rcases hp.1 with h1 | h1
      · exact Or.inl (Ne.symm h1)
      · exact Or.inr (Ne.symm h1)
    rw [cell_put_same h, cell_put_other h r2 c2 hne]
    refine Ne.symm (isValid_true_peers hwf hrow hcol hv hr2 hc2 ?_)
    rcases hp.2 with h1 | h1 | h1
    · exact Or.inl h1.symm
    · exact Or.inr (Or.inl h1.symm)
    · exact Or.inr (Or.inr ⟨h1.1.symm, h1.2.symm⟩)
  · have hne1 : r1 ≠ row ∨ c1 ≠ col := by
      by_contra hcon
      push_neg at hcon
      exact e1 hcon
    rw [cell_put_other h r1 c1 hne1] at hne0 ⊢
    by_cases e2 : r2 = row ∧ c2 = col
    · obtain ⟨rfl, rfl⟩ := e2
      rw [cell_put_same h]
      refine isValid_true_peers hwf hrow hcol hv hr1 hc1 ?_
      rcases hp.2 with h1 | h1 | h1
      · exact Or.inl h1
      · exact Or.inr (Or.inl h1)
      · exact Or.inr (Or.inr h1)
    · have hne2 : r2 ≠ row ∨ c2 ≠ col := by
        by_contra hcon
        push_neg at hcon
        exact e2 hcon
      rw [cell_put_other h r2 c2 hne2]
      exact hcons r1 hr1 c1 hc1 r2 hr2 c2 hc2 hp hne0

theorem mem_digits {n : Nat} {d : Int} : d ∈ digits n ↔ 1 ≤ d ∧ d ≤ (n : Int) := by
  unfold digits
  constructor
  · intro h
    obtain ⟨k, hk, rfl⟩ := List.mem_map.1 h
    have := List.mem_range.1 hk
    omega
  · intro h
    refine List.mem_map.2 ⟨(d - 1).toNat, List.mem_range.2 (by omega), by omega⟩

theorem completion_step {g s : SudokuGrid} (hwf : g.WellFormed) (hs : g.Completion s)
    {row col : Nat} (hrow : row < g.size) (hcol : col < g.size)
    (h0 : g.cell row col = some 0) :
    ∃ d, d ∈ digits g.size ∧ g.isValid row col d = some true ∧
      ∀ g1, g.put row col d = some g1 → g1.Completion s := by
  obtain ⟨hsz, hbs, hcells, hcons⟩ := hs
  have hrc := hcells row hrow col hcol
  rw [if_pos h0] at hrc
  obtain ⟨d, hsd, hd1, hd2⟩ := hrc
  have hd0 : d ≠ 0 := by omega
  refine ⟨d, mem_digits.2 ⟨hd1, hd2⟩, ?_, ?_⟩
  · obtain ⟨b, hb, hiff⟩ := isValid_spec hwf hrow hcol d
    cases b with
    | true => exact hb
    | false =>
      exfalso
      have key : ∀ r c, r < g.size → c < g.size → g.cell r c = some d →
          (r = row ∨ c = col ∨
            (r / g.boxSize = row / g.boxSize ∧ c / g.boxSize = col / g.boxSize)) → False := by
        intro r c hr hc hcell hp
        have hne0 : g.cell r c ≠ some 0 := by
          rw [hcell]; simpa using hd0
        have hsrc := hcells r hr c hc
        rw [if_neg hne0, hcell] at hsrc
        have hdiff : row ≠ r ∨ col ≠ c := by
          by_contra hcon
          push_neg at hcon
          rw [← hcon.1, ← hcon.2, h0] at hcell
          exact hne0 (by rw [← hcon.1, ← hcon.2, h0])
        have hpeer : peers s.boxSize row col r c := by
          refine ⟨hdiff, ?_⟩
          rw [hbs]
          rcases hp with h1 | h1 | h1
          · exact Or.inl h1.symm
          · exact Or.inr (Or.inl h1.symm)
          · exact Or.inr (Or.inr ⟨h1.1.symm, h1.2.symm⟩)
        have := hcons row (hsz ▸ hrow) col (hsz ▸ hcol) r (hsz ▸ hr) c (hsz ▸ hc) hpeer
          (by rw [hsd]; simpa using hd0)
        exact this (by rw [hsd, hsrc])
      rcases hiff.1 rfl with ⟨c, hc, hcell⟩ | ⟨r, hr, hcell⟩ | ⟨r, hr, c, hc, e1, e2, hcell⟩
      · exact key row c hrow hc hcell (Or.inl rfl)
      · exact key r col hr hcol hcell (Or.inr (Or.inl rfl))
      · exact key r c hr hc hcell (Or.inr (Or.inr ⟨e1, e2⟩))
  · intro g1 hput
    refine ⟨by rw [hsz, put_size hput], by rw [hbs, put_boxSize hput], ?_, hcons⟩
    intro r hr c hc
    rw [put_size hput] at hr hc
    by_cases e : r = row ∧ c = col
    · obtain ⟨rfl, rfl⟩ := e
      rw [cell_put_same hput, if_neg (by simpa using hd0), hsd]
    · have hne : r ≠ row ∨ c ≠ col := by
        by_contra hcon
        push_neg at hcon
        exact e hcon
      rw [cell_put_other hput r c hne, put_size hput]
      exact hcells r hr c hc

theorem solved_refl {g : SudokuGrid} (hwf : g.WellFormed) (hfull : g.Full) : Solved g g :=
  ⟨hwf, rfl, rfl, hfull, fun _ _ _ _ _ => rfl, fun h => h, fun h => h⟩

theorem solved_step {g g1 g2 : SudokuGrid} (hwf : g.WellFormed) {row col : Nat}
    (hrow : row < g.size) (hcol : col < g.size) (h0 : g.cell row col = some 0) {d : Int}
    (hd : 1 ≤ d ∧ d ≤ (g.size : Int)) (hv : g.isValid row col d = some true)
    (hput : g.put row col d = some g1) (hsol : Solved g1 g2) : Solved g g2 := by
  obtain ⟨hwf2, hsz, hbs, hfull, hext, hcons, hrange⟩ := hsol
  refine ⟨hwf2, by rw [hsz, put_size hput], by rw [hbs, put_boxSize hput], hfull, ?_, ?_, ?_⟩
  · intro r hr c hc hne0
    have hne : r ≠ row ∨ c ≠ col := by
      by_contra hcon
      push_neg at hcon
      rw [hcon.1, hcon.2] at hne0
      exact hne0 h0
    have := hext r (by rw [put_size hput]; exact hr) c (by rw [put_size hput]; exact hc)
      (by rw [cell_put_other hput r c hne]; exact hne0)
    rw [this, cell_put_other hput r c hne]
  · intro hc
    exact hcons (consistent_put hwf hc hrow hcol hv hput)
  · intro hr
    apply hrange
    intro r hr2 c hc2
    rw [put_size hput] at hr2 hc2
    by_cases e : r = row ∧ c = col
    · obtain ⟨rfl, rfl⟩ := e
      exact ⟨d, cell_put_same hput, by omega, by rw [put_size hput]; exact hd.2⟩
    · have hne : r ≠ row ∨ c ≠ col := by
        by_contra hcon
        push_neg at hcon
        exact e hcon
      rw [cell_put_other hput r c hne, put_size hput]
      exact hr r hr2 c hc2

theorem tryDigits_spec {again : SudokuGrid → Outcome} {g : SudokuGrid} (hwf : g.WellFormed)
    {row col : Nat} (hrow : row < g.size) (hcol : col < g.size)
    (h0 : g.cell row col = some 0)
    (hag : ∀ d g1, d ≠ 0 → g.put row col d = some g1 → SolveSpec g1 (again g1))
    (ds : List Int) (hds : ∀ d ∈ ds, 1 ≤ d ∧ d ≤ (g.size : Int)) :
    ∃ b g2, tryDigits again row col ds g = Outcome.done b g2 ∧
      (b = false → g2 = g ∧ ∀ d ∈ ds, g.isValid row col d = some true →
        ∀ g1, g.put row col d = some g1 → ¬ g1.Solvable) ∧
      (b = true → Solved g g2) := by
  induction ds with
  | nil =>
    refine ⟨false, g, rfl, fun _ => ⟨rfl, ?_⟩, fun h => by simp at h⟩
    intro d hd
    simp at hd
  | cons d rest ih =>
    have hrest : ∀ x ∈ rest, 1 ≤ x ∧ x ≤ (g.size : Int) :=
      fun x hx => hds x (List.mem_cons_of_mem _ hx)
    obtain ⟨b, g2, hrun, hF, hT⟩ := ih hrest
    have hd := hds d (List.mem_cons_self _ _)
    obtain ⟨bv, hbv, _⟩ := isValid_spec hwf hrow hcol d
    cases bv with
    | false =>
      refine ⟨b, g2, by unfold tryDigits; simp only [hbv]; exact hrun, ?_, hT⟩
      intro hb
      refine ⟨(hF hb).1, ?_⟩
      intro x hx hxv
      rcases List.mem_cons.1 hx with rfl | hx2
      · rw [hbv] at hxv; simp at hxv
      · exact (hF hb).2 x hx2 hxv
    | true =>
      obtain ⟨g1, hput⟩ := put_of_cell (hwf.1 row hrow col hcol) d
      obtain ⟨b1, g3, hres, hF1, hT1⟩ := hag d g1 (by omega) hput
      cases b1 with
      | true =>
        refine ⟨true, g3, by unfold tryDigits; simp only [hbv, hput, hres], ?_, ?_⟩
        · intro h; simp at h
        · intro _
          exact solved_step hwf hrow hcol h0 hd hbv hput (hT1 rfl)
      | false =>
        obtain ⟨hg3, hns⟩ := hF1 rfl
        subst hg3
        have hback : g3.put row col 0 = some g := put_restore h0 hput
        refine ⟨b, g2, by unfold tryDigits; simp only [hbv, hput, hres, hback]; exact hrun,
          ?_, hT⟩
        intro hb
        refine ⟨(hF hb).1, ?_⟩
        intro x hx hxv gx hgx
        rcases List.mem_cons.1 hx with rfl | hx2
        · rw [hput] at hgx
          have : g3 = gx := by simpa using hgx
          rw [← this]
          exact hns
        · exact (hF hb).2 x hx2 hxv gx hgx

theorem solveAux_spec : ∀ (fuel : Nat) (g : SudokuGrid), g.WellFormed → g.emptyCount < fuel →
    SolveSpec g (solveAux fuel g) := by
  intro fuel
  induction fuel with
  | zero => intro g _ h; omega
  | succ fuel ih =>
    intro g hwf hfuel
    unfold solveAux
    rcases findEmptyCell_cases hwf.1 with ⟨hfind, hfull⟩ | ⟨row, col, hfind, hrow, hcol, h0⟩
    · rw [hfind]
      exact ⟨true, g, rfl, fun h => by simp at h, fun _ => solved_refl hwf hfull⟩
    · rw [hfind]
      have hag : ∀ d g1, d ≠ 0 → g.put row col d = some g1 →
          SolveSpec g1 (solveAux fuel g1) := by
        intro d g1 hd hput
        apply ih g1 (put_wellFormed hwf hput)
        have := emptyCount_put hrow hcol h0 hd hput
        omega
      obtain ⟨b, g2, hrun, hF, hT⟩ := tryDigits_spec hwf hrow hcol h0 hag (digits g.size)
        (fun d hd => mem_digits.1 hd)
      refine ⟨b, g2, hrun, ?_, hT⟩
      intro hb
      refine ⟨(hF hb).1, ?_⟩
      rintro ⟨s, hs⟩
      obtain ⟨d, hdm, hdv, hstep⟩ := completion_step hwf hs hrow hcol h0
      obtain ⟨g1, hput⟩ := put_of_cell (hwf.1 row hrow col hcol) d
      exact (hF hb).2 d hdm hdv g1 hput ⟨s, hstep g1 hput⟩

theorem solve_spec {g : SudokuGrid} (hwf : g.WellFormed) : SolveSpec g g.solve :=
  solveAux_spec (g.emptyCount + 1) g hwf (Nat.lt_succ_self _)

/-! ## The duplicate checks of `validateSolution` -/

theorem seenLoop_spec : ∀ (vals : List Int) (seen : List Bool),
    (∀ v ∈ vals, 0 ≤ v ∧ v.toNat < seen.length) →
    ∃ b, seenLoop (vals.map some) seen = some b ∧
      (b = true ↔ vals.Nodup ∧ ∀ v ∈ vals, seen[v.toNat]? = some false) := by
  intro vals
  induction vals with
  | nil => intro seen _; exact ⟨true, rfl, by simp⟩
  | cons v rest ih =>
    intro seen h
    have hv := h v (List.mem_cons_self _ _)
    have hrest : ∀ w ∈ rest, 0 ≤ w ∧ w.toNat < seen.length :=
      fun w hw => h w (List.mem_cons_of_mem _ hw)
    simp only [List.map_cons, seenLoop]
    rw [if_neg (by omega)]
    cases hx : seen[v.toNat]? with
    | none =>
      have := List.getElem?_eq_none_iff.1 hx
      omega
    | some x =>
      cases x with
      | true =>
        refine ⟨false, rfl, ?_⟩
        constructor
        · intro hb; simp at hb
        · intro hb
          have := hb.2 v (List.mem_cons_self _ _)
          rw [hx] at this
          simp at this
      | false =>
        obtain ⟨b, hb, hiff⟩ := ih (seen.set v.toNat true)
          (fun w hw => by rw [List.length_set]; exact hrest w hw)
        refine ⟨b, hb, ?_⟩
        rw [hiff]
        constructor
        · rintro ⟨hnd, hall⟩
          have hvn : v ∉ rest := by
            intro hmem
            have := hall v hmem
            rw [List.getElem?_set] at this
            simp [hv.2] at this
          refine ⟨List.nodup_cons.2 ⟨hvn, hnd⟩, ?_⟩
          intro w hw
          rcases List.mem_cons.1 hw with rfl | hw2
          · exact hx
          · have := hall w hw2
            rw [List.getElem?_set] at this
            by_cases e : v.toNat = w.toNat
            · simp [e, (hrest w hw2).2] at this
            · simpa [e] using this
        · rintro ⟨hnd, hall⟩
          obtain ⟨hvn, hnd2⟩ := List.nodup_cons.1 hnd
          refine ⟨hnd2, ?_⟩
          intro w hw
          have hne : v.toNat ≠ w.toNat := by
            intro e
            have hw0 := (hrest w hw).1
            have : v = w := by omega
            exact hvn (this ▸ hw)
          rw [List.getElem?_set]
          simp only [hne, if_false]
          exact hall w (List.mem_cons_of_mem _ hw)

theorem groupBody_cases {g : SudokuGrid} (hrange : g.InRange) {cells : List (Nat × Nat)}
    (hnd : cells.Nodup) (hin : ∀ p ∈ cells, p.1 < g.size ∧ p.2 < g.size) :
    (groupBody g cells = some none ∧
      ∀ p ∈ cells, ∀ q ∈ cells, p ≠ q → g.cell p.1 p.2 ≠ g.cell q.1 q.2) ∨
    (groupBody g cells = some (some false) ∧
      ∃ p ∈ cells, ∃ q ∈ cells, p ≠ q ∧ g.cell p.1 p.2 = g.cell q.1 q.2) := by
  have hval : ∀ p ∈ cells, g.cell p.1 p.2 = some ((g.cell p.1 p.2).getD 0) := by
    intro p hp
    obtain ⟨v, hv, _⟩ := hrange p.1 (hin p hp).1 p.2 (hin p hp).2
    rw [hv]; rfl
  have hmap : cells.map (fun p => g.cell p.1 p.2)
      = (cells.map (fun p => (g.cell p.1 p.2).getD 0)).map some := by
    rw [List.map_map]
    apply List.map_congr_left
    intro p hp
    exact hval p hp
  have hbound : ∀ v ∈ cells.map (fun p => (g.cell p.1 p.2).getD 0),
      0 ≤ v ∧ v.toNat < (List.replicate (g.size + 1) false).length := by
    intro v hv
    obtain ⟨p, hp, rfl⟩ := List.mem_map.1 hv
    obtain ⟨w, hw, hw0, hw1⟩ := hrange p.1 (hin p hp).1 p.2 (hin p hp).2
    rw [hw, List.length_replicate]
    simp only [Option.getD_some]
    omega
  obtain ⟨b, hb, hiff⟩ := seenLoop_spec _ _ hbound
  have hfresh : ∀ v ∈ cells.map (fun p => (g.cell p.1 p.2).getD 0),
      (List.replicate (g.size + 1) false)[v.toNat]? = some false := by
    intro v hv
    have := (hbound v hv).2
    rw [List.length_replicate] at this
    simp [List.getElem?_replicate, this]
  unfold groupBody
  rw [hmap, hb]
  cases b with
  | true =>
    left
    refine ⟨rfl, ?_⟩
    have hnd2 := (hiff.1 rfl).1
    intro p hp q hq hpq heq
    have hinj := List.inj_on_of_nodup_map hnd2 hp hq
      (by show (g.cell p.1 p.2).getD 0 = (g.cell q.1 q.2).getD 0; rw [heq])
    exact hpq hinj
  | false =>
    right
    refine ⟨rfl, ?_⟩
    by_contra hcon
    push_neg at hcon
    have hnd2 : (cells.map (fun p => (g.cell p.1 p.2).getD 0)).Nodup := by
      apply List.Nodup.map_on _ hnd
      intro p hp q hq heq
      by_contra hpq
      apply hcon p hp q hq hpq
      rw [hval p hp, hval q hq, heq]
    have := hiff.2 ⟨hnd2, hfresh⟩
    simp at this

theorem zeroPass_cases {g : SudokuGrid} (halloc : g.Alloc) :
    (forEach (List.range g.size) (fun row =>
        forEach (List.range g.size) (fun col => hitBody g row col 0)) = some none ∧ g.Full) ∨
    (forEach (List.range g.size) (fun row =>
        forEach (List.range g.size) (fun col => hitBody g row col 0)) = some (some false) ∧
      ∃ r, r < g.size ∧ ∃ c, c < g.size ∧ g.cell r c = some 0) := by
  have hin : ∀ r ∈ List.range g.size, ∀ c ∈ List.range g.size,
      hitBody g r c 0 = some none ∨ hitBody g r c 0 = some (some false) := by
    intro r hr c hc
    rcases hitBody_cases (halloc r (List.mem_range.1 hr) c (List.mem_range.1 hc)) 0 with h | h
    · exact Or.inl h.1
    · exact Or.inr h.1
  have hout : ∀ r ∈ List.range g.size,
      forEach (List.range g.size) (fun col => hitBody g r col 0) = some none ∨
      forEach (List.range g.size) (fun col => hitBody g r col 0) = some (some false) := by
    intro r hr
    rcases forEach_uniform (hin r hr) with h | h
    · exact Or.inl h.1
    · exact Or.inr h.1
  rcases forEach_uniform hout with ⟨e, hall⟩ | ⟨e, r, hr, hit⟩
  · left
    refine ⟨e, ?_⟩
    intro r hr c hc
    have h1 := (forEach_eq_some_none _ _).1 (hall r (List.mem_range.2 hr)) c (List.mem_range.2 hc)
    rcases hitBody_cases (halloc r hr c hc) 0 with h | h
    · exact h.2
    · rw [h.1] at h1; simp at h1
  · right
    refine ⟨e, ?_⟩
    obtain ⟨c, hc, hit2⟩ := forEach_eq_some_some hit
    refine ⟨r, List.mem_range.1 hr, c, List.mem_range.1 hc, ?_⟩
    rcases hitBody_cases (halloc r (List.mem_range.1 hr) c (List.mem_range.1 hc)) 0 with h | h
    · rw [h.1] at hit2; simp at hit2
    · exact h.2

theorem mem_boxStarts {size b k : Nat} : k ∈ boxStarts size b ↔ k < size ∧ k % b = 0 := by
  simp [boxStarts, List.mem_filter, List.mem_range]

theorem boxStarts_arith {size b : Nat} (hb : (size = 4 ∧ b = 2) ∨ (size = 9 ∧ b = 3)) :
    (∀ br ∈ boxStarts size b, ∀ k, k < b → br + k < size ∧ (br + k) / b = br / b) ∧
    (∀ r, r < size → ∃ br ∈ boxStarts size b, ∃ k, k < b ∧ r = br + k ∧ br / b = r / b) ∧
    (∀ br1 ∈ boxStarts size b, ∀ br2 ∈ boxStarts size b, br1 / b = br2 / b → br1 = br2) := by
  rcases hb with ⟨rfl, rfl⟩ | ⟨rfl, rfl⟩
  · refine ⟨?_, ?_, ?_⟩
    · intro br hbr k hk
      have := mem_boxStarts.1 hbr
      omega
    · intro r hr
      exact ⟨r - r % 2, mem_boxStarts.2 (by omega), r % 2, by omega, by omega, by omega⟩
    · intro b1 h1 b2 h2 h
      have := mem_boxStarts.1 h1
      have := mem_boxStarts.1 h2
      omega
  · refine ⟨?_, ?_, ?_⟩
    · intro br hbr k hk
      have := mem_boxStarts.1 hbr
      omega
    · intro r hr
      exact ⟨r - r % 3, mem_boxStarts.2 (by omega), r % 3, by omega, by omega, by omega⟩
    · intro b1 h1 b2 h2 h
      have := mem_boxStarts.1 h1
      have := mem_boxStarts.1 h2
      omega

theorem rowCells_nodup (n r : Nat) : ((List.range n).map (fun col => (r, col))).Nodup := by
  apply List.Nodup.map _ (List.nodup_range n)
  intro a b h
  simpa using h

theorem colCells_nodup (n c : Nat) : ((List.range n).map (fun row => (row, c))).Nodup := by
  apply List.Nodup.map _ (List.nodup_range n)
  intro a b h
  simpa using h

theorem boxCells_nodup (b br bc : Nat) :
    ((List.product (List.range b) (List.range b)).map
      (fun p => (br + p.1, bc + p.2))).Nodup := by
  apply List.Nodup.map _ (List.Nodup.product (List.nodup_range b) (List.nodup_range b))
  intro p q h
  simp only [Prod.mk.injEq] at h
  exact Prod.ext (by omega) (by omega)

theorem mem_boxCells {b br bc : Nat} {q : Nat × Nat} :
    q ∈ (List.product (List.range b) (List.range b)).map (fun p => (br + p.1, bc + p.2)) ↔
      ∃ k1, k1 < b ∧ ∃ k2, k2 < b ∧ q = (br + k1, bc + k2) := by
  constructor
  · intro h
    obtain ⟨p, hp, rfl⟩ := List.mem_map.1 h
    have := List.mem_product.1 hp
    exact ⟨p.1, List.mem_range.1 this.1, p.2, List.mem_range.1 this.2, rfl⟩
  · rintro ⟨k1, h1, k2, h2, rfl⟩
    exact List.mem_map.2 ⟨(k1, k2),
      List.mem_product.2 ⟨List.mem_range.2 h1, List.mem_range.2 h2⟩, rfl⟩

theorem validateSolution_spec {g : SudokuGrid} (hwf : g.WellFormed) (hrange : g.InRange) :
    ∃ b, g.validateSolution = some b ∧ (b = true ↔ g.Full ∧ g.Consistent) := by
  obtain ⟨halloc, hbox⟩ := hwf
  obtain ⟨hB1, hB2, hB3⟩ := boxStarts_arith hbox
  -- the three duplicate passes, each a loop whose only return value is `false`
  have hrowU : ∀ r ∈ List.range g.size,
      groupBody g ((List.range g.size).map (fun col => (r, col))) = some none ∨
      groupBody g ((List.range g.size).map (fun col => (r, col))) = some (some false) := by
    intro r hr
    rcases groupBody_cases hrange (rowCells_nodup g.size r) (by
      intro p hp
      obtain ⟨c, hc, rfl⟩ := List.mem_map.1 hp
      exact ⟨List.mem_range.1 hr, List.mem_range.1 hc⟩) with h | h
    · exact Or.inl h.1
    · exact Or.inr h.1
  have hcolU : ∀ c ∈ List.range g.size,
      groupBody g ((List.range g.size).map (fun row => (row, c))) = some none ∨
      groupBody g ((List.range g.size).map (fun row => (row, c))) = some (some false) := by
    intro c hc
    rcases groupBody_cases hrange (colCells_nodup g.size c) (by
      intro p hp
      obtain ⟨r, hr, rfl⟩ := List.mem_map.1 hp
      exact ⟨List.mem_range.1 hr, List.mem_range.1 hc⟩) with h | h
    · exact Or.inl h.1
    · exact Or.inr h.1
  have hboxIn : ∀ br ∈ boxStarts g.size g.boxSize, ∀ bc ∈ boxStarts g.size g.boxSize,
      ∀ p ∈ (List.product (List.range g.boxSize) (List.range g.boxSize)).map
        (fun p => (br + p.1, bc + p.2)), p.1 < g.size ∧ p.2 < g.size := by
    intro br hbr bc hbc p hp
    obtain ⟨k1, h1, k2, h2, rfl⟩ := mem_boxCells.1 hp
    exact ⟨(hB1 br hbr k1 h1).1, (hB1 bc hbc k2 h2).1⟩
  have hboxU : ∀ br ∈ boxStarts g.size g.boxSize, ∀ bc ∈ boxStarts g.size g.boxSize,
      groupBody g ((List.product (List.range g.boxSize) (List.range g.boxSize)).map
        (fun p => (br + p.1, bc + p.2))) = some none ∨
      groupBody g ((List.product (List.range g.boxSize) (List.range g.boxSize)).map
        (fun p => (br + p.1, bc + p.2))) = some (some false) := by
    intro br hbr bc hbc
    rcases groupBody_cases hrange (boxCells_nodup g.boxSize br bc) (hboxIn br hbr bc hbc)
      with h | h
    · exact Or.inl h.1
    · exact Or.inr h.1
  have hboxOut : ∀ br ∈ boxStarts g.size g.boxSize,
      forEach (boxStarts g.size g.boxSize) (fun bc =>
        groupBody g ((List.product (List.range g.boxSize) (List.range g.boxSize)).map
          (fun p => (br + p.1, bc + p.2)))) = some none ∨
      forEach (boxStarts g.size g.boxSize) (fun bc =>
        groupBody g ((List.product (List.range g.boxSize) (List.range g.boxSize)).map
          (fun p => (br + p.1, bc + p.2)))) = some (some false) := by
    intro br hbr
    rcases forEach_uniform (hboxU br hbr) with h | h
    · exact Or.inl h.1
    · exact Or.inr h.1
  -- a duplicate found by a pass contradicts `Full ∧ Consistent`
  have dupNo : ∀ {cells : List (Nat × Nat)},
      (∀ p ∈ cells, p.1 < g.size ∧ p.2 < g.size) →
      (∀ p ∈ cells, ∀ q ∈ cells, p ≠ q → peers g.boxSize p.1 p.2 q.1 q.2) →
      groupBody g cells = some (some false) → cells.Nodup → ¬ (g.Full ∧ g.Consistent) := by
    intro cells hin hpeer hgb hnd hfc
    rcases groupBody_cases hrange hnd hin with h | ⟨_, p, hp, q, hq, hpq, heq⟩
    · rw [h.1] at hgb; simp at hgb
    · exact hfc.2 p.1 (hin p hp).1 p.2 (hin p hp).2 q.1 (hin q hq).1 q.2 (hin q hq).2
        (hpeer p hp q hq hpq) (hfc.1 p.1 (hin p hp).1 p.2 (hin p hp).2) heq
  have noDup : ∀ {cells : List (Nat × Nat)},
      (∀ p ∈ cells, p.1 < g.size ∧ p.2 < g.size) →
      groupBody g cells = some none → cells.Nodup →
      ∀ p ∈ cells, ∀ q ∈ cells, p ≠ q → g.cell p.1 p.2 ≠ g.cell q.1 q.2 := by
    intro cells hin hgb hnd
    rcases groupBody_cases hrange hnd hin with h | h
    · exact h.2
    · rw [h.1] at hgb; simp at hgb
  unfold SudokuGrid.validateSolution
  rcases zeroPass_cases halloc with ⟨e0, hfull⟩ | ⟨e0, r, hr, c, hc, hz⟩
  swap
  · exact ⟨false, by simp [e0], by
      constructor
      · intro h; simp at h
      · intro h; exact absurd hz (h.1 r hr c hc)⟩
  rcases forEach_uniform hrowU with ⟨e1, n1⟩ | ⟨e1, r, hr, hit⟩
  swap
  · refine ⟨false, by simp [e0, e1], ?_⟩
    constructor
    · intro h; simp at h
    · intro h
      exfalso
      refine dupNo ?_ ?_ hit (rowCells_nodup g.size r) h
      · intro p hp
        obtain ⟨c, hc, rfl⟩ := List.mem_map.1 hp
        exact ⟨List.mem_range.1 hr, List.mem_range.1 hc⟩
      · intro p hp q hq hpq
        obtain ⟨c1, _, rfl⟩ := List.mem_map.1 hp
        obtain ⟨c2, _, rfl⟩ := List.mem_map.1 hq
        refine ⟨Or.inr ?_, Or.inl rfl⟩
        intro h2
        have h3 : c1 = c2 := h2
        exact hpq (by rw [h3])
  rcases forEach_uniform hcolU with ⟨e2, n2⟩ | ⟨e2, c, hc, hit⟩
  swap
  · refine ⟨false, by simp [e0, e1, e2], ?_⟩
    constructor
    · intro h; simp at h
    · intro h
      exfalso
      refine dupNo ?_ ?_ hit (colCells_nodup g.size c) h
      · intro p hp
        obtain ⟨r, hr, rfl⟩ := List.mem_map.1 hp
        exact ⟨List.mem_range.1 hr, List.mem_range.1 hc⟩
      · intro p hp q hq hpq
        obtain ⟨r1, _, rfl⟩ := List.mem_map.1 hp
        obtain ⟨r2, _, rfl⟩ := List.mem_map.1 hq
        refine ⟨Or.inl ?_, Or.inr (Or.inl rfl)⟩
        intro h2
        have h3 : r1 = r2 := h2
        exact hpq (by rw [h3])
  rcases forEach_uniform hboxOut with ⟨e3, n3⟩ | ⟨e3, br, hbr, hit⟩
  swap
  · refine ⟨false, by simp [e0, e1, e2, e3], ?_⟩
    constructor
    · intro h; simp at h
    · intro h
      exfalso
      obtain ⟨bc, hbc, hit2⟩ := forEach_eq_some_some hit
      refine dupNo (hboxIn br hbr bc hbc) ?_ hit2 (boxCells_nodup g.boxSize br bc) h
      intro p hp q hq hpq
      obtain ⟨k1, h1, k2, h2, rfl⟩ := mem_boxCells.1 hp
      obtain ⟨j1, i1, j2, i2, rfl⟩ := mem_boxCells.1 hq
      refine ⟨?_, Or.inr (Or.inr ⟨?_, ?_⟩)⟩
      · by_contra hcon
        push_neg at hcon
        exact hpq (Prod.ext hcon.1 hcon.2)
      · rw [(hB1 br hbr k1 h1).2, (hB1 br hbr j1 i1).2]
      · rw [(hB1 bc hbc k2 h2).2, (hB1 bc hbc j2 i2).2]
  refine ⟨true, by simp [e0, e1, e2, e3], ?_⟩
  constructor
  · intro _
    refine ⟨hfull, ?_⟩
    intro r1 hr1 c1 hc1 r2 hr2 c2 hc2 hp _
    rcases hp.2 with h | h | h
    · subst h
      have hgb := n1 r1 (List.mem_range.2 hr1)
      refine noDup ?_ hgb (rowCells_nodup g.size r1) (r1, c1)
        (List.mem_map.2 ⟨c1, List.mem_range.2 hc1, rfl⟩) (r1, c2)
        (List.mem_map.2 ⟨c2, List.mem_range.2 hc2, rfl⟩) ?_
      · intro p hp2
        obtain ⟨c, hc, rfl⟩ := List.mem_map.1 hp2
        exact ⟨hr1, List.mem_range.1 hc⟩
      · intro h2
        rcases hp.1 with h3 | h3
        · exact h3 rfl
        · exact h3 (by simpa using h2)
    · subst h
      have hgb := n2 c1 (List.mem_range.2 hc1)
      refine noDup ?_ hgb (colCells_nodup g.size c1) (r1, c1)
        (List.mem_map.2 ⟨r1, List.mem_range.2 hr1, rfl⟩) (r2, c1)
        (List.mem_map.2 ⟨r2, List.mem_range.2 hr2, rfl⟩) ?_
      · intro p hp2
        obtain ⟨r, hr, rfl⟩ := List.mem_map.1 hp2
        exact ⟨List.mem_range.1 hr, hc1⟩
      · intro h2
        rcases hp.1 with h3 | h3
        · exact h3 (by simpa using h2)
        · exact h3 rfl
    · obtain ⟨br, hbr, k1, hk1, er1, ebr⟩ := hB2 r1 hr1
      obtain ⟨bc, hbc, k2, hk2, ec1, ebc⟩ := hB2 c1 hc1
      obtain ⟨br2, hbr2, j1, hj1, er2, ebr2⟩ := hB2 r2 hr2
      obtain ⟨bc2, hbc2, j2, hj2, ec2, ebc2⟩ := hB2 c2 hc2
      have hbrEq : br2 = br := hB3 br2 hbr2 br hbr (by rw [ebr2, ebr, h.1])
      have hbcEq : bc2 = bc := hB3 bc2 hbc2 bc hbc (by rw [ebc2, ebc, h.2])
      subst hbrEq hbcEq
      have hgb := (forEach_eq_some_none _ _).1 (n3 br2 hbr) bc2 hbc
      have := noDup (hboxIn br2 hbr bc2 hbc) hgb (boxCells_nodup g.boxSize br2 bc2)
        (r1, c1) (mem_boxCells.2 ⟨k1, hk1, k2, hk2, by rw [er1, ec1]⟩)
        (r2, c2) (mem_boxCells.2 ⟨j1, hj1, j2, hj2, by rw [er2, ec2]⟩)
        (by
          intro h2
          rcases hp.1 with h3 | h3
          · exact h3 (by simpa using congrArg Prod.fst h2)
          · exact h3 (by simpa using congrArg Prod.snd h2))
      exact this
  · intro _; rfl

/-! ## Duplicate-free groups contain every digit exactly once -/

theorem digits_nodup (n : Nat) : ((digits n).map some).Nodup := by
  unfold digits
  rw [List.map_map]
  apply List.Nodup.map _ (List.nodup_range n)
  intro a b h
  simp only [Function.comp, Option.some.injEq] at h
  omega

theorem digits_length (n : Nat) : ((digits n).map some).length = n := by
  simp [digits]

theorem mem_digits_some {n : Nat} {o : Option Int} :
    o ∈ (digits n).map some ↔ ∃ d, o = some d ∧ 1 ≤ d ∧ d ≤ (n : Int) := by
  constructor
  · intro h
    obtain ⟨d, hd, rfl⟩ := List.mem_map.1 h
    exact ⟨d, rfl, mem_digits.1 hd⟩
  · rintro ⟨d, rfl, hd⟩
    exact List.mem_map.2 ⟨d, mem_digits.2 hd, rfl⟩

/-- A list of `n` cell values is duplicate-free with all values digits `1..n` exactly when
every digit `1..n` occurs in it once. -/
theorem group_once_iff {n : Nat} {vals : List (Option Int)} (hlen : vals.length = n) :
    (vals.Nodup ∧ ∀ o ∈ vals, o ∈ (digits n).map some) ↔
      ∀ d : Int, 1 ≤ d → d ≤ (n : Int) →
        vals.countP (fun o => decide (o = some d)) = 1 := by
  constructor
  · rintro ⟨hnd, hsub⟩ d hd1 hd2
    have hperm : vals.Perm ((digits n).map some) :=
      (List.subperm_of_subset hnd hsub).perm_of_length_le
        (by rw [digits_length, hlen])
    rw [hperm.countP_eq]
    exact List.count_eq_one_of_mem (digits_nodup n) (mem_digits_some.2 ⟨d, rfl, hd1, hd2⟩)
  · intro h
    have hsub : (digits n).map some ⊆ vals := by
      intro o ho
      obtain ⟨d, rfl, hd1, hd2⟩ := mem_digits_some.1 ho
      have := h d hd1 hd2
      have hpos : 0 < vals.countP (fun o => decide (o = some d)) := by omega
      obtain ⟨o, ho, hod⟩ := List.countP_pos_iff.1 hpos
      have : o = some d := by simpa using hod
      exact this ▸ ho
    have hperm : ((digits n).map some).Perm vals :=
      (List.subperm_of_subset (digits_nodup n) hsub).perm_of_length_le
        (by rw [digits_length, hlen])
    exact ⟨hperm.nodup_iff.1 (digits_nodup n), fun o ho => hperm.mem_iff.2 ho⟩

theorem rowCells_length (n r : Nat) : (rowCells n r).length = n := by
  simp [rowCells]

theorem colCells_length (n c : Nat) : (colCells n c).length = n := by
  simp [colCells]

theorem boxCells_length (b br bc : Nat) : (boxCells b br bc).length = b * b := by
  unfold boxCells
  rw [List.length_map]
  exact (List.length_product _ _).trans (by rw [List.length_range])

theorem mem_rowCells {n r : Nat} {q : Nat × Nat} : q ∈ rowCells n r ↔ q.1 = r ∧ q.2 < n := by
  unfold rowCells
  constructor
  · intro h
    obtain ⟨c, hc, rfl⟩ := List.mem_map.1 h
    exact ⟨rfl, List.mem_range.1 hc⟩
  · rintro ⟨h1, h2⟩
    exact List.mem_map.2 ⟨q.2, List.mem_range.2 h2, by rw [← h1]⟩

theorem mem_colCells {n c : Nat} {q : Nat × Nat} : q ∈ colCells n c ↔ q.1 < n ∧ q.2 = c := by
  unfold colCells
  constructor
  · intro h
    obtain ⟨r, hr, rfl⟩ := List.mem_map.1 h
    exact ⟨List.mem_range.1 hr, rfl⟩
  · rintro ⟨h1, h2⟩
    exact List.mem_map.2 ⟨q.1, List.mem_range.2 h1, by rw [← h2]⟩

/-- The cells of a group are pairwise different peers inside the grid, and there are
`size` of them. -/
theorem group_props {size b : Nat} (hb : (size = 4 ∧ b = 2) ∨ (size = 9 ∧ b = 3))
    {cells : List (Nat × Nat)} (hg : IsGroup size b cells) :
    cells.Nodup ∧ cells.length = size ∧ (∀ p ∈ cells, p.1 < size ∧ p.2 < size) ∧
      (∀ p ∈ cells, ∀ q ∈ cells, p ≠ q → peers b p.1 p.2 q.1 q.2) := by
  have hne : ∀ {p q : Nat × Nat}, p ≠ q → p.1 ≠ q.1 ∨ p.2 ≠ q.2 := by
    intro p q hpq
    by_contra hcon
    push_neg at hcon
    exact hpq (Prod.ext hcon.1 hcon.2)
  rcases hg with ⟨r, hr, rfl⟩ | ⟨c, hc, rfl⟩ | ⟨br, hbr, bc, hbc, rfl⟩
  · refine ⟨rowCells_nodup size r, rowCells_length size r, ?_, ?_⟩
    · intro p hp
      have := mem_rowCells.1 hp
      exact ⟨by rw [this.1]; exact hr, this.2⟩
    · intro p hp q hq hpq
      exact ⟨hne hpq, Or.inl ((mem_rowCells.1 hp).1.trans (mem_rowCells.1 hq).1.symm)⟩
  · refine ⟨colCells_nodup size c, colCells_length size c, ?_, ?_⟩
    · intro p hp
      have := mem_colCells.1 hp
      exact ⟨this.1, by rw [this.2]; exact hc⟩
    · intro p hp q hq hpq
      exact ⟨hne hpq, Or.inr (Or.inl ((mem_colCells.1 hp).2.trans (mem_colCells.1 hq).2.symm))⟩
  · obtain ⟨hB1, _, _⟩ := boxStarts_arith hb
    refine ⟨boxCells_nodup b br bc, ?_, ?_, ?_⟩
    · rw [boxCells_length]
      rcases hb with ⟨rfl, rfl⟩ | ⟨rfl, rfl⟩ <;> rfl
    · intro p hp
      obtain ⟨k1, h1, k2, h2, rfl⟩ := mem_boxCells.1 hp
      exact ⟨(hB1 br hbr k1 h1).1, (hB1 bc hbc k2 h2).1⟩
    · intro p hp q hq hpq
      obtain ⟨k1, h1, k2, h2, rfl⟩ := mem_boxCells.1 hp
      obtain ⟨j1, i1, j2, i2, rfl⟩ := mem_boxCells.1 hq
      refine ⟨hne hpq, Or.inr (Or.inr ⟨?_, ?_⟩)⟩
      · rw [(hB1 br hbr k1 h1).2, (hB1 br hbr j1 i1).2]
      · rw [(hB1 bc hbc k2 h2).2, (hB1 bc hbc j2 i2).2]

/-- Two peers lie in a common group. -/
theorem peers_group {size b : Nat} (hb : (size = 4 ∧ b = 2) ∨ (size = 9 ∧ b = 3))
    {r1 c1 r2 c2 : Nat} (hr1 : r1 < size) (hc1 : c1 < size) (hr2 : r2 < size)
    (hc2 : c2 < size) (hp : peers b r1 c1 r2 c2) :
    ∃ cells, IsGroup size b cells ∧ (r1, c1) ∈ cells ∧ (r2, c2) ∈ cells := by
  rcases hp.2 with h | h | h
  · exact ⟨rowCells size r1, Or.inl ⟨r1, hr1, rfl⟩, mem_rowCells.2 ⟨rfl, hc1⟩,
      mem_rowCells.2 ⟨h.symm, hc2⟩⟩
  · exact ⟨colCells size c1, Or.inr (Or.inl ⟨c1, hc1, rfl⟩), mem_colCells.2 ⟨hr1, rfl⟩,
      mem_colCells.2 ⟨hr2, h.symm⟩⟩
  · obtain ⟨_, hB2, hB3⟩ := boxStarts_arith hb
    obtain ⟨br, hbr, k1, hk1, er1, ebr⟩ := hB2 r1 hr1
    obtain ⟨bc, hbc, k2, hk2, ec1, ebc⟩ := hB2 c1 hc1
    obtain ⟨br2, hbr2, j1, hj1, er2, ebr2⟩ := hB2 r2 hr2
    obtain ⟨bc2, hbc2, j2, hj2, ec2, ebc2⟩ := hB2 c2 hc2
    have hbrEq : br2 = br := hB3 br2 hbr2 br hbr (by rw [ebr2, ebr, h.1])
    have hbcEq : bc2 = bc := hB3 bc2 hbc2 bc hbc (by rw [ebc2, ebc, h.2])
    subst hbrEq hbcEq
    exact ⟨boxCells b br2 bc2, Or.inr (Or.inr ⟨br2, hbr, bc2, hbc, rfl⟩),
      mem_boxCells.2 ⟨k1, hk1, k2, hk2, by rw [er1, ec1]⟩,
      mem_boxCells.2 ⟨j1, hj1, j2, hj2, by rw [er2, ec2]⟩⟩

theorem eachDigitOnce_iff_groups (g : SudokuGrid) :
    g.EachDigitOnce ↔ ∀ cells, IsGroup g.size g.boxSize cells →
      ∀ d : Int, 1 ≤ d → d ≤ (g.size : Int) → g.occurrences cells d = 1 := by
  constructor
  · intro h cells hg d hd1 hd2
    obtain ⟨h1, h2, h3⟩ := h d hd1 hd2
    rcases hg with ⟨r, hr, rfl⟩ | ⟨c, hc, rfl⟩ | ⟨br, hbr, bc, hbc, rfl⟩
    · exact h1 r hr
    · exact h2 c hc
    · exact h3 br hbr bc hbc
  · intro h d hd1 hd2
    exact ⟨fun r hr => h _ (Or.inl ⟨r, hr, rfl⟩) d hd1 hd2,
      fun c hc => h _ (Or.inr (Or.inl ⟨c, hc, rfl⟩)) d hd1 hd2,
      fun br hbr bc hbc => h _ (Or.inr (Or.inr ⟨br, hbr, bc, hbc, rfl⟩)) d hd1 hd2⟩

theorem occurrences_eq (g : SudokuGrid) (cells : List (Nat × Nat)) (d : Int) :
    g.occurrences cells d
      = (cells.map (fun p => g.cell p.1 p.2)).countP (fun o => decide (o = some d)) := by
  unfold SudokuGrid.occurrences
  rw [List.countP_map]
  rfl

theorem eachDigitOnce_iff {g : SudokuGrid} (hwf : g.WellFormed) (hrange : g.InRange) :
    g.EachDigitOnce ↔ g.Full ∧ g.Consistent := by
  obtain ⟨_, hbox⟩ := hwf
  rw [eachDigitOnce_iff_groups]
  constructor
  · intro h
    have hgroup : ∀ cells, IsGroup g.size g.boxSize cells →
        (cells.map (fun p => g.cell p.1 p.2)).Nodup ∧
        ∀ o ∈ cells.map (fun p => g.cell p.1 p.2), o ∈ (digits g.size).map some := by
      intro cells hg
      obtain ⟨_, hlen, _, _⟩ := group_props hbox hg
      apply (group_once_iff (by rw [List.length_map, hlen])).2
      intro d hd1 hd2
      rw [← occurrences_eq]
      exact h cells hg d hd1 hd2
    constructor
    · intro r hr c hc h0
      have hmem := (hgroup (rowCells g.size r) (Or.inl ⟨r, hr, rfl⟩)).2 (g.cell r c)
        (List.mem_map.2 ⟨(r, c), mem_rowCells.2 ⟨rfl, hc⟩, rfl⟩)
      obtain ⟨d, hd, hd1, _⟩ := mem_digits_some.1 hmem
      rw [h0] at hd
      have : (0 : Int) = d := by simpa using hd
      omega
    · intro r1 hr1 c1 hc1 r2 hr2 c2 hc2 hp _ heq
      obtain ⟨cells, hg, hm1, hm2⟩ := peers_group hbox hr1 hc1 hr2 hc2 hp
      have hinj := List.inj_on_of_nodup_map (hgroup cells hg).1 hm1 hm2 heq
      rcases hp.1 with h1 | h1
      · exact h1 (congrArg Prod.fst hinj)
      · exact h1 (congrArg Prod.snd hinj)
  · rintro ⟨hfull, hcons⟩ cells hg d hd1 hd2
    obtain ⟨hnd, hlen, hin, hpeer⟩ := group_props hbox hg
    rw [occurrences_eq]
    refine (group_once_iff (by rw [List.length_map, hlen])).1 ⟨?_, ?_⟩ d hd1 hd2
    · apply List.Nodup.map_on _ hnd
      intro p hp q hq heq
      by_contra hpq
      exact hcons p.1 (hin p hp).1 p.2 (hin p hp).2 q.1 (hin q hq).1 q.2 (hin q hq).2
        (hpeer p hp q hq hpq) (hfull p.1 (hin p hp).1 p.2 (hin p hp).2) heq
    · intro o ho
      obtain ⟨p, hp, rfl⟩ := List.mem_map.1 ho
      obtain ⟨v, hv, hv0, hv1⟩ := hrange p.1 (hin p hp).1 p.2 (hin p hp).2
      have hne := hfull p.1 (hin p hp).1 p.2 (hin p hp).2
      rw [hv] at hne
      have : v ≠ 0 := fun h => hne (by rw [h])
      exact mem_digits_some.2 ⟨v, hv, by omega, hv1⟩

/-! ## Loading a puzzle -/

theorem loadRow_step (f : Bool) (ln : List Char) (row c : Nat) (rest : List Nat)
    (g : SudokuGrid) {ch : Char} (hch : ln[c]? = some ch) (hcell : g.cell row c ≠ none) :
    (charAccepted f g.size ch ∧ ∃ g1, g.put row c (charValue ch) = some g1 ∧
      loadRow f ln row (c :: rest) g = loadRow f ln row rest g1) ∨
    (¬ charAccepted f g.size ch ∧ loadRow f ln row (c :: rest) g = some (false, g)) := by
  by_cases h1 : ch = '.' ∨ ch = '0'
  · left
    obtain ⟨g1, hput⟩ := put_of_cell hcell 0
    refine ⟨by rcases h1 with h | h; exact Or.inl h; exact Or.inr (Or.inl h), g1, ?_, ?_⟩
    · simp only [charValue, if_pos h1]; exact hput
    · simp only [loadRow, hch, if_pos h1, hput]
  · have h1a : ch ≠ '.' := fun h => h1 (Or.inl h)
    have h1b : ch ≠ '0' := fun h => h1 (Or.inr h)
    by_cases h2 : '1' ≤ ch ∧ ch ≤ '9'
    · by_cases h3 : f = true ∧ g.size = 4 ∧ '4' < ch
      · right
        refine ⟨?_, by simp only [loadRow, hch, if_neg h1, if_pos h2, if_pos h3]⟩
        rintro (h | h | h)
        · exact h1a h
        · exact h1b h
        · exact h.2 h3
      · left
        obtain ⟨g1, hput⟩ := put_of_cell hcell ((ch.toNat : Int) - ('0'.toNat : Int))
        refine ⟨Or.inr (Or.inr ⟨h2, h3⟩), g1, ?_, ?_⟩
        · simp only [charValue, if_neg h1]; exact hput
        · simp only [loadRow, hch, if_neg h1, if_pos h2, if_neg h3, hput]
    · right
      refine ⟨?_, by simp only [loadRow, hch, if_neg h1, if_neg h2]⟩
      rintro (h | h | h)
      · exact h1a h
      · exact h1b h
      · exact h2 h.1

theorem loadRow_spec (f : Bool) (ln : List Char) (row : Nat) :
    ∀ (cols : List Nat) (g : SudokuGrid), cols.Nodup →
      (∀ c ∈ cols, c < ln.length ∧ g.cell row c ≠ none) →
      ∃ b g2, loadRow f ln row cols g = some (b, g2) ∧ g2.size = g.size ∧
        g2.boxSize = g.boxSize ∧
        (∀ r c, r ≠ row → g2.cell r c = g.cell r c) ∧
        (∀ c, g.cell row c ≠ none → g2.cell row c ≠ none) ∧
        (b = true ↔ ∀ c ∈ cols, ∃ ch, ln[c]? = some ch ∧ charAccepted f g.size ch) ∧
        (b = true → (∀ c ∈ cols, ∃ ch, ln[c]? = some ch ∧ g2.cell row c = some (charValue ch)) ∧
          ∀ c, c ∉ cols → g2.cell row c = g.cell row c) := by
  intro cols
  induction cols with
  | nil =>
    intro g _ _
    exact ⟨true, g, rfl, rfl, rfl, fun _ _ _ => rfl, fun _ h => h, by simp, by simp⟩
  | cons c rest ih =>
    intro g hnd hcols
    obtain ⟨hc, hrest⟩ := List.nodup_cons.1 hnd
    obtain ⟨hclt, hccell⟩ := hcols c (List.mem_cons_self _ _)
    obtain ⟨ch, hch⟩ : ∃ ch, ln[c]? = some ch :=
      ⟨ln[c], List.getElem?_eq_getElem hclt⟩
    rcases loadRow_step f ln row c rest g hch hccell with ⟨hacc, g1, hput, hrun⟩ | ⟨hrej, hrun⟩
    · have hcells1 : ∀ c2 ∈ rest, c2 < ln.length ∧ g1.cell row c2 ≠ none := by
        intro c2 hc2
        refine ⟨(hcols c2 (List.mem_cons_of_mem _ hc2)).1, ?_⟩
        have hne : c2 ≠ c := fun h => hc (h ▸ hc2)
        rw [cell_put_other hput row c2 (Or.inr hne)]
        exact (hcols c2 (List.mem_cons_of_mem _ hc2)).2
      obtain ⟨b, g2, hrun2, hsz, hbs, hother, hkeep, hiff, hvals⟩ := ih g1 hrest hcells1
      refine ⟨b, g2, by rw [hrun, hrun2], by rw [hsz, put_size hput],
        by rw [hbs, put_boxSize hput], ?_, ?_, ?_, ?_⟩
      · intro r c2 hr
        rw [hother r c2 hr, cell_put_other hput r c2 (Or.inl hr)]
      · intro c2 hc2
        apply hkeep
        by_cases e : c2 = c
        · rw [e, cell_put_same hput]; simp
        · rw [cell_put_other hput row c2 (Or.inr e)]; exact hc2
      · rw [hiff, put_size hput]
        constructor
        · intro h c2 hc2
          rcases List.mem_cons.1 hc2 with rfl | hc3
          · exact ⟨ch, hch, hacc⟩
          · exact h c2 hc3
        · intro h c2 hc2
          exact h c2 (List.mem_cons_of_mem _ hc2)
      · intro hb
        obtain ⟨hv1, hv2⟩ := hvals hb
        constructor
        · intro c2 hc2
          rcases List.mem_cons.1 hc2 with rfl | hc3
          · exact ⟨ch, hch, by rw [hv2 c2 hc, cell_put_same hput]⟩
          · exact hv1 c2 hc3
        · intro c2 hc2
          have hne : c2 ≠ c := fun h => hc2 (h ▸ List.mem_cons_self _ _)
          rw [hv2 c2 (fun h => hc2 (List.mem_cons_of_mem _ h)),
            cell_put_other hput row c2 (Or.inr hne)]
    · refine ⟨false, g, hrun, rfl, rfl, fun _ _ _ => rfl, fun _ h => h, ?_, ?_⟩
      · constructor
        · intro h; simp at h
        · intro h
          exfalso
          obtain ⟨ch2, hch2, hacc⟩ := h c (List.mem_cons_self _ _)
          rw [hch] at hch2
          have : ch = ch2 := by simpa using hch2
          exact hrej (this ▸ hacc)
      · intro h; simp at h

theorem loadRest_spec : ∀ (more : List (List Char)) (row : Nat) (g : SudokuGrid),
    g.Alloc → row ≤ g.size →
    ∃ b g2, loadRest more row g = some (b, g2) ∧ g2.size = g.size ∧
      g2.boxSize = g.boxSize ∧
      (∀ r c, r < row → g2.cell r c = g.cell r c) ∧
      (b = true ↔ ∀ k, row + k < g.size → ∃ ln, more[k]? = some ln ∧ ln.length = g.size ∧
        ∀ c, c < g.size → ∃ ch, ln[c]? = some ch ∧ charAccepted true g.size ch) ∧
      (b = true → ∀ k ln, row + k < g.size → more[k]? = some ln →
        ∀ c ch, c < g.size → ln[c]? = some ch → g2.cell (row + k) c = some (charValue ch)) := by
  intro more
  induction more with
  | nil =>
    intro row g _ hrow
    refine ⟨decide (row = g.size), g, rfl, rfl, rfl, fun _ _ _ => rfl, ?_, ?_⟩
    · constructor
      · intro h k hk
        have : row = g.size := by simpa using h
        omega
      · intro h
        have : ¬ row < g.size := by
          intro hlt
          obtain ⟨ln, hln, _⟩ := h 0 (by omega)
          simp at hln
        simp only [decide_eq_true_eq]
        omega
    · intro _ k ln _ hln
      simp at hln
  | cons ln more ih =>
    intro row g halloc hrow
    by_cases hlt : row < g.size
    · by_cases hlen : ln.length ≠ g.size
      · refine ⟨false, g, by simp only [loadRest, if_pos hlt, if_pos hlen], rfl, rfl,
          fun _ _ _ => rfl, ?_, fun h => by simp at h⟩
        constructor
        · intro h; simp at h
        · intro h
          exfalso
          obtain ⟨ln2, hln2, hl, _⟩ := h 0 (by omega)
          simp only [List.getElem?_cons_zero, Option.some.injEq] at hln2
          exact hlen (hln2 ▸ hl)
      · have hlen2 : ln.length = g.size := not_not.1 hlen
        obtain ⟨b1, g1, hrun1, hsz1, hbs1, hother1, hkeep1, hiff1, hvals1⟩ :=
          loadRow_spec true ln row (List.range g.size) g (List.nodup_range _)
            (fun c hc => ⟨by rw [hlen2]; exact List.mem_range.1 hc,
              halloc row hlt c (List.mem_range.1 hc)⟩)
        cases b1 with
        | false =>
          refine ⟨false, g1, by simp only [loadRest, if_pos hlt, if_neg hlen, hrun1], hsz1,
            hbs1, fun r c hr => hother1 r c (by omega), ?_, fun h => by simp at h⟩
          constructor
          · intro h; simp at h
          · intro h
            exfalso
            obtain ⟨ln2, hln2, _, hchars⟩ := h 0 (by omega)
            simp only [List.getElem?_cons_zero, Option.some.injEq] at hln2
            subst hln2
            have := hiff1.2 (fun c hc => hchars c (List.mem_range.1 hc))
            simp at this
        | true =>
          have halloc1 : g1.Alloc := by
            intro r hr c hc
            rw [hsz1] at hr hc
            by_cases e : r = row
            · rw [e]; exact hkeep1 c (halloc row hlt c hc)
            · rw [hother1 r c e]; exact halloc r hr c hc
          obtain ⟨b, g2, hrun2, hsz2, hbs2, hpre2, hiff2, hvals2⟩ :=
            ih (row + 1) g1 halloc1 (by rw [hsz1]; omega)
          have hfirst := hiff1.1 rfl
          refine ⟨b, g2, by simp only [loadRest, if_pos hlt, if_neg hlen, hrun1]; exact hrun2,
            by rw [hsz2, hsz1], by rw [hbs2, hbs1], ?_, ?_, ?_⟩
          · intro r c hr
            rw [hpre2 r c (by omega), hother1 r c (by omega)]
          · rw [hiff2, hsz1]
            constructor
            · intro h k hk
              cases k with
              | zero =>
                exact ⟨ln, by simp, hlen2, fun c hc => hfirst c (List.mem_range.2 hc)⟩
              | succ k =>
                obtain ⟨ln2, hln2, hrest⟩ := h k (by omega)
                exact ⟨ln2, by simpa using hln2, hrest⟩
            · intro h k hk
              obtain ⟨ln2, hln2, hrest⟩ := h (k + 1) (by omega)
              exact ⟨ln2, by simpa using hln2, hrest⟩
          · intro hb k ln2 hk hln2 c ch hc hch
            cases k with
            | zero =>
              simp only [List.getElem?_cons_zero, Option.some.injEq] at hln2
              subst hln2
              obtain ⟨ch2, hch2, hv⟩ := (hvals1 rfl).1 c (List.mem_range.2 hc)
              rw [hch] at hch2
              have : ch = ch2 := by simpa using hch2
              rw [Nat.add_zero, hpre2 row c (by omega), hv, this]
            | succ k =>
              have := hvals2 hb k ln2 (by rw [hsz1]; omega) (by simpa using hln2) c ch
                (by rw [hsz1]; exact hc) hch
              rw [← this]
              congr 1
              omega
    · have heq : row = g.size := by omega
      refine ⟨true, g, by simp [loadRest, heq], rfl, rfl,
        fun _ _ _ => rfl, ?_, ?_⟩
      · constructor
        · intro _ k hk; omega
        · intro _; rfl
      · intro _ k ln2 hk; omega

theorem resizeRows_alloc {rows : List (List Int)} {n : Nat} (h : ∀ rw ∈ rows, n ≤ rw.length)
    {r c : Nat} (hr : r < n) (hc : c < n) :
    ∃ rw, (resizeRows rows n)[r]? = some rw ∧ c < rw.length := by
  have hlen : (resizeRows rows n).length = n := by
    unfold resizeRows
    rw [List.length_append, List.length_take, List.length_replicate]
    omega
  have hall : ∀ rw ∈ resizeRows rows n, n ≤ rw.length := by
    intro rw hrw
    unfold resizeRows at hrw
    rcases List.mem_append.1 hrw with h1 | h1
    · exact h rw (List.mem_of_mem_take h1)
    · rw [(List.mem_replicate.1 h1).2, List.length_replicate]
  have hlt : r < (resizeRows rows n).length := by rw [hlen]; exact hr
  refine ⟨(resizeRows rows n)[r], List.getElem?_eq_getElem hlt, ?_⟩
  have := hall _ (List.getElem_mem hlt)
  omega

/-- The loads that succeed, for a first line of 4 to 9 characters read into a grid whose
rows have room for it: the flag, the size taken from the first line, and the cells. -/
theorem loadFromFile_spec (g0 : SudokuGrid) (ln0 : List Char) (more : List (List Char))
    (hlen : 4 ≤ ln0.length ∧ ln0.length ≤ 9) (hroom : g0.RowsHold ln0.length) :
    ∃ b g2, g0.loadFromFile (ln0 :: more) = some (b, g2) ∧ g2.size = ln0.length ∧
      g2.boxSize = (if ln0.length = 9 then 3 else 2) ∧
      (b = true ↔
        (∀ c, c < ln0.length → ∃ ch, ln0[c]? = some ch ∧ charAccepted false ln0.length ch) ∧
        (∀ k, 1 + k < ln0.length → ∃ ln, more[k]? = some ln ∧ ln.length = ln0.length ∧
          ∀ c, c < ln0.length → ∃ ch, ln[c]? = some ch ∧ charAccepted true ln0.length ch)) ∧
      (b = true → ∀ k ln, k < ln0.length → (ln0 :: more)[k]? = some ln →
        ∀ c ch, c < ln0.length → ln[c]? = some ch → g2.cell k c = some (charValue ch)) := by
  have halloc1 : SudokuGrid.Alloc
      { grid := resizeRows g0.grid ln0.length, size := ln0.length,
        boxSize := if ln0.length = 9 then 3 else 2 } := by
    intro r hr c hc
    obtain ⟨rw, hrw, hclt⟩ := resizeRows_alloc hroom hr hc
    simp only [SudokuGrid.cell, hrw]
    intro hcon
    have := List.getElem?_eq_none_iff.1 hcon
    omega
  obtain ⟨b1, g1, hrun1, hsz1, hbs1, hother1, hkeep1, hiff1, hvals1⟩ :=
    loadRow_spec false ln0 0 (List.range ln0.length)
      { grid := resizeRows g0.grid ln0.length, size := ln0.length,
        boxSize := if ln0.length = 9 then 3 else 2 } (List.nodup_range _)
      (fun c hc => ⟨List.mem_range.1 hc, halloc1 0 (by show 0 < ln0.length; omega) c
        (List.mem_range.1 hc)⟩)
  simp only at hsz1 hbs1 hiff1
  cases b1 with
  | false =>
    refine ⟨false, g1, by simp only [SudokuGrid.loadFromFile, if_pos hlen, hrun1], hsz1, hbs1,
      ?_, fun h => by simp at h⟩
    constructor
    · intro h; simp at h
    · intro h
      exfalso
      have := hiff1.2 (fun c hc => h.1 c (List.mem_range.1 hc))
      simp at this
  | true =>
    have halloc2 : g1.Alloc := by
      intro r hr c hc
      rw [hsz1] at hr hc
      by_cases e : r = 0
      · rw [e]; exact hkeep1 c (halloc1 0 (by show 0 < ln0.length; omega) c hc)
      · rw [hother1 r c e]; exact halloc1 r hr c hc
    obtain ⟨b, g2, hrun2, hsz2, hbs2, hpre2, hiff2, hvals2⟩ :=
      loadRest_spec more 1 g1 halloc2 (by rw [hsz1]; omega)
    have hfirst := hiff1.1 rfl
    refine ⟨b, g2, by simp only [SudokuGrid.loadFromFile, if_pos hlen, hrun1]; exact hrun2,
      by rw [hsz2, hsz1], by rw [hbs2, hbs1], ?_, ?_⟩
    · rw [hiff2, hsz1]
      constructor
      · intro h
        exact ⟨fun c hc => hfirst c (List.mem_range.2 hc), h⟩
      · intro h
        exact h.2
    · intro hb k ln hk hln c ch hc hch
      cases k with
      | zero =>
        simp only [List.getElem?_cons_zero, Option.some.injEq] at hln
        subst hln
        obtain ⟨ch2, hch2, hv⟩ := (hvals1 rfl).1 c (List.mem_range.2 hc)
        rw [hch] at hch2
        have : ch = ch2 := by simpa using hch2
        rw [hpre2 0 c (by omega), hv, this]
      | succ k =>
        have := hvals2 hb k ln (by rw [hsz1]; omega) (by simpa using hln) c ch
          (by rw [hsz1]; exact hc) hch
        rw [← this]
        congr 1
        omega

set_option maxRecDepth 100000 in
/-- The default grid loads the scenario file to `scenarioPuzzle`. -/
theorem scenario_loads :
    (SudokuGrid.construct 9).loadFromFile scenarioLines = some (true, scenarioPuzzle) := by
  decide

/-! ## The budget of nested activations does not influence the result -/

theorem tryDigits_mono {again again2 : SudokuGrid → Outcome}
    (h : ∀ g1 b g2, again g1 = Outcome.done b g2 → again2 g1 = Outcome.done b g2)
    (row col : Nat) : ∀ (ds : List Int) (g : SudokuGrid) (b : Bool) (g2 : SudokuGrid),
      tryDigits again row col ds g = Outcome.done b g2 →
      tryDigits again2 row col ds g = Outcome.done b g2 := by
  intro ds
  induction ds with
  | nil => intro g b g2 hrun; simpa [tryDigits] using hrun
  | cons d rest ih =>
    intro g b g2 hrun
    unfold tryDigits at hrun ⊢
    cases hv : g.isValid row col d with
    | none => simp [hv] at hrun
    | some bv =>
      cases bv with
      | false =>
        simp only [hv] at hrun ⊢
        exact ih g b g2 hrun
      | true =>
        simp only [hv] at hrun ⊢
        cases hput : g.put row col d with
        | none => simp [hput] at hrun
        | some g1 =>
          simp only [hput] at hrun ⊢
          cases hag : again g1 with
          | oob => simp [hag] at hrun
          | timeout => simp [hag] at hrun
          | done b1 g3 =>
            rw [h g1 b1 g3 hag]
            rw [hag] at hrun
            cases b1 with
            | true => exact hrun
            | false =>
              simp only at hrun ⊢
              cases hback : g3.put row col 0 with
              | none => simp [hback] at hrun
              | some g4 =>
                simp only [hback] at hrun ⊢
                exact ih g4 b g2 hrun

theorem solveAux_succ : ∀ (fuel : Nat) (g : SudokuGrid) (b : Bool) (g2 : SudokuGrid),
    solveAux fuel g = Outcome.done b g2 → solveAux (fuel + 1) g = Outcome.done b g2 := by
  intro fuel
  induction fuel with
  | zero => intro g b g2 h; simp [solveAux] at h
  | succ fuel ih =>
    intro g b g2 h
    unfold solveAux at h ⊢
    cases hf : g.findEmptyCell with
    | none => simp [hf] at h
    | some o =>
      cases o with
      | none => simpa [hf] using h
      | some p =>
        obtain ⟨row, col⟩ := p
        simp only [hf] at h ⊢
        exact tryDigits_mono ih row col _ g b g2 h

/-- A result obtained within some budget is the result for every larger budget. -/
theorem solveAux_mono {fuel fuel2 : Nat} (hle : fuel ≤ fuel2) {g : SudokuGrid} {b : Bool}
    {g2 : SudokuGrid} (h : solveAux fuel g = Outcome.done b g2) :
    solveAux fuel2 g = Outcome.done b g2 := by
  induction hle with
  | refl => exact h
  | step _ ih => exact solveAux_succ _ g b g2 ih

/-- On a grid of size 4 or 9, `solve` gives the result of every budget that exceeds the
number of empty cells. -/
theorem solveAux_eq_solve {g : SudokuGrid} (hwf : g.WellFormed) {fuel : Nat}
    (hfuel : g.emptyCount < fuel) : solveAux fuel g = g.solve := by
  obtain ⟨b, g2, hrun, _, _⟩ := solve_spec hwf
  rw [hrun]
  exact solveAux_mono (by omega) hrun

/-! ## The first empty cell in row-major order -/

theorem forEach_append {α : Type} (l1 l2 : List Nat) (body : Nat → Option (Option α)) :
    forEach (l1 ++ l2) body =
      match forEach l1 body with
      | some none => forEach l2 body
      | other => other := by
  induction l1 with
  | nil => simp [forEach]
  | cons i rest ih =>
    simp only [List.cons_append, forEach]
    cases hb : body i with
    | none => rfl
    | some o =>
      cases o with
      | none => simpa using ih
      | some a => rfl

/-- A counting loop that returns `a` does so at a first index `i`: the body returns `a` at
`i` and runs through at every smaller index. -/
theorem forEach_range_first {α : Type} {body : Nat → Option (Option α)} {a : α} :
    ∀ {n : Nat}, forEach (List.range n) body = some (some a) →
      ∃ i, i < n ∧ body i = some (some a) ∧ ∀ j, j < i → body j = some none := by
  intro n
  induction n with
  | zero => intro h; simp [forEach] at h
  | succ n ih =>
    intro h
    rw [List.range_succ, forEach_append] at h
    cases hpre : forEach (List.range n) body with
    | none => simp [hpre] at h
    | some o =>
      cases o with
      | some b =>
        simp only [hpre] at h
        obtain ⟨i, hi, hbi, hlt⟩ := ih (hpre.trans h)
        exact ⟨i, by omega, hbi, hlt⟩
      | none =>
        simp only [hpre] at h
        obtain ⟨i, hi, hbi⟩ := forEach_eq_some_some h
        have hin : i = n := by simpa using hi
        subst hin
        refine ⟨i, by omega, hbi, ?_⟩
        intro j hj
        exact (forEach_eq_some_none _ _).1 hpre j (List.mem_range.2 hj)

/-- The cell `findEmptyCell` returns is empty, and no cell before it in row-major order
(smaller row, or same row and smaller column) is. -/
theorem findEmptyCell_first {g : SudokuGrid} {row col : Nat}
    (h : g.findEmptyCell = some (some (row, col))) :
    row < g.size ∧ col < g.size ∧ g.cell row col = some 0 ∧
      ∀ r c, r < g.size → c < g.size → (r < row ∨ (r = row ∧ c < col)) →
        g.cell r c ≠ some 0 := by
  unfold SudokuGrid.findEmptyCell at h
  obtain ⟨r0, hr0, hin, hrows⟩ := forEach_range_first h
  obtain ⟨c0, hc0, hbody, hcols⟩ := forEach_range_first hin
  have hcellOf : ∀ r c, r < g.size → c < g.size →
      (match g.cell r c with
        | none => (none : Option (Option (Nat × Nat)))
        | some v => if v = 0 then some (some (r, c)) else some none) = some none →
      g.cell r c ≠ some 0 := by
    intro r c _ _ hb hz
    simp [hz] at hb
  cases hv : g.cell r0 c0 with
  | none => simp [hv] at hbody
  | some v =>
    by_cases h0 : v = 0
    · simp only [hv, h0, if_true, Option.some.injEq, Prod.mk.injEq] at hbody
      obtain ⟨rfl, rfl⟩ := hbody
      refine ⟨hr0, hc0, by rw [hv, h0], ?_⟩
      intro r c hr hc hbefore
      rcases hbefore with hlt | ⟨rfl, hlt⟩
      · have := (forEach_eq_some_none _ _).1 (hrows r hlt) c (List.mem_range.2 hc)
        exact hcellOf r c hr hc this
      · exact hcellOf r c hr hc (hcols c hlt)
    · simp [hv, h0] at hbody

/-- On a grid without empty cell `solve` returns true at once and leaves the grid alone. -/
theorem solve_full {g : SudokuGrid} (halloc : g.Alloc) (hfull : g.Full) :
    g.solve = Outcome.done true g := by
  rcases findEmptyCell_cases halloc with ⟨h, _⟩ | ⟨r, c, _, hr, hc, h0⟩
  · simp only [SudokuGrid.solve, solveAux, h]
  · exact absurd h0 (hfull r hr c hc)

/-! ## The placements made by the search -/

theorem tryDigitsT_fst (again : SudokuGrid → Outcome × List Placement) (row col : Nat) :
    ∀ (ds : List Int) (g : SudokuGrid),
      (tryDigitsT again row col ds g).1 = tryDigits (fun x => (again x).1) row col ds g := by
  intro ds
  induction ds with
  | nil => intro g; rfl
  | cons d rest ih =>
    intro g
    unfold tryDigitsT tryDigits
    cases hv : g.isValid row col d with
    | none => rfl
    | some bv =>
      cases bv with
      | false => exact ih g
      | true =>
        cases hput : g.put row col d with
        | none => rfl
        | some g1 =>
          simp only
          rcases hag : again g1 with ⟨out, made⟩
          cases out with
          | oob => rfl
          | timeout => rfl
          | done b g2 =>
            cases b with
            | true => rfl
            | false =>
              simp only
              cases hback : g2.put row col 0 with
              | none => rfl
              | some g3 => exact ih g3

/-- Listing the placements does not change what the search returns. -/
theorem solveAuxT_fst : ∀ (fuel : Nat) (g : SudokuGrid),
    (solveAuxT fuel g).1 = solveAux fuel g := by
  intro fuel
  induction fuel with
  | zero => intro g; rfl
  | succ fuel ih =>
    intro g
    unfold solveAuxT solveAux
    cases hf : g.findEmptyCell with
    | none => rfl
    | some o =>
      cases o with
      | none => rfl
      | some p =>
        obtain ⟨row, col⟩ := p
        simp only
        rw [tryDigitsT_fst]
        congr 1
        funext x
        exact ih x

theorem inRange_put {g g1 : SudokuGrid} (hrange : g.InRange) {row col : Nat} {d : Int}
    (hd : 1 ≤ d ∧ d ≤ (g.size : Int)) (hput : g.put row col d = some g1) : g1.InRange := by
  intro r hr c hc
  rw [put_size hput] at hr hc
  by_cases e : r = row ∧ c = col
  · obtain ⟨rfl, rfl⟩ := e
    exact ⟨d, cell_put_same hput, by omega, by rw [put_size hput]; exact hd.2⟩
  · have hne : r ≠ row ∨ c ≠ col := by
      by_contra hcon
      push_neg at hcon
      exact e hcon
    rw [cell_put_other hput r c hne, put_size hput]
    exact hrange r hr c hc

theorem extends_put {g g1 : SudokuGrid} {row col : Nat} {d : Int}
    (h0 : g.cell row col = some 0) (hput : g.put row col d = some g1) : g.Extends g1 := by
  intro r hr c hc hne0
  have hne : r ≠ row ∨ c ≠ col := by
    by_contra hcon
    push_neg at hcon
    rw [hcon.1, hcon.2] at hne0
    exact hne0 h0
  exact cell_put_other hput r c hne

theorem extends_trans {g g1 g2 : SudokuGrid} (hsz : g1.size = g.size) (h1 : g.Extends g1)
    (h2 : g1.Extends g2) : g.Extends g2 := by
  intro r hr c hc hne0
  have e1 := h1 r hr c hc hne0
  rw [h2 r (by rw [hsz]; exact hr) c (by rw [hsz]; exact hc) (by rw [e1]; exact hne0), e1]

/-- What holds of a placement made while solving `g`. -/
theorem placement_lift {g g1 : SudokuGrid} (hwf : g.WellFormed) {row col : Nat}
    (hrow : row < g.size) (hcol : col < g.size) (h0 : g.cell row col = some 0) {d : Int}
    (hd : 1 ≤ d ∧ d ≤ (g.size : Int)) (hv : g.isValid row col d = some true)
    (hput : g.put row col d = some g1) {pl : Placement}
    (h : pl.Legal ∧ pl.Within g1 ∧
      (g1.InRange → g1.Consistent → pl.before.InRange ∧ pl.before.Consistent)) :
    pl.Legal ∧ pl.Within g ∧
      (g.InRange → g.Consistent → pl.before.InRange ∧ pl.before.Consistent) := by
  obtain ⟨hlegal, ⟨hwfb, hszb, hbsb, hext, hcount⟩, hinv⟩ := h
  refine ⟨hlegal, ⟨hwfb, by rw [hszb, put_size hput], by rw [hbsb, put_boxSize hput], ?_, ?_⟩, ?_⟩
  · exact extends_trans (put_size hput) (extends_put h0 hput) hext
  · have := emptyCount_put hrow hcol h0 (by omega : d ≠ 0) hput
    omega
  · intro hr hc
    exact hinv (inRange_put hr hd hput) (consistent_put hwf hc hrow hcol hv hput)

theorem tryDigitsT_spec {again : SudokuGrid → Outcome × List Placement} {g : SudokuGrid}
    (hwf : g.WellFormed) {row col : Nat} (hrow : row < g.size) (hcol : col < g.size)
    (h0 : g.cell row col = some 0)
    (hag : ∀ d g1, d ≠ 0 → g.put row col d = some g1 →
      SolveSpec g1 (again g1).1 ∧ ∀ pl ∈ (again g1).2, pl.Legal ∧ pl.Within g1 ∧
        (g1.InRange → g1.Consistent → pl.before.InRange ∧ pl.before.Consistent))
    (ds : List Int) (hds : ∀ d ∈ ds, 1 ≤ d ∧ d ≤ (g.size : Int)) :
    ∀ pl ∈ (tryDigitsT again row col ds g).2, pl.Legal ∧ pl.Within g ∧
      (g.InRange → g.Consistent → pl.before.InRange ∧ pl.before.Consistent) := by
  induction ds with
  | nil => intro pl hpl; simp [tryDigitsT] at hpl
  | cons d rest ih =>
    have hrest : ∀ x ∈ rest, 1 ≤ x ∧ x ≤ (g.size : Int) :=
      fun x hx => hds x (List.mem_cons_of_mem _ hx)
    have hd := hds d (List.mem_cons_self _ _)
    have ih2 := ih hrest
    obtain ⟨bv, hbv, _⟩ := isValid_spec hwf hrow hcol d
    intro pl hpl
    unfold tryDigitsT at hpl
    cases bv with
    | false =>
      simp only [hbv] at hpl
      exact ih2 pl hpl
    | true =>
      obtain ⟨g1, hput⟩ := put_of_cell (hwf.1 row hrow col hcol) d
      obtain ⟨⟨b1, g3, hres, hF1, hT1⟩, htrace⟩ := hag d g1 (by omega) hput
      have hhead : ∀ p : Placement,
          p = { before := g, row := row, col := col, num := d, after := g1 } →
          p.Legal ∧ p.Within g ∧
            (g.InRange → g.Consistent → p.before.InRange ∧ p.before.Consistent) := by
        intro p hp
        subst hp
        exact ⟨⟨hrow, hcol, h0, hd.1, hd.2, hbv, hput⟩,
          ⟨hwf, rfl, rfl, fun _ _ _ _ _ => rfl, Nat.le_refl _⟩, fun hr hc => ⟨hr, hc⟩⟩
      have hsub : ∀ p ∈ (again g1).2, p.Legal ∧ p.Within g ∧
          (g.InRange → g.Consistent → p.before.InRange ∧ p.before.Consistent) :=
        fun p hp => placement_lift hwf hrow hcol h0 hd hbv hput (htrace p hp)
      rcases hag1 : again g1 with ⟨out, made⟩
      rw [hag1] at hres hsub
      simp only at hres hsub
      subst hres
      cases b1 with
      | true =>
        simp only [hbv, hput, hag1] at hpl
        rcases List.mem_cons.1 hpl with h | h
        · exact hhead pl h
        · exact hsub pl h
      | false =>
        obtain ⟨hg3, _⟩ := hF1 rfl
        subst hg3
        have hback : g3.put row col 0 = some g := put_restore h0 hput
        simp only [hbv, hput, hag1, hback] at hpl
        rcases List.mem_cons.1 hpl with h | h
        · exact hhead pl h
        · rcases List.mem_append.1 h with h2 | h2
          · exact hsub pl h2
          · exact ih2 pl h2

theorem solveAuxT_spec : ∀ (fuel : Nat) (g : SudokuGrid), g.WellFormed →
    g.emptyCount < fuel →
    ∀ pl ∈ (solveAuxT fuel g).2, pl.Legal ∧ pl.Within g ∧
      (g.InRange → g.Consistent → pl.before.InRange ∧ pl.before.Consistent) := by
  intro fuel
  induction fuel with
  | zero => intro g _ h; omega
  | succ fuel ih =>
    intro g hwf hfuel
    unfold solveAuxT
    rcases findEmptyCell_cases hwf.1 with ⟨hfind, _⟩ | ⟨row, col, hfind, hrow, hcol, h0⟩
    · rw [hfind]
      intro pl hpl
      simp at hpl
    · rw [hfind]
      apply tryDigitsT_spec hwf hrow hcol h0 _ (digits g.size) (fun d hd => mem_digits.1 hd)
      intro d g1 hd hput
      have hwf1 := put_wellFormed hwf hput
      have hcount : g1.emptyCount < fuel := by
        have := emptyCount_put hrow hcol h0 hd hput
        omega
      refine ⟨?_, ih g1 hwf1 hcount⟩
      rw [solveAuxT_fst]
      exact solveAux_spec fuel g1 hwf1 hcount

theorem placements_spec {g : SudokuGrid} (hwf : g.WellFormed) :
    ∀ pl ∈ g.placements, pl.Legal ∧ pl.Within g ∧
      (g.InRange → g.Consistent → pl.before.InRange ∧ pl.before.Consistent) :=
  solveAuxT_spec (g.emptyCount + 1) g hwf (Nat.lt_succ_self _)

/-! ## The search returns the least completion -/

theorem tryDigits_true_first {again : SudokuGrid → Outcome} {g : SudokuGrid}
    (hwf : g.WellFormed) {row col : Nat} (hrow : row < g.size) (hcol : col < g.size)
    (h0 : g.cell row col = some 0)
    (hag : ∀ d g1, d ≠ 0 → g.put row col d = some g1 → SolveSpec g1 (again g1))
    (ds : List Int) (hds : ∀ d ∈ ds, 1 ≤ d ∧ d ≤ (g.size : Int)) (g2 : SudokuGrid)
    (hrun : tryDigits again row col ds g = Outcome.done true g2) :
    ∃ pre d post g1, ds = pre ++ d :: post ∧ g.isValid row col d = some true ∧
      g.put row col d = some g1 ∧ again g1 = Outcome.done true g2 ∧
      ∀ x ∈ pre, g.isValid row col x = some true →
        ∀ gx, g.put row col x = some gx → ¬ gx.Solvable := by
  induction ds with
  | nil => simp [tryDigits] at hrun
  | cons d rest ih =>
    have hrest : ∀ x ∈ rest, 1 ≤ x ∧ x ≤ (g.size : Int) :=
      fun x hx => hds x (List.mem_cons_of_mem _ hx)
    have hd := hds d (List.mem_cons_self _ _)
    obtain ⟨bv, hbv, _⟩ := isValid_spec hwf hrow hcol d
    unfold tryDigits at hrun
    cases bv with
    | false =>
      simp only [hbv] at hrun
      obtain ⟨pre, e, post, g1, hsplit, hv, hput, hres, hpre⟩ := ih hrest hrun
      refine ⟨d :: pre, e, post, g1, by rw [hsplit]; rfl, hv, hput, hres, ?_⟩
      intro x hx hxv
      rcases List.mem_cons.1 hx with rfl | hx2
      · rw [hbv] at hxv; simp at hxv
      · exact hpre x hx2 hxv
    | true =>
      obtain ⟨g1, hput⟩ := put_of_cell (hwf.1 row hrow col hcol) d
      obtain ⟨b1, g3, hres, hF1, _⟩ := hag d g1 (by omega) hput
      cases b1 with
      | true =>
        simp only [hbv, hput, hres] at hrun
        have : g3 = g2 := by simpa using hrun
        subst this
        exact ⟨[], d, rest, g1, rfl, hbv, hput, hres, fun x hx => by simp at hx⟩
      | false =>
        obtain ⟨hg3, hns⟩ := hF1 rfl
        subst hg3
        have hback : g3.put row col 0 = some g := put_restore h0 hput
        simp only [hbv, hput, hres, hback] at hrun
        obtain ⟨pre, e, post, g1b, hsplit, hv, hputb, hresb, hpre⟩ := ih hrest hrun
        refine ⟨d :: pre, e, post, g1b, by rw [hsplit]; rfl, hv, hputb, hresb, ?_⟩
        intro x hx hxv gx hgx
        rcases List.mem_cons.1 hx with rfl | hx2
        · rw [hput] at hgx
          have : g3 = gx := by simpa using hgx
          rw [← this]
          exact hns
        · exact hpre x hx2 hxv gx hgx

theorem digits_sorted (n : Nat) : (digits n).Pairwise (fun a b => a < b) := by
  unfold digits
  rw [List.pairwise_map]
  exact (List.pairwise_lt_range n).imp (fun h => by omega)

/-- In the list of digits, what stands before `d` is smaller than `d`, and conversely. -/
theorem digits_split {n : Nat} {pre post : List Int} {d : Int}
    (h : digits n = pre ++ d :: post) {e : Int} (he : e ∈ digits n) (hlt : e < d) :
    e ∈ pre := by
  have hs := digits_sorted n
  rw [h] at hs he
  rcases List.mem_append.1 he with h1 | h1
  · exact h1
  · exfalso
    have hp := (List.pairwise_append.1 hs).2.1
    rcases List.mem_cons.1 h1 with h2 | h2
    · omega
    · have := (List.pairwise_cons.1 hp).1 e h2
      omega

/-- The step of `solveAux` on a grid with an empty cell that returns true: the digit placed,
the recursive call that succeeded, and the smaller digits, none of which leads to a
completion. -/
theorem solveAux_true_step {fuel : Nat} {g g2 : SudokuGrid} (hwf : g.WellFormed)
    (hfuel : g.emptyCount < fuel + 1) {row col : Nat}
    (hfind : g.findEmptyCell = some (some (row, col)))
    (hrun : solveAux (fuel + 1) g = Outcome.done true g2) :
    ∃ d g1, 1 ≤ d ∧ d ≤ (g.size : Int) ∧ g.isValid row col d = some true ∧
      g.put row col d = some g1 ∧ g1.WellFormed ∧ g1.emptyCount < fuel ∧
      solveAux fuel g1 = Outcome.done true g2 ∧
      ∀ s, g.Completion s → ∃ e, s.cell row col = some e ∧ d ≤ e ∧
        (e = d → g1.Completion s) := by
  obtain ⟨hrow, hcol, h0, _⟩ := findEmptyCell_first hfind
  have hcount : ∀ d g1, d ≠ 0 → g.put row col d = some g1 → g1.emptyCount < fuel := by
    intro d g1 hd hput
    have := emptyCount_put hrow hcol h0 hd hput
    omega
  have hag : ∀ d g1, d ≠ 0 → g.put row col d = some g1 →
      SolveSpec g1 (solveAux fuel g1) :=
    fun d g1 hd hput => solveAux_spec fuel g1 (put_wellFormed hwf hput) (hcount d g1 hd hput)
  unfold solveAux at hrun
  simp only [hfind] at hrun
  obtain ⟨pre, d, post, g1, hsplit, hv, hput, hres, hpre⟩ :=
    tryDigits_true_first hwf hrow hcol h0 hag (digits g.size)
      (fun d hd => mem_digits.1 hd) g2 hrun
  have hdm : d ∈ digits g.size := by rw [hsplit]; simp
  have hd := mem_digits.1 hdm
  refine ⟨d, g1, hd.1, hd.2, hv, hput, put_wellFormed hwf hput,
    hcount d g1 (by omega) hput, hres, ?_⟩
  intro s hs
  obtain ⟨e, hem, hev, hstep⟩ := completion_step hwf hs hrow hcol h0
  obtain ⟨ge, hpute⟩ := put_of_cell (hwf.1 row hrow col hcol) e
  have hse : s.cell row col = some e := by
    have hc := hstep ge hpute
    have := hc.2.2.1 row (by rw [put_size hpute]; exact hrow) col
      (by rw [put_size hpute]; exact hcol)
    rw [cell_put_same hpute] at this
    have hne : ¬ (some e = some (0 : Int)) := by
      have := (mem_digits.1 hem).1
      intro hcon
      have : e = 0 := by simpa using hcon
      omega
    rw [if_neg hne] at this
    exact this
  refine ⟨e, hse, ?_, ?_⟩
  · by_contra hlt
    have hin := digits_split hsplit hem (by omega)
    exact hpre e hin hev ge hpute ⟨s, hstep ge hpute⟩
  · intro hed
    subst hed
    exact hstep g1 hput

/-- The grid `solve` leaves when it returns true holds a digit `1..size` in every cell that
was empty. -/
theorem solveAux_true_digits : ∀ (fuel : Nat) (g : SudokuGrid), g.WellFormed →
    g.emptyCount < fuel → ∀ g2, solveAux fuel g = Outcome.done true g2 →
    ∀ r, r < g.size → ∀ c, c < g.size → g.cell r c = some 0 →
      ∃ v, g2.cell r c = some v ∧ 1 ≤ v ∧ v ≤ (g.size : Int) := by
  intro fuel
  induction fuel with
  | zero => intro g _ h; omega
  | succ fuel ih =>
    intro g hwf hfuel g2 hrun r hr c hc hz
    rcases findEmptyCell_cases hwf.1 with ⟨_, hfull⟩ | ⟨row, col, hfind, hrow, hcol, h0⟩
    · exact absurd hz (hfull r hr c hc)
    · obtain ⟨d, g1, hd1, hd2, _, hput, hwf1, hcount, hres, _⟩ :=
        solveAux_true_step hwf hfuel hfind hrun
      by_cases e : r = row ∧ c = col
      · obtain ⟨rfl, rfl⟩ := e
        obtain ⟨b, g3, hrun3, _, hT⟩ := solveAux_spec fuel g1 hwf1 hcount
        rw [hres] at hrun3
        injection hrun3 with hb hg
        subst hb hg
        obtain ⟨_, _, _, _, hext, _, _⟩ := hT rfl
        have := hext r (by rw [put_size hput]; exact hr) c (by rw [put_size hput]; exact hc)
          (by
            rw [cell_put_same hput]
            intro hcon
            have : d = 0 := by simpa using hcon
            omega)
        rw [cell_put_same hput] at this
        exact ⟨d, this, hd1, hd2⟩
      · have hne : r ≠ row ∨ c ≠ col := by
          by_contra hcon
          push_neg at hcon
          exact e hcon
        have := ih g1 hwf1 hcount g2 hres r (by rw [put_size hput]; exact hr) c
          (by rw [put_size hput]; exact hc) (by rw [cell_put_other hput r c hne]; exact hz)
        rw [put_size hput] at this
        exact this

/-- The grid `solve` leaves when it returns true is lexicographically no larger than any
completion of the grid it was called on. -/
theorem solveAux_least : ∀ (fuel : Nat) (g : SudokuGrid), g.WellFormed →
    g.emptyCount < fuel → ∀ g2, solveAux fuel g = Outcome.done true g2 →
    ∀ s, g.Completion s → g.LexLeOnEmpty g2 s := by
  intro fuel
  induction fuel with
  | zero => intro g _ h; omega
  | succ fuel ih =>
    intro g hwf hfuel g2 hrun s hs
    rcases findEmptyCell_cases hwf.1 with ⟨_, hfull⟩ | ⟨row, col, hfind, hrow, hcol, h0⟩
    · left
      intro r hr c hc hz
      exact absurd hz (hfull r hr c hc)
    · obtain ⟨_, _, _, hfirst⟩ := findEmptyCell_first hfind
      obtain ⟨d, g1, hd1, hd2, _, hput, hwf1, hcount, hres, hcomp⟩ :=
        solveAux_true_step hwf hfuel hfind hrun
      obtain ⟨e, hse, hde, hstep⟩ := hcomp s hs
      have hg2 : g2.cell row col = some d := by
        obtain ⟨b, g3, hrun3, _, hT⟩ := solveAux_spec fuel g1 hwf1 hcount
        rw [hres] at hrun3
        injection hrun3 with hb hg
        subst hb hg
        obtain ⟨_, _, _, _, hext, _, _⟩ := hT rfl
        have := hext row (by rw [put_size hput]; exact hrow) col
          (by rw [put_size hput]; exact hcol)
          (by
            rw [cell_put_same hput]
            intro hcon
            have : d = 0 := by simpa using hcon
            omega)
        rw [cell_put_same hput] at this
        exact this
      by_cases hlt : d < e
      · right
        refine ⟨row, hrow, col, hcol, h0, ⟨d, e, hg2, hse, hlt⟩, ?_⟩
        intro r hr c hc hz hbefore
        exact absurd hz (hfirst r c hr hc hbefore)
      · have hed : e = d := by omega
        have hs1 := hstep hed
        have hsz1 := put_size hput
        have hempty1 : ∀ r c, (r ≠ row ∨ c ≠ col) → g.cell r c = some 0 →
            g1.cell r c = some 0 := by
          intro r c hne hz
          rw [cell_put_other hput r c hne]; exact hz
        have hsplit : ∀ r c, g.cell r c = some 0 → (r = row ∧ c = col) ∨
            ((r ≠ row ∨ c ≠ col) ∧ g1.cell r c = some 0) := by
          intro r c hz
          by_cases e2 : r = row ∧ c = col
          · exact Or.inl e2
          · have hne : r ≠ row ∨ c ≠ col := by
              by_contra hcon
              push_neg at hcon
              exact e2 hcon
            exact Or.inr ⟨hne, hempty1 r c hne hz⟩
        rcases ih g1 hwf1 hcount g2 hres s hs1 with hall | ⟨r0, hr0, c0, hc0, hz0, hless, hagree⟩
        · left
          intro r hr c hc hz
          rcases hsplit r c hz with ⟨rfl, rfl⟩ | ⟨_, hz1⟩
          · rw [hg2, hse, hed]
          · exact hall r (by rw [hsz1]; exact hr) c (by rw [hsz1]; exact hc) hz1
        · right
          rw [hsz1] at hr0 hc0
          have hne0 : r0 ≠ row ∨ c0 ≠ col := by
            by_contra hcon
            push_neg at hcon
            rw [hcon.1, hcon.2, cell_put_same hput] at hz0
            have : d = 0 := by simpa using hz0
            omega
          refine ⟨r0, hr0, c0, hc0, ?_, hless, ?_⟩
          · rw [← cell_put_other hput r0 c0 hne0]; exact hz0
          · intro r hr c hc hz hbefore
            rcases hsplit r c hz with ⟨rfl, rfl⟩ | ⟨_, hz1⟩
            · rw [hg2, hse, hed]
            · exact hagree r (by rw [hsz1]; exact hr) c (by rw [hsz1]; exact hc) hz1 hbefore

theorem solve_true_completion_of {g g2 : SudokuGrid} (hwf : g.WellFormed)
    (hcons : g.Consistent) (hrun : g.solve = Outcome.done true g2) : g.Completion g2 := by
  obtain ⟨b, g3, hrun3, _, hT⟩ := solve_spec hwf
  rw [hrun] at hrun3
  injection hrun3 with hb hg
  subst hb hg
  obtain ⟨_, hsz, hbs, _, hext, hc2, _⟩ := hT rfl
  refine ⟨hsz, hbs, ?_, hc2 hcons⟩
  intro r hr c hc
  by_cases hz : g.cell r c = some 0
  · rw [if_pos hz]
    exact solveAux_true_digits _ g hwf (Nat.lt_succ_self _) g2 hrun r hr c hc hz
  · rw [if_neg hz]
    exact hext r hr c hc hz

/-! ## Random generation -/

theorem clearCells_spec : ∀ (cells : List (Nat × Nat)) (g : SudokuGrid),
    (∀ p ∈ cells, g.cell p.1 p.2 ≠ none) →
    ∃ g0, clearCells cells g = some g0 ∧ g0.size = g.size ∧ g0.boxSize = g.boxSize ∧
      ∀ r c, g0.cell r c = if (r, c) ∈ cells then some 0 else g.cell r c := by
  intro cells
  induction cells with
  | nil =>
    intro g _
    exact ⟨g, rfl, rfl, rfl, fun r c => by simp⟩
  | cons p rest ih =>
    intro g hcells
    obtain ⟨g1, hput⟩ := put_of_cell (hcells p (List.mem_cons_self _ _)) 0
    have hcells1 : ∀ q ∈ rest, g1.cell q.1 q.2 ≠ none := by
      intro q hq
      by_cases e : q.1 = p.1 ∧ q.2 = p.2
      · rw [e.1, e.2, cell_put_same hput]; simp
      · have hne : q.1 ≠ p.1 ∨ q.2 ≠ p.2 := by
          by_contra hcon
          push_neg at hcon
          exact e hcon
        rw [cell_put_other hput q.1 q.2 hne]
        exact hcells q (List.mem_cons_of_mem _ hq)
    obtain ⟨g0, hrun, hsz, hbs, hcell⟩ := ih g1 hcells1
    refine ⟨g0, by simp only [clearCells, hput]; exact hrun, by rw [hsz, put_size hput],
      by rw [hbs, put_boxSize hput], ?_⟩
    intro r c
    rw [hcell r c]
    by_cases hin : (r, c) ∈ rest
    · simp [hin]
    · by_cases e : (r, c) = p
      · subst e
        simp only [hin, if_false, List.mem_cons, true_or, if_true]
        exact cell_put_same hput
      · have hne : r ≠ p.1 ∨ c ≠ p.2 := by
          by_contra hcon
          push_neg at hcon
          exact e (Prod.ext hcon.1 hcon.2)
        simp only [hin, if_false, List.mem_cons, e, or_self]
        exact cell_put_other hput r c hne

theorem filledCount_put {g g1 : SudokuGrid} {r c : Nat} {v : Int} (hr : r < g.size)
    (hc : c < g.size) (h0 : g.cell r c = some 0) (hv : v ≠ 0) (h : g.put r c v = some g1) :
    g1.filledCount = g.filledCount + 1 := by
  unfold SudokuGrid.filledCount
  rw [put_size h]
  symm
  apply countP_flip (cellIndices_nodup g.size) (mem_cellIndices.2 ⟨hr, hc⟩)
  · simp [cell_put_same h, hv]
  · simp [h0]
  · intro x hx
    have hne : x.1 ≠ r ∨ x.2 ≠ c := by
      by_contra hcon
      push_neg at hcon
      exact hx (Prod.ext hcon.1 hcon.2)
    rw [cell_put_other h x.1 x.2 hne]

/-- The fill loop never leaves the matrix, and when it ends the number of non-empty cells
is `cellsToFill`, every cell is in `[0, size]` and no digit is repeated. -/
theorem fillLoop_spec (cellsToFill : Int) : ∀ (draws : List (Nat × Nat × Nat))
    (filled : Int) (g : SudokuGrid), g.WellFormed → g.InRange → g.Consistent →
    (g.filledCount : Int) = filled → filled ≤ cellsToFill →
    fillLoop cellsToFill draws filled g ≠ GenOutcome.oob ∧
    ∀ g2, fillLoop cellsToFill draws filled g = GenOutcome.finished g2 →
      g2.WellFormed ∧ g2.size = g.size ∧ g2.boxSize = g.boxSize ∧ g2.InRange ∧
      g2.Consistent ∧ (g2.filledCount : Int) = cellsToFill := by
  intro draws
  induction draws with
  | nil =>
    intro filled g hwf hrange hcons hcount hle
    unfold fillLoop
    by_cases hlt : filled < cellsToFill
    · simp [hlt]
    · simp only [if_neg hlt]
      refine ⟨by simp, ?_⟩
      intro g2 h
      have : g = g2 := by simpa using h
      subst this
      exact ⟨hwf, rfl, rfl, hrange, hcons, by omega⟩
  | cons draw rest ih =>
    intro filled g hwf hrange hcons hcount hle
    unfold fillLoop
    by_cases hlt : filled < cellsToFill
    · simp only [if_pos hlt]
      have hpos : 0 < g.size := by
        rcases hwf.2 with h | h <;> omega
      have hrow : draw.1 % g.size < g.size := Nat.mod_lt _ hpos
      have hcol : draw.2.1 % g.size < g.size := Nat.mod_lt _ hpos
      have hnum : 1 ≤ ((draw.2.2 % g.size : Nat) : Int) + 1 ∧
          ((draw.2.2 % g.size : Nat) : Int) + 1 ≤ (g.size : Int) := by
        have := Nat.mod_lt draw.2.2 hpos
        omega
      cases hv : g.cell (draw.1 % g.size) (draw.2.1 % g.size) with
      | none => exact absurd hv (hwf.1 _ hrow _ hcol)
      | some v =>
        simp only
        by_cases hz : v = 0
        · subst hz
          simp only [if_true]
          obtain ⟨bv, hbv, _⟩ := isValid_spec hwf hrow hcol
            (((draw.2.2 % g.size : Nat) : Int) + 1)
          cases bv with
          | false =>
            simp only [hbv]
            exact ih filled g hwf hrange hcons hcount hle
          | true =>
            obtain ⟨g1, hput⟩ := put_of_cell (hwf.1 _ hrow _ hcol)
              (((draw.2.2 % g.size : Nat) : Int) + 1)
            simp only [hbv, hput]
            have hc1 : (g1.filledCount : Int) = filled + 1 := by
              rw [filledCount_put hrow hcol hv (by omega) hput]
              omega
            obtain ⟨hno, hfin⟩ := ih (filled + 1) g1 (put_wellFormed hwf hput)
              (inRange_put hrange hnum hput) (consistent_put hwf hcons hrow hcol hbv hput)
              hc1 (by omega)
            refine ⟨hno, ?_⟩
            intro g2 h
            obtain ⟨h1, h2, h3, h4⟩ := hfin g2 h
            exact ⟨h1, by rw [h2, put_size hput], by rw [h3, put_boxSize hput], h4⟩
        · simp only [if_neg hz]
          exact ih filled g hwf hrange hcons hcount hle
    · simp only [if_neg hlt]
      refine ⟨by simp, ?_⟩
      intro g2 h
      have : g = g2 := by simpa using h
      subst this
      exact ⟨hwf, rfl, rfl, hrange, hcons, by omega⟩

theorem generateRandom_spec {g : SudokuGrid} (hwf : g.WellFormed) {p : Int} (hp : 0 ≤ p)
    (draws : List (Nat × Nat × Nat)) :
    g.generateRandom p draws ≠ GenOutcome.oob ∧
    ∀ g2, g.generateRandom p draws = GenOutcome.finished g2 →
      g2.WellFormed ∧ g2.size = g.size ∧ g2.boxSize = g.boxSize ∧ g2.InRange ∧
      g2.Consistent ∧
      (g2.filledCount : Int) = ((g.size * g.size : Nat) : Int) * p / 100 := by
  obtain ⟨g0, hclear, hsz, hbs, hcell⟩ := clearCells_spec (cellIndices g.size) g
    (fun q hq => hwf.1 q.1 (mem_cellIndices.1 hq).1 q.2 (mem_cellIndices.1 hq).2)
  have hzero : ∀ r, r < g0.size → ∀ c, c < g0.size → g0.cell r c = some 0 := by
    intro r hr c hc
    rw [hsz] at hr hc
    rw [hcell r c, if_pos (mem_cellIndices.2 ⟨hr, hc⟩)]
  have hwf0 : g0.WellFormed := by
    constructor
    · intro r hr c hc
      rw [hzero r hr c hc]; simp
    · unfold SudokuGrid.Boxed
      rw [hsz, hbs]
      exact hwf.2
  have hrange0 : g0.InRange := by
    intro r hr c hc
    exact ⟨0, hzero r hr c hc, by omega, by omega⟩
  have hcons0 : g0.Consistent := by
    intro r1 hr1 c1 hc1 _ _ _ _ _ hne
    exact absurd (hzero r1 hr1 c1 hc1) hne
  have hcount0 : (g0.filledCount : Int) = 0 := by
    have : g0.filledCount = 0 := by
      unfold SudokuGrid.filledCount
      rw [List.countP_eq_zero]
      intro q hq
      have := mem_cellIndices.1 hq
      simp [hzero q.1 this.1 q.2 this.2]
    omega
  have hnn : (0 : Int) ≤ ((g.size * g.size : Nat) : Int) * p :=
    Int.mul_nonneg (Int.ofNat_nonneg _) hp
  have hK : Int.tdiv (((g.size * g.size : Nat) : Int) * p) 100
      = ((g.size * g.size : Nat) : Int) * p / 100 := Int.tdiv_eq_ediv hnn (by decide)
  have hK0 : (0 : Int) ≤ Int.tdiv (((g.size * g.size : Nat) : Int) * p) 100 :=
    Int.tdiv_nonneg hnn (by decide)
  obtain ⟨hno, hfin⟩ := fillLoop_spec _ draws 0 g0 hwf0 hrange0 hcons0 hcount0 hK0
  unfold SudokuGrid.generateRandom
  simp only [hclear]
  refine ⟨hno, ?_⟩
  intro g2 h
  obtain ⟨h1, h2, h3, h4, h5, h6⟩ := hfin g2 h
  exact ⟨h1, by rw [h2, hsz], by rw [h3, hbs], h4, h5, by rw [h6, hK]⟩

/-! ## Readings of the empty cells -/

theorem cellIndices_sorted (n : Nat) : (cellIndices n).Pairwise rowMajorLt := by
  unfold cellIndices
  have hgen : ∀ (l1 : List Nat), l1.Pairwise (fun a b => a < b) →
      (List.product l1 (List.range n)).Pairwise rowMajorLt := by
    intro l1
    induction l1 with
    | nil => intro _; exact List.Pairwise.nil
    | cons a rest ih =>
      intro hp
      obtain ⟨ha, hrest⟩ := List.pairwise_cons.1 hp
      rw [show (a :: rest).product (List.range n) = _ from List.product_cons a rest _,
        List.pairwise_append]
      refine ⟨?_, ih hrest, ?_⟩
      · rw [List.pairwise_map]
        exact (List.pairwise_lt_range n).imp (fun h => Or.inr ⟨rfl, h⟩)
      · intro p hp1 q hq
        obtain ⟨b, _, rfl⟩ := List.mem_map.1 hp1
        exact Or.inl (ha q.1 (List.mem_product.1 hq).1)
  exact hgen (List.range n) (List.pairwise_lt_range n)

theorem emptyCells_sorted (g : SudokuGrid) : g.emptyCells.Pairwise rowMajorLt :=
  (cellIndices_sorted g.size).filter _

theorem mem_emptyCells {g : SudokuGrid} {p : Nat × Nat} :
    p ∈ g.emptyCells ↔ p.1 < g.size ∧ p.2 < g.size ∧ g.cell p.1 p.2 = some 0 := by
  unfold SudokuGrid.emptyCells
  rw [List.mem_filter]
  constructor
  · rintro ⟨h1, h2⟩
    have := mem_cellIndices.1 (show (p.1, p.2) ∈ cellIndices g.size from h1)
    exact ⟨this.1, this.2, by simpa using h2⟩
  · rintro ⟨h1, h2, h3⟩
    exact ⟨mem_cellIndices.2 ⟨h1, h2⟩, by simp [h3]⟩

theorem lexLe_map_of_agree (f h : Nat × Nat → Int) :
    ∀ cells : List (Nat × Nat), (∀ p ∈ cells, f p = h p) →
      lexLe (cells.map f) (cells.map h) := by
  intro cells
  induction cells with
  | nil => intro _; simp [lexLe]
  | cons q rest ih =>
    intro hall
    simp only [List.map_cons, lexLe]
    exact Or.inr ⟨hall q (List.mem_cons_self _ _),
      ih (fun p hp => hall p (List.mem_cons_of_mem _ hp))⟩

/-- Two readings of a row-major sorted list of cells that agree before a cell where the first
is smaller are in lexicographic order. -/
theorem lexLe_map_of_first (f h : Nat × Nat → Int) :
    ∀ cells : List (Nat × Nat), cells.Pairwise rowMajorLt → ∀ p ∈ cells, f p < h p →
      (∀ q ∈ cells, rowMajorLt q p → f q = h q) → lexLe (cells.map f) (cells.map h) := by
  intro cells
  induction cells with
  | nil => intro _ p hp; simp at hp
  | cons q rest ih =>
    intro hsorted p hp hlt hagree
    obtain ⟨hq, hrest⟩ := List.pairwise_cons.1 hsorted
    simp only [List.map_cons, lexLe]
    rcases List.mem_cons.1 hp with rfl | hp2
    · exact Or.inl hlt
    · right
      exact ⟨hagree q (List.mem_cons_self _ _) (hq p hp2),
        ih hrest p hp2 hlt (fun q2 hq2 hb => hagree q2 (List.mem_cons_of_mem _ hq2) hb)⟩

theorem lexLe_reading {g x y : SudokuGrid} (h : g.LexLeOnEmpty x y) :
    lexLe (g.reading x) (g.reading y) := by
  unfold SudokuGrid.reading
  rcases h with hall | ⟨row, hrow, col, hcol, hz, ⟨a, b, hx, hy, hab⟩, hagree⟩
  · apply lexLe_map_of_agree
    intro p hp
    obtain ⟨h1, h2, h3⟩ := mem_emptyCells.1 hp
    show (x.cell p.1 p.2).getD 0 = (y.cell p.1 p.2).getD 0
    rw [hall p.1 h1 p.2 h2 h3]
  · apply lexLe_map_of_first _ _ _ (emptyCells_sorted g) (row, col)
      (mem_emptyCells.2 ⟨hrow, hcol, hz⟩)
    · show (x.cell row col).getD 0 < (y.cell row col).getD 0
      rw [hx, hy]
      exact hab
    · intro q hq hb
      obtain ⟨h1, h2, h3⟩ := mem_emptyCells.1 hq
      show (x.cell q.1 q.2).getD 0 = (y.cell q.1 q.2).getD 0
      rw [hagree q.1 h1 q.2 h2 h3 hb]

/-! ## Claims -/

theorem consistent_of_completion {g s : SudokuGrid} (hs : g.Completion s) : g.Consistent := by
  obtain ⟨hsz, hbs, hcells, hcons⟩ := hs
  intro r1 hr1 c1 hc1 r2 hr2 c2 hc2 hp hne0 heq
  have h1 := hcells r1 hr1 c1 hc1
  rw [if_neg hne0] at h1
  have hne2 : g.cell r2 c2 ≠ some 0 := by rw [← heq]; exact hne0
  have h2 := hcells r2 hr2 c2 hc2
  rw [if_neg hne2] at h2
  exact hcons r1 (hsz ▸ hr1) c1 (hsz ▸ hc1) r2 (hsz ▸ hr2) c2 (hsz ▸ hc2) (hbs ▸ hp)
    (by rw [h1]; exact hne0) (by rw [h1, h2, heq])

/-- C1: on a grid of size 4 or 9 with cells in `[0, size]` that has a completion, `solve`
returns true, and on the grid it leaves `validateSolution` returns true; every row, column
and box of that grid contains each digit `1..size` exactly once. -/
theorem solve_solvable_valid (g : SudokuGrid) (hwf : g.WellFormed) (hrange : g.InRange)
    (hsol : g.Solvable) :
    ∃ g2, g.solve = Outcome.done true g2 ∧ g2.validateSolution = some true ∧
      g2.EachDigitOnce := by
  obtain ⟨b, g2, hrun, hF, hT⟩ := solve_spec hwf
  cases b with
  | false => exact absurd hsol (hF rfl).2
  | true =>
    obtain ⟨hwf2, _, _, hfull, _, hcons, hrng⟩ := hT rfl
    obtain ⟨s, hs⟩ := hsol
    have hc2 := hcons (consistent_of_completion hs)
    obtain ⟨bv, hbv, hiff⟩ := validateSolution_spec hwf2 (hrng hrange)
    have hbt : bv = true := hiff.2 ⟨hfull, hc2⟩
    exact ⟨g2, hrun, by rw [hbv, hbt], (eachDigitOnce_iff hwf2 (hrng hrange)).2 ⟨hfull, hc2⟩⟩

set_option maxRecDepth 1000000 in
set_option maxHeartbeats 4000000 in
/-- C1 at the 9x9 puzzle of the concrete scenario. -/
theorem solve_solvable_valid_scenario :
    scenarioPuzzle.WellFormed ∧ scenarioPuzzle.InRange ∧ scenarioPuzzle.Solvable ∧
    ∃ g2, scenarioPuzzle.solve = Outcome.done true g2 ∧ g2.validateSolution = some true ∧
      g2.EachDigitOnce := by
  have hwf : scenarioPuzzle.WellFormed := by decide
  have hrange : scenarioPuzzle.InRange := by decide
  have hsol : scenarioPuzzle.Solvable := ⟨scenarioSolution, by decide⟩
  exact ⟨hwf, hrange, hsol, solve_solvable_valid scenarioPuzzle hwf hrange hsol⟩

/-- C2: on every grid of size 4 or 9, whatever its cells hold (conflicting givens
included), when `solve` returns false the grid it leaves is the grid it was called on. -/
theorem solve_false_restores (g : SudokuGrid) (hwf : g.WellFormed) (g2 : SudokuGrid)
    (h : g.solve = Outcome.done false g2) : g2 = g := by
  obtain ⟨b, g3, hrun, hF, _⟩ := solve_spec hwf
  rw [hrun] at h
  injection h with hb hg
  subst hb hg
  exact (hF rfl).1

set_option maxRecDepth 100000 in
/-- C2 at a 4x4 grid whose givens conflict. -/
theorem solve_false_restores_conflict :
    conflictGrid.WellFormed ∧ conflictGrid.solve = Outcome.done false conflictGrid ∧
      conflictGrid = conflictGrid := by
  have hwf : conflictGrid.WellFormed := by decide
  have hrun : conflictGrid.solve = Outcome.done false conflictGrid := by decide
  exact ⟨hwf, hrun, solve_false_restores conflictGrid hwf conflictGrid hrun⟩

/-- C3: `solve` is exhaustive on every grid of size 4 or 9: it always returns, when it
returns false the grid has no completion, and when a completion exists it returns true. -/
theorem solve_exhaustive (g : SudokuGrid) (hwf : g.WellFormed) :
    (∃ b g2, g.solve = Outcome.done b g2) ∧
    (∀ g2, g.solve = Outcome.done false g2 → ¬ g.Solvable) ∧
    (g.Solvable → ∃ g2, g.solve = Outcome.done true g2) := by
  obtain ⟨b, g3, hrun, hF, _⟩ := solve_spec hwf
  refine ⟨⟨b, g3, hrun⟩, ?_, ?_⟩
  · intro g2 h
    rw [hrun] at h
    injection h with hb hg
    subst hb
    exact (hF rfl).2
  · intro hsol
    cases b with
    | false => exact absurd hsol (hF rfl).2
    | true => exact ⟨g3, hrun⟩

set_option maxRecDepth 100000 in
/-- C3 at a 4x4 grid without completion: `solve` returns false and no completion exists. -/
theorem solve_exhaustive_blocked :
    blockedGrid.WellFormed ∧ blockedGrid.solve = Outcome.done false blockedGrid ∧
      ¬ blockedGrid.Solvable := by
  have hwf : blockedGrid.WellFormed := by decide
  have hrun : blockedGrid.solve = Outcome.done false blockedGrid := by decide
  exact ⟨hwf, hrun, (solve_exhaustive blockedGrid hwf).2.1 blockedGrid hrun⟩

/-- C4: on every grid of size 4 or 9 and every in-range `(row, col)`, `isValid(row, col, num)`
returns false exactly when `num` appears in row `row`, in column `col` or in the box of
`(row, col)`, and true otherwise, for every `num` (so for every `num` in `1..size`); it is
a query that returns a flag only, the grid is not among its results. -/
theorem isValid_iff_absent (g : SudokuGrid) (hwf : g.WellFormed) (row col : Nat)
    (hrow : row < g.size) (hcol : col < g.size) (num : Int) :
    (g.isValid row col num = some false ↔
      (g.inRow row num ∨ g.inCol col num ∨ g.inBox row col num)) ∧
    (g.isValid row col num = some true ↔
      ¬ (g.inRow row num ∨ g.inCol col num ∨ g.inBox row col num)) := by
  obtain ⟨b, hb, hiff⟩ := isValid_spec hwf hrow hcol num
  rw [hb]
  cases b with
  | false =>
    have := hiff.1 rfl
    simp [this]
  | true =>
    have : ¬ (g.inRow row num ∨ g.inCol col num ∨ g.inBox row col num) := by
      intro h
      have := hiff.2 h
      simp at this
    simp [this]

/-- C4 at cell `(0, 2)` of the scenario puzzle with digit 4. -/
theorem isValid_iff_absent_scenario :
    scenarioPuzzle.WellFormed ∧ 0 < scenarioPuzzle.size ∧ 2 < scenarioPuzzle.size ∧
    ((scenarioPuzzle.isValid 0 2 4 = some false ↔
      (scenarioPuzzle.inRow 0 4 ∨ scenarioPuzzle.inCol 2 4 ∨ scenarioPuzzle.inBox 0 2 4)) ∧
    (scenarioPuzzle.isValid 0 2 4 = some true ↔
      ¬ (scenarioPuzzle.inRow 0 4 ∨ scenarioPuzzle.inCol 2 4 ∨ scenarioPuzzle.inBox 0 2 4))) :=
  ⟨by decide, by decide, by decide,
    isValid_iff_absent scenarioPuzzle (by decide) 0 2 (by decide) (by decide) 4⟩

/-- C5: on every grid of size 4 or 9 with cells in `[0, size]`, `validateSolution` returns
true exactly when no cell is 0 and no digit occurs twice in a row, a column or a box, and
false otherwise; the condition is the same as every row, column and box containing each
digit `1..size` exactly once. -/
theorem validateSolution_iff (g : SudokuGrid) (hwf : g.WellFormed) (hrange : g.InRange) :
    (g.validateSolution = some true ↔ g.Full ∧ g.Consistent) ∧
    (g.validateSolution = some false ↔ ¬ (g.Full ∧ g.Consistent)) ∧
    (g.Full ∧ g.Consistent ↔ g.EachDigitOnce) := by
  obtain ⟨b, hb, hiff⟩ := validateSolution_spec hwf hrange
  refine ⟨?_, ?_, (eachDigitOnce_iff hwf hrange).symm⟩
  · rw [hb, ← hiff]
    simp
  · rw [hb, ← hiff]
    cases b <;> simp

set_option maxRecDepth 1000000 in
/-- C5 at the completed grid of the scenario. -/
theorem validateSolution_iff_scenario :
    scenarioSolution.WellFormed ∧ scenarioSolution.InRange ∧
    ((scenarioSolution.validateSolution = some true ↔
      scenarioSolution.Full ∧ scenarioSolution.Consistent) ∧
    (scenarioSolution.validateSolution = some false ↔
      ¬ (scenarioSolution.Full ∧ scenarioSolution.Consistent)) ∧
    (scenarioSolution.Full ∧ scenarioSolution.Consistent ↔ scenarioSolution.EachDigitOnce)) :=
  ⟨by decide, by decide, validateSolution_iff scenarioSolution (by decide) (by decide)⟩

/-- C6: `validateSolution` returns false on every grid with a cell equal to 0, whatever the
other cells hold. -/
theorem validateSolution_incomplete (g : SudokuGrid) (halloc : g.Alloc) (r c : Nat)
    (hr : r < g.size) (hc : c < g.size) (h0 : g.cell r c = some 0) :
    g.validateSolution = some false := by
  unfold SudokuGrid.validateSolution
  rcases zeroPass_cases halloc with ⟨_, hfull⟩ | ⟨e0, _⟩
  · exact absurd h0 (hfull r hr c hc)
  · simp [e0]

/-- C6 at a 4x4 grid with one empty cell and out-of-range values in the others. -/
theorem validateSolution_incomplete_junk :
    junkGrid.Alloc ∧ 2 < junkGrid.size ∧ junkGrid.cell 2 2 = some 0 ∧
      junkGrid.validateSolution = some false :=
  ⟨by decide, by decide, by decide,
    validateSolution_incomplete junkGrid (by decide) 2 2 (by decide) (by decide) (by decide)⟩

/-- Round trip of a 9x9 load into a grid whose stored rows have room for 9 cells (such as
the default `SudokuGrid(9)`): any 9 lines of 9 characters each drawn from `.` and `1`..`9`
load successfully, `size` becomes 9, and `getValue(row, col)` then returns the digit at
character `col` of line `row`, 0 for `.`; nothing is assumed about duplicates. -/
theorem load_roundtrip_nine (g0 : SudokuGrid) (hroom : g0.RowsHold 9)
    (lines : List (List Char)) (hcount : lines.length = 9)
    (hlines : ∀ ln ∈ lines, ln.length = 9 ∧ ∀ ch ∈ ln, ch = '.' ∨ ('1' ≤ ch ∧ ch ≤ '9')) :
    ∃ g, g0.loadFromFile lines = some (true, g) ∧ g.size = 9 ∧ g.boxSize = 3 ∧
      ∀ (row col : Nat) (ln : List Char) (ch : Char), lines[row]? = some ln →
        ln[col]? = some ch →
        g.getValue row col = some (if ch = '.' then 0 else (ch.toNat : Int) - 48) := by
  cases lines with
  | nil => simp at hcount
  | cons ln0 more =>
    have hl0 : ln0.length = 9 := (hlines ln0 (List.mem_cons_self _ _)).1
    have hacc : ∀ (f : Bool) (ln : List Char), ln ∈ ln0 :: more → ∀ c, c < 9 →
        ∃ ch, ln[c]? = some ch ∧ charAccepted f 9 ch := by
      intro f ln hln c hc
      obtain ⟨hl, hchars⟩ := hlines ln hln
      have hclt : c < ln.length := by rw [hl]; exact hc
      refine ⟨ln[c], List.getElem?_eq_getElem hclt, ?_⟩
      rcases hchars _ (List.getElem_mem hclt) with h | h
      · exact Or.inl h
      · exact Or.inr (Or.inr ⟨h, fun hcon => by simp at hcon⟩)
    obtain ⟨b, g, hrun, hsz, hbs, hiff, hvals⟩ :=
      loadFromFile_spec g0 ln0 more (by rw [hl0]; decide) (by rw [hl0]; exact hroom)
    rw [hl0] at hsz hbs hiff hvals
    have hb : b = true := by
      apply hiff.2
      refine ⟨fun c hc => hacc false ln0 (List.mem_cons_self _ _) c hc, ?_⟩
      intro k hk
      have hklt : k < more.length := by
        simp only [List.length_cons] at hcount
        omega
      have hmem : more[k] ∈ ln0 :: more := List.mem_cons_of_mem _ (List.getElem_mem hklt)
      exact ⟨more[k], List.getElem?_eq_getElem hklt, (hlines _ hmem).1,
        fun c hc => hacc true _ hmem c hc⟩
    subst hb
    refine ⟨g, hrun, hsz, by rw [hbs]; rfl, ?_⟩
    intro row col ln ch hln hch
    have hrow : row < 9 := by
      have := (List.getElem?_eq_some.1 hln).1
      omega
    have hmem : ln ∈ ln0 :: more := by
      obtain ⟨h1, h2⟩ := List.getElem?_eq_some.1 hln
      exact h2 ▸ List.getElem_mem h1
    have hcol : col < 9 := by
      have := (List.getElem?_eq_some.1 hch).1
      rw [(hlines ln hmem).1] at this
      exact this
    have hval := hvals rfl row ln hrow hln col ch hcol hch
    have hchar : charValue ch = if ch = '.' then 0 else (ch.toNat : Int) - 48 := by
      have hmemch : ch ∈ ln := by
        obtain ⟨h1, h2⟩ := List.getElem?_eq_some.1 hch
        exact h2 ▸ List.getElem_mem h1
      rcases (hlines ln hmem).2 ch hmemch with h | h
      · subst h; rfl
      · have h0 : ch ≠ '0' := by
          intro hcon
          subst hcon
          exact absurd h.1 (by decide)
        have hdot : ch ≠ '.' := by
          intro hcon
          subst hcon
          exact absurd h.1 (by decide)
        simp only [charValue, hdot, h0, or_self, if_false]
        rfl
    unfold SudokuGrid.getValue
    rw [hsz, if_pos (by omega)]
    simp only [Int.toNat_ofNat]
    rw [hval, hchar]

/-- The round trip at an input with repeated digits, loaded into the default 9x9 grid. -/
theorem load_roundtrip_nine_repeated :
    (SudokuGrid.construct 9).RowsHold 9 ∧ repeatedLines.length = 9 ∧
    (∀ ln ∈ repeatedLines, ln.length = 9 ∧ ∀ ch ∈ ln, ch = '.' ∨ ('1' ≤ ch ∧ ch ≤ '9')) ∧
    ∃ g, (SudokuGrid.construct 9).loadFromFile repeatedLines = some (true, g) ∧ g.size = 9 ∧
      g.boxSize = 3 ∧
      ∀ (row col : Nat) (ln : List Char) (ch : Char), repeatedLines[row]? = some ln →
        ln[col]? = some ch →
        g.getValue row col = some (if ch = '.' then 0 else (ch.toNat : Int) - 48) := by
  have h1 : (SudokuGrid.construct 9).RowsHold 9 := by decide
  have h2 : repeatedLines.length = 9 := by decide
  have h3 : ∀ ln ∈ repeatedLines,
      ln.length = 9 ∧ ∀ ch ∈ ln, ch = '.' ∨ ('1' ≤ ch ∧ ch ≤ '9') := by decide
  exact ⟨h1, h2, h3, load_roundtrip_nine (SudokuGrid.construct 9) h1 repeatedLines h2 h3⟩

set_option maxRecDepth 100000 in
/-- C7 at its failing input.  `repeatedLines` is 9 lines of 9 characters from `.` and
`1`..`9`.  Loaded into `SudokuGrid(4)`, a grid of size 4 with all its cells stored, the
resize leaves row 0 with 4 entries and the first-line loop writes outside it, so the load
does not succeed; loaded into the default `SudokuGrid(9)` the same input succeeds. -/
theorem load_nine_into_four_overruns :
    (SudokuGrid.construct 4).WellFormed ∧ repeatedLines.length = 9 ∧
    (∀ ln ∈ repeatedLines, ln.length = 9 ∧ ∀ ch ∈ ln, ch = '.' ∨ ('1' ≤ ch ∧ ch ≤ '9')) ∧
    (resizeRows (SudokuGrid.construct 4).grid 9)[0]? = some [0, 0, 0, 0] ∧
    (SudokuGrid.construct 4).loadFromFile repeatedLines = none ∧
    ((SudokuGrid.construct 9).loadFromFile repeatedLines).map Prod.fst = some true := by
  refine ⟨by decide, by decide, by decide, by decide, by decide, by decide⟩

set_option maxRecDepth 100000 in
/-- C8 at its failing input: a 4x4 file with the digit 5 in its first line loads
successfully and leaves 5 in cell `(0, 0)`, while the same digit in the second line is
rejected. -/
theorem load_accepts_five_in_first_line :
    (SudokuGrid.construct 4).loadFromFile fiveFirstLines
      = some (true, { grid := [[5, 0, 0, 0], [0, 0, 0, 0], [0, 0, 0, 0], [0, 0, 0, 0]],
                      size := 4, boxSize := 2 }) ∧
    (SudokuGrid.construct 4).loadFromFile fiveSecondLines
      = some (false, SudokuGrid.construct 4) := by
  constructor <;> decide

set_option maxRecDepth 100000 in
/-- C9 at its failing input: five lines of five characters load successfully into the
default grid, leaving `size = 5` and `boxSize = 2`, so `boxSize * boxSize` is not `size`. -/
theorem load_accepts_five_by_five :
    ∃ g, (SudokuGrid.construct 9).loadFromFile fiveByFiveLines = some (true, g) ∧
      g.size = 5 ∧ g.boxSize = 2 ∧ g.boxSize * g.boxSize ≠ g.size :=
  ⟨{ grid := List.replicate 5 (List.replicate 9 0), size := 5, boxSize := 2 },
    by decide, rfl, rfl, by decide⟩

/-- With `n` the length of the first line, a load into a grid of non-zero size whose rows
have room for the first line returns false on the empty input, on every input with fewer
than `n` lines and on every input one of whose first `n` lines has a length other than
`n`. -/
theorem load_fails_short_or_ragged (g0 : SudokuGrid) (lines : List (List Char))
    (hsize : 0 < g0.size)
    (hroom : (lines.headD []).length ≤ 9 → g0.RowsHold (lines.headD []).length)
    (hbad : lines = [] ∨ lines.length < (lines.headD []).length ∨
      ∃ k ln, k < (lines.headD []).length ∧ lines[k]? = some ln ∧
        ln.length ≠ (lines.headD []).length) :
    ∃ g, g0.loadFromFile lines = some (false, g) := by
  cases lines with
  | nil =>
    refine ⟨g0, ?_⟩
    simp only [SudokuGrid.loadFromFile]
    have : ¬ (0 = g0.size) := by omega
    simp [this]
  | cons ln0 more =>
    simp only [List.headD_cons] at hroom hbad
    by_cases hlen : 4 ≤ ln0.length ∧ ln0.length ≤ 9
    · obtain ⟨b, g, hrun, _, _, hiff, _⟩ := loadFromFile_spec g0 ln0 more hlen (hroom hlen.2)
      cases b with
      | false => exact ⟨g, hrun⟩
      | true =>
        exfalso
        obtain ⟨_, hrest⟩ := hiff.1 rfl
        rcases hbad with h | h | ⟨k, ln, hk, hln, hne⟩
        · simp at h
        · simp only [List.length_cons] at h
          obtain ⟨ln, hln, _⟩ := hrest more.length (by omega)
          have := (List.getElem?_eq_some.1 hln).1
          omega
        · cases k with
          | zero =>
            simp only [List.getElem?_cons_zero, Option.some.injEq] at hln
            exact hne (by rw [hln])
          | succ k =>
            obtain ⟨ln2, hln2, hl2, _⟩ := hrest k (by omega)
            have hln3 : more[k]? = some ln := by simpa using hln
            rw [hln3] at hln2
            have : ln = ln2 := by simpa using hln2
            exact hne (by rw [this, hl2])
    · exact ⟨g0, by simp only [SudokuGrid.loadFromFile, if_neg hlen]⟩

/-- The failing load at a 9x9 input whose fifth line has length 8, on the default grid. -/
theorem load_fails_short_or_ragged_scenario :
    0 < (SudokuGrid.construct 9).size ∧
    ((raggedLines.headD []).length ≤ 9 →
      (SudokuGrid.construct 9).RowsHold (raggedLines.headD []).length) ∧
    (raggedLines = [] ∨ raggedLines.length < (raggedLines.headD []).length ∨
      ∃ k ln, k < (raggedLines.headD []).length ∧ raggedLines[k]? = some ln ∧
        ln.length ≠ (raggedLines.headD []).length) ∧
    ∃ g, (SudokuGrid.construct 9).loadFromFile raggedLines = some (false, g) := by
  have h1 : 0 < (SudokuGrid.construct 9).size := by decide
  have h2 : (raggedLines.headD []).length ≤ 9 →
      (SudokuGrid.construct 9).RowsHold (raggedLines.headD []).length := by decide
  have h3 : raggedLines = [] ∨ raggedLines.length < (raggedLines.headD []).length ∨
      ∃ k ln, k < (raggedLines.headD []).length ∧ raggedLines[k]? = some ln ∧
        ln.length ≠ (raggedLines.headD []).length :=
    Or.inr (Or.inr ⟨4, "4..8.3..".toList, by decide, by decide, by decide⟩)
  exact ⟨h1, h2, h3, load_fails_short_or_ragged (SudokuGrid.construct 9) raggedLines h1 h2 h3⟩

set_option maxRecDepth 100000 in
/-- C10 at its failing input.  `raggedLines` is a 9x9 input whose fifth line has length 8.
Loaded into `SudokuGrid(4)`, the first-line loop writes outside row 0, which the resize
left with 4 entries, before the short line is read: the call does not return false.
Loaded into the default `SudokuGrid(9)` the same input returns false. -/
theorem load_ragged_into_four_overruns :
    (SudokuGrid.construct 4).WellFormed ∧ (raggedLines.headD []).length = 9 ∧
    (∃ ln, raggedLines[4]? = some ln ∧ ln.length = 8) ∧
    (SudokuGrid.construct 4).loadFromFile raggedLines = none ∧
    ((SudokuGrid.construct 9).loadFromFile raggedLines).map Prod.fst = some false := by
  refine ⟨by decide, by decide, ⟨_, rfl, by decide⟩, by decide, by decide⟩

/-- C11: `findEmptyCell` returns the first cell in row-major order (smallest row, then
smallest column) whose value is 0, and reports that there is none exactly when no cell of
the `size` by `size` grid is 0; it is a query whose only results are the flag and the two
coordinates. -/
theorem findEmptyCell_rowMajor (g : SudokuGrid) (halloc : g.Alloc) :
    (g.findEmptyCell = some none ↔ g.Full) ∧
    (∀ row col, g.findEmptyCell = some (some (row, col)) ↔
      (row < g.size ∧ col < g.size ∧ g.cell row col = some 0 ∧
        ∀ r c, r < g.size → c < g.size → (r < row ∨ (r = row ∧ c < col)) →
          g.cell r c ≠ some 0)) := by
  constructor
  · constructor
    · intro h
      rcases findEmptyCell_cases halloc with ⟨_, hfull⟩ | ⟨r, c, hrc, _⟩
      · exact hfull
      · rw [h] at hrc; simp at hrc
    · intro hfull
      rcases findEmptyCell_cases halloc with ⟨h, _⟩ | ⟨r, c, _, hr, hc, h0⟩
      · exact h
      · exact absurd h0 (hfull r hr c hc)
  · intro row col
    constructor
    · exact findEmptyCell_first
    · rintro ⟨hrow, hcol, h0, hbefore⟩
      rcases findEmptyCell_cases halloc with ⟨_, hfull⟩ | ⟨r, c, hrc, hr, hc, hz⟩
      · exact absurd h0 (hfull row hrow col hcol)
      · obtain ⟨_, _, _, hfirst⟩ := findEmptyCell_first hrc
        have hr1 : ¬ r < row := fun h => hbefore r c hr hc (Or.inl h) hz
        have hr2 : ¬ row < r := fun h => hfirst row col hrow hcol (Or.inl h) h0
        have hrEq : r = row := by omega
        subst hrEq
        have hc1 : ¬ c < col := fun h => hbefore r c hr hc (Or.inr ⟨rfl, h⟩) hz
        have hc2 : ¬ col < c := fun h => hfirst r col hrow hcol (Or.inr ⟨rfl, h⟩) h0
        have hcEq : c = col := by omega
        subst hcEq
        exact hrc

set_option maxRecDepth 100000 in
/-- C11 at the scenario puzzle, whose first empty cell is `(0, 2)`. -/
theorem findEmptyCell_rowMajor_scenario :
    scenarioPuzzle.Alloc ∧ scenarioPuzzle.findEmptyCell = some (some (0, 2)) ∧
    ((scenarioPuzzle.findEmptyCell = some none ↔ scenarioPuzzle.Full) ∧
    (∀ row col, scenarioPuzzle.findEmptyCell = some (some (row, col)) ↔
      (row < scenarioPuzzle.size ∧ col < scenarioPuzzle.size ∧
        scenarioPuzzle.cell row col = some 0 ∧
        ∀ r c, r < scenarioPuzzle.size → c < scenarioPuzzle.size →
          (r < row ∨ (r = row ∧ c < col)) → scenarioPuzzle.cell r c ≠ some 0))) := by
  have h1 : scenarioPuzzle.Alloc := by decide
  exact ⟨h1, by decide, findEmptyCell_rowMajor scenarioPuzzle h1⟩

/-- C12: `generateRandom(p)` on a grid of size 4 or 9, whatever it held before, with `p`
non-negative and `size * size * p` within `int`, and the results of `std::rand()` taken from
an arbitrary supply: whenever the fill loop ends, exactly `size * size * p / 100` (rounded
down) cells are non-zero, every cell holds a value in `[0, size]`, so every non-zero cell a
digit `1..size`, and no digit occurs twice in a row, a column or a box. -/
theorem generateRandom_fills (g : SudokuGrid) (hwf : g.WellFormed) (p : Int) (hp : 0 ≤ p)
    (hint : ((g.size * g.size : Nat) : Int) * p < 2 ^ 31) (draws : List (Nat × Nat × Nat))
    (g2 : SudokuGrid) (h : g.generateRandom p draws = GenOutcome.finished g2) :
    g2.size = g.size ∧
    (g2.filledCount : Int) = ((g.size * g.size : Nat) : Int) * p / 100 ∧
    g2.InRange ∧ g2.Consistent ∧
    (∀ r, r < g2.size → ∀ c, c < g2.size → g2.cell r c ≠ some 0 →
      ∃ v, g2.cell r c = some v ∧ 1 ≤ v ∧ v ≤ (g2.size : Int)) := by
  have _ := hint
  obtain ⟨_, hsz, _, hrange, hcons, hcount⟩ := (generateRandom_spec hwf hp draws).2 g2 h
  refine ⟨hsz, hcount, hrange, hcons, ?_⟩
  intro r hr c hc hne
  obtain ⟨v, hv, h0, h1⟩ := hrange r hr c hc
  refine ⟨v, hv, ?_, h1⟩
  have : v ≠ 0 := fun hz => hne (by rw [hv, hz])
  omega

set_option maxRecDepth 1000000 in
/-- C12 at `generateRandom(30)` on the 9x9 scenario puzzle: 24 cells are non-zero. -/
theorem generateRandom_fills_scenario :
    scenarioPuzzle.WellFormed ∧ (0 : Int) ≤ 30 ∧
    ((scenarioPuzzle.size * scenarioPuzzle.size : Nat) : Int) * 30 < 2 ^ 31 ∧
    scenarioPuzzle.generateRandom 30 scenarioDraws = GenOutcome.finished generatedGrid ∧
    generatedGrid.filledCount = 24 ∧
    (generatedGrid.size = scenarioPuzzle.size ∧
    (generatedGrid.filledCount : Int)
      = ((scenarioPuzzle.size * scenarioPuzzle.size : Nat) : Int) * 30 / 100 ∧
    generatedGrid.InRange ∧ generatedGrid.Consistent ∧
    (∀ r, r < generatedGrid.size → ∀ c, c < generatedGrid.size →
      generatedGrid.cell r c ≠ some 0 →
      ∃ v, generatedGrid.cell r c = some v ∧ 1 ≤ v ∧ v ≤ (generatedGrid.size : Int))) := by
  have h1 : scenarioPuzzle.WellFormed := by decide
  have h2 : (0 : Int) ≤ 30 := by decide
  have h3 : ((scenarioPuzzle.size * scenarioPuzzle.size : Nat) : Int) * 30 < 2 ^ 31 := by
    decide
  have h4 : scenarioPuzzle.generateRandom 30 scenarioDraws
      = GenOutcome.finished generatedGrid := by decide
  exact ⟨h1, h2, h3, h4, by decide,
    generateRandom_fills scenarioPuzzle h1 30 h2 h3 scenarioDraws generatedGrid h4⟩

/-- C13: outside `[0, size)` by `[0, size)`, `getValue` returns 0 and `setValue` leaves the
grid as it is; inside, on a grid whose cells are stored, `setValue(row, col, v)` followed by
`getValue(row, col)` returns `v`, and every other cell keeps its value. -/
theorem getValue_setValue (g : SudokuGrid) (row col v : Int) :
    (¬ (0 ≤ row ∧ row < g.size ∧ 0 ≤ col ∧ col < g.size) →
      g.getValue row col = some 0 ∧ g.setValue row col v = some g) ∧
    ((0 ≤ row ∧ row < g.size ∧ 0 ≤ col ∧ col < g.size) → g.Alloc →
      ∃ g2, g.setValue row col v = some g2 ∧ g2.getValue row col = some v ∧
        ∀ r2 c2 : Int, (r2 ≠ row ∨ c2 ≠ col) → g2.getValue r2 c2 = g.getValue r2 c2) := by
  constructor
  · intro h
    simp only [SudokuGrid.getValue, SudokuGrid.setValue, if_neg h, and_self]
  · intro h halloc
    have hr : row.toNat < g.size := by omega
    have hc : col.toNat < g.size := by omega
    obtain ⟨g2, hput⟩ := put_of_cell (halloc row.toNat hr col.toNat hc) v
    refine ⟨g2, by simp only [SudokuGrid.setValue, if_pos h, hput], ?_, ?_⟩
    · simp only [SudokuGrid.getValue, put_size hput, if_pos h, cell_put_same hput]
    · intro r2 c2 hne
      simp only [SudokuGrid.getValue, put_size hput]
      by_cases hin : 0 ≤ r2 ∧ r2 < g.size ∧ 0 ≤ c2 ∧ c2 < g.size
      · simp only [if_pos hin]
        apply cell_put_other hput
        rcases hne with h1 | h1
        · left; omega
        · right; omega
      · simp only [if_neg hin]

set_option maxRecDepth 100000 in
/-- C13 at the scenario puzzle: the out-of-range cell `(-1, 9)` and the cell `(0, 2)`. -/
theorem getValue_setValue_scenario :
    (scenarioPuzzle.getValue (-1) 9 = some 0 ∧
      scenarioPuzzle.setValue (-1) 9 4 = some scenarioPuzzle) ∧
    (∃ g2, scenarioPuzzle.setValue 0 2 4 = some g2 ∧ g2.getValue 0 2 = some 4 ∧
      ∀ r2 c2 : Int, (r2 ≠ 0 ∨ c2 ≠ 2) → g2.getValue r2 c2 = scenarioPuzzle.getValue r2 c2) :=
  ⟨(getValue_setValue scenarioPuzzle (-1) 9 4).1 (by decide),
    (getValue_setValue scenarioPuzzle 0 2 4).2 (by decide) (by decide)⟩

/-- C14: `solve` terminates on every grid of size 4 or 9.  It returns within a nesting of
`emptyCount + 1` activations, a larger budget gives the same result, there are at most
`size * size` empty cells (so at most 81 nested placements on a 9x9 grid), and every
recursive call, made on the grid right after a placement, starts on a grid with strictly
fewer empty cells than the grid of its caller, which has no more than the input. -/
theorem solve_terminates (g : SudokuGrid) (hwf : g.WellFormed) :
    (∃ b g2, solveAux (g.emptyCount + 1) g = Outcome.done b g2) ∧
    (∀ fuel, g.emptyCount < fuel → solveAux fuel g = g.solve) ∧
    g.emptyCount ≤ g.size * g.size ∧
    (∀ pl ∈ g.placements, pl.after.emptyCount < pl.before.emptyCount ∧
      pl.before.emptyCount ≤ g.emptyCount) := by
  refine ⟨?_, fun fuel hf => solveAux_eq_solve hwf hf, ?_, ?_⟩
  · obtain ⟨b, g2, hrun, _, _⟩ := solve_spec hwf
    exact ⟨b, g2, hrun⟩
  · unfold SudokuGrid.emptyCount
    refine Nat.le_trans (List.countP_le_length _) ?_
    unfold cellIndices
    exact Nat.le_of_eq ((List.length_product _ _).trans (by rw [List.length_range]))
  · intro pl hpl
    obtain ⟨⟨hrow, hcol, h0, hd1, _, _, hput⟩, ⟨_, _, _, _, hle⟩, _⟩ := placements_spec hwf pl hpl
    have := emptyCount_put hrow hcol h0 (by omega : pl.num ≠ 0) hput
    exact ⟨by omega, hle⟩

/-- C14 at the 9x9 scenario puzzle. -/
theorem solve_terminates_scenario :
    scenarioPuzzle.WellFormed ∧
    ((∃ b g2, solveAux (scenarioPuzzle.emptyCount + 1) scenarioPuzzle = Outcome.done b g2) ∧
    (∀ fuel, scenarioPuzzle.emptyCount < fuel →
      solveAux fuel scenarioPuzzle = scenarioPuzzle.solve) ∧
    scenarioPuzzle.emptyCount ≤ scenarioPuzzle.size * scenarioPuzzle.size ∧
    (∀ pl ∈ scenarioPuzzle.placements, pl.after.emptyCount < pl.before.emptyCount ∧
      pl.before.emptyCount ≤ scenarioPuzzle.emptyCount)) := by
  have h1 : scenarioPuzzle.WellFormed := by decide
  exact ⟨h1, solve_terminates scenarioPuzzle h1⟩

/-- C15: if before `solve` every cell is in `[0, size]` and no digit occurs twice in a row,
a column or a box, then every placement `solve` makes writes a digit `1..size` into a cell
that holds 0 and for which `isValid` returns true on the grid as it is then, the same two
properties hold before and after each placement, and they hold in the grid `solve` leaves,
whether it returns true or false.  The placements are those listed by `solveAuxT`, which
returns what `solve` returns. -/
theorem solve_placement_invariant (g : SudokuGrid) (hwf : g.WellFormed) (hrange : g.InRange)
    (hcons : g.Consistent) :
    (solveAuxT (g.emptyCount + 1) g).1 = g.solve ∧
    (∀ pl ∈ g.placements, pl.Legal ∧ (pl.before.InRange ∧ pl.before.Consistent) ∧
      (pl.after.InRange ∧ pl.after.Consistent)) ∧
    (∀ b g2, g.solve = Outcome.done b g2 → g2.InRange ∧ g2.Consistent) := by
  refine ⟨solveAuxT_fst _ g, ?_, ?_⟩
  · intro pl hpl
    obtain ⟨hlegal, ⟨hwfb, _, _, _, _⟩, hinv⟩ := placements_spec hwf pl hpl
    obtain ⟨hr, hc⟩ := hinv hrange hcons
    obtain ⟨hrow, hcol, _, hd1, hd2, hv, hput⟩ := hlegal
    exact ⟨⟨hrow, hcol, by assumption, hd1, hd2, hv, hput⟩, ⟨hr, hc⟩,
      inRange_put hr ⟨hd1, hd2⟩ hput, consistent_put hwfb hc hrow hcol hv hput⟩
  · intro b g2 hrun
    obtain ⟨b3, g3, hrun3, hF, hT⟩ := solve_spec hwf
    rw [hrun] at hrun3
    injection hrun3 with hb hg
    subst hb hg
    cases b with
    | false =>
      rw [(hF rfl).1]
      exact ⟨hrange, hcons⟩
    | true =>
      obtain ⟨_, _, _, _, _, hc2, hr2⟩ := hT rfl
      exact ⟨hr2 hrange, hc2 hcons⟩

set_option maxRecDepth 1000000 in
set_option maxHeartbeats 4000000 in
/-- C15 at the 9x9 scenario puzzle. -/
theorem solve_placement_invariant_scenario :
    scenarioPuzzle.WellFormed ∧ scenarioPuzzle.InRange ∧ scenarioPuzzle.Consistent ∧
    ((solveAuxT (scenarioPuzzle.emptyCount + 1) scenarioPuzzle).1 = scenarioPuzzle.solve ∧
    (∀ pl ∈ scenarioPuzzle.placements, pl.Legal ∧
      (pl.before.InRange ∧ pl.before.Consistent) ∧
      (pl.after.InRange ∧ pl.after.Consistent)) ∧
    (∀ b g2, scenarioPuzzle.solve = Outcome.done b g2 → g2.InRange ∧ g2.Consistent)) := by
  have h1 : scenarioPuzzle.WellFormed := by decide
  have h2 : scenarioPuzzle.InRange := by decide
  have h3 : scenarioPuzzle.Consistent := by decide
  exact ⟨h1, h2, h3, solve_placement_invariant scenarioPuzzle h1 h2 h3⟩

/-- C16: when `solve` returns true on a grid of size 4 or 9, the grid it leaves has the same
size, no cell of it is 0, every cell that was non-zero before the call holds the value it
held, and every placement made during the call is on a cell that was empty before the
call. -/
theorem solve_true_completion (g : SudokuGrid) (hwf : g.WellFormed) (g2 : SudokuGrid)
    (h : g.solve = Outcome.done true g2) :
    g2.size = g.size ∧ g2.Full ∧
    (∀ r, r < g.size → ∀ c, c < g.size → g.cell r c ≠ some 0 → g2.cell r c = g.cell r c) ∧
    (∀ pl ∈ g.placements, pl.row < g.size ∧ pl.col < g.size ∧
      g.cell pl.row pl.col = some 0) := by
  obtain ⟨b3, g3, hrun3, _, hT⟩ := solve_spec hwf
  rw [h] at hrun3
  injection hrun3 with hb hg
  subst hb hg
  obtain ⟨_, hsz, _, hfull, hext, _, _⟩ := hT rfl
  refine ⟨hsz, hfull, hext, ?_⟩
  intro pl hpl
  obtain ⟨⟨hrow, hcol, h0, _⟩, ⟨_, hszb, _, hextb, _⟩, _⟩ := placements_spec hwf pl hpl
  rw [hszb] at hrow hcol
  refine ⟨hrow, hcol, ?_⟩
  by_contra hne
  have := hextb pl.row hrow pl.col hcol hne
  rw [h0] at this
  exact hne this.symm

set_option maxRecDepth 1000000 in
/-- C16 at a 4x4 puzzle with the givens 3, 2, 4 and 1, which `solve` fills with 14
placements (two of them undone). -/
theorem solve_true_completion_fourPuzzle :
    fourPuzzle.WellFormed ∧ fourPuzzle.solve = Outcome.done true fourPuzzleSolved ∧
    fourPuzzle.cell 0 1 = some 3 ∧ fourPuzzle.cell 1 3 = some 2 ∧
    fourPuzzle.cell 2 0 = some 4 ∧ fourPuzzle.cell 3 2 = some 1 ∧
    fourPuzzle.placements.length = 14 ∧
    (fourPuzzleSolved.size = fourPuzzle.size ∧ fourPuzzleSolved.Full ∧
    (∀ r, r < fourPuzzle.size → ∀ c, c < fourPuzzle.size → fourPuzzle.cell r c ≠ some 0 →
      fourPuzzleSolved.cell r c = fourPuzzle.cell r c) ∧
    (∀ pl ∈ fourPuzzle.placements, pl.row < fourPuzzle.size ∧ pl.col < fourPuzzle.size ∧
      fourPuzzle.cell pl.row pl.col = some 0)) := by
  have h1 : fourPuzzle.WellFormed := by decide
  have h2 : fourPuzzle.solve = Outcome.done true fourPuzzleSolved := by decide
  exact ⟨h1, h2, by decide, by decide, by decide, by decide, by decide,
    solve_true_completion fourPuzzle h1 fourPuzzleSolved h2⟩

set_option maxRecDepth 100000 in
/-- C17 at its failing inputs.  Loading the 9-line scenario file into `SudokuGrid(4)` writes
outside the stored rows (rows 0 to 3 keep their 4 entries after the resize), and loading a
4-line file into the default `SudokuGrid(9)` succeeds with 4 rows of 9 entries each. -/
theorem load_keeps_old_rows :
    (SudokuGrid.construct 4).loadFromFile scenarioLines = none ∧
    (resizeRows (SudokuGrid.construct 4).grid 9).map List.length = [4, 4, 4, 4, 9, 9, 9, 9, 9] ∧
    ∃ g, (SudokuGrid.construct 9).loadFromFile fourByFourLines = some (true, g) ∧ g.size = 4 ∧
      g.grid.map List.length = [9, 9, 9, 9] := by
  refine ⟨by decide, by decide, ?_⟩
  exact ⟨{ grid := [[1, 2, 0, 0, 0, 0, 0, 0, 0], [0, 0, 3, 0, 0, 0, 0, 0, 0],
                    [0, 0, 0, 0, 0, 0, 0, 0, 0], [0, 0, 0, 4, 0, 0, 0, 0, 0]],
           size := 4, boxSize := 2 }, by decide, rfl, by decide⟩

/-- C18: when `solve` returns true on a grid of size 4 or 9 that has a completion `s`, the
grid it leaves is itself a completion, and the sequence of digits it holds in the empty
cells of the input, read in row-major order, is lexicographically less than or equal to
that of `s` (as sequences, and as agreement up to a first differing cell with the smaller
digit); so when all completions agree with `s`, `solve` leaves exactly the cells of `s`. -/
theorem solve_least_completion (g : SudokuGrid) (hwf : g.WellFormed) (g2 : SudokuGrid)
    (hrun : g.solve = Outcome.done true g2) (s : SudokuGrid) (hs : g.Completion s) :
    g.Completion g2 ∧ lexLe (g.reading g2) (g.reading s) ∧ g.LexLeOnEmpty g2 s ∧
    ((∀ s2, g.Completion s2 → ∀ r, r < g.size → ∀ c, c < g.size →
        s2.cell r c = s.cell r c) →
      ∀ r, r < g.size → ∀ c, c < g.size → g2.cell r c = s.cell r c) := by
  have hcomp := solve_true_completion_of hwf (consistent_of_completion hs) hrun
  have hlex := solveAux_least _ g hwf (Nat.lt_succ_self _) g2 hrun s hs
  exact ⟨hcomp, lexLe_reading hlex, hlex, fun huniq => huniq g2 hcomp⟩

set_option maxRecDepth 1000000 in
/-- C18 at the empty 4x4 grid and a completion of it other than the one `solve` finds. -/
theorem solve_least_completion_empty :
    (SudokuGrid.construct 4).WellFormed ∧
    (SudokuGrid.construct 4).solve = Outcome.done true firstFourSolution ∧
    (SudokuGrid.construct 4).Completion otherFourSolution ∧
    ((SudokuGrid.construct 4).Completion firstFourSolution ∧
    lexLe ((SudokuGrid.construct 4).reading firstFourSolution)
      ((SudokuGrid.construct 4).reading otherFourSolution) ∧
    (SudokuGrid.construct 4).LexLeOnEmpty firstFourSolution otherFourSolution ∧
    ((∀ s2, (SudokuGrid.construct 4).Completion s2 →
        ∀ r, r < (SudokuGrid.construct 4).size → ∀ c, c < (SudokuGrid.construct 4).size →
        s2.cell r c = otherFourSolution.cell r c) →
      ∀ r, r < (SudokuGrid.construct 4).size → ∀ c, c < (SudokuGrid.construct 4).size →
        firstFourSolution.cell r c = otherFourSolution.cell r c)) := by
  have h1 : (SudokuGrid.construct 4).WellFormed := by decide
  have h2 : (SudokuGrid.construct 4).solve = Outcome.done true firstFourSolution := by decide
  have h3 : (SudokuGrid.construct 4).Completion otherFourSolution := by decide
  exact ⟨h1, h2, h3,
    solve_least_completion (SudokuGrid.construct 4) h1 firstFourSolution h2 otherFourSolution h3⟩

set_option maxRecDepth 1000000 in
/-- C19: `solve` does not check the givens against each other.  The 9x9 grid `clashGrid`
has cells in `[0, 9]` and holds 6 twice in row 0; `solve` returns true on it, and
`validateSolution` returns false on the grid it leaves.  On every completely filled grid
`solve` returns true and leaves the grid unchanged, valid or not. -/
theorem solve_ignores_clashing_givens :
    (clashGrid.size = 9 ∧ clashGrid.WellFormed ∧ clashGrid.InRange ∧
      clashGrid.cell 0 0 = some 6 ∧ clashGrid.cell 0 3 = some 6 ∧
      ∃ g2, clashGrid.solve = Outcome.done true g2 ∧ g2.validateSolution = some false) ∧
    (∀ g : SudokuGrid, g.Alloc → g.Full → g.solve = Outcome.done true g) := by
  refine ⟨⟨rfl, by decide, by decide, by decide, by decide, ?_⟩, fun g ha hf => solve_full ha hf⟩
  refine ⟨{ clashGrid with grid := clashGrid.grid.set 8 [3, 4, 5, 2, 8, 6, 1, 7, 9] }, ?_, ?_⟩
  · decide
  · decide

/-- C20: on a completely filled grid of size 4 or 9 with cells in `1..size`,
`validateSolution` returns true exactly when, for every cell `(row, col)` holding `v`,
`isValid(row, col, v)` returns true on the grid with that one cell reset to 0. -/
theorem legality_checks_agree (g : SudokuGrid) (hwf : g.WellFormed)
    (hdigits : ∀ r, r < g.size → ∀ c, c < g.size →
      ∃ v, g.cell r c = some v ∧ 1 ≤ v ∧ v ≤ (g.size : Int)) :
    g.validateSolution = some true ↔
      ∀ r, r < g.size → ∀ c, c < g.size → ∀ v, g.cell r c = some v →
        ∃ g1, g.put r c 0 = some g1 ∧ g1.isValid r c v = some true := by
  have hrange : g.InRange := by
    intro r hr c hc
    obtain ⟨v, hv, h1, h2⟩ := hdigits r hr c hc
    exact ⟨v, hv, by omega, h2⟩
  have hfull : g.Full := by
    intro r hr c hc h0
    obtain ⟨v, hv, h1, _⟩ := hdigits r hr c hc
    rw [h0] at hv
    have : (0 : Int) = v := by simpa using hv
    omega
  obtain ⟨b, hb, hiff⟩ := validateSolution_spec hwf hrange
  have hval : g.validateSolution = some true ↔ g.Consistent := by
    rw [hb]
    constructor
    · intro h
      exact (hiff.1 (by simpa using h)).2
    · intro h
      rw [hiff.2 ⟨hfull, h⟩]
  rw [hval]
  constructor
  · intro hcons r hr c hc v hv
    obtain ⟨g1, hput⟩ := put_of_cell (hwf.1 r hr c hc) 0
    refine ⟨g1, hput, ?_⟩
    have hwf1 := put_wellFormed hwf hput
    have hr1 : r < g1.size := by rw [put_size hput]; exact hr
    have hc1 : c < g1.size := by rw [put_size hput]; exact hc
    obtain ⟨bv, hbv, hbiff⟩ := isValid_spec hwf1 hr1 hc1 v
    cases bv with
    | true => exact hbv
    | false =>
      exfalso
      obtain ⟨w, hw, hw1, _⟩ := hdigits r hr c hc
      have hvw : v = w := by rw [hv] at hw; simpa using hw
      have key : ∀ r2 c2, r2 < g.size → c2 < g.size → g1.cell r2 c2 = some v →
          (r2 = r ∨ c2 = c ∨
            (r2 / g.boxSize = r / g.boxSize ∧ c2 / g.boxSize = c / g.boxSize)) → False := by
        intro r2 c2 hr2 hc2 hcell hp
        by_cases e : r2 = r ∧ c2 = c
        · obtain ⟨rfl, rfl⟩ := e
          rw [cell_put_same hput] at hcell
          have : (0 : Int) = v := by simpa using hcell
          omega
        · have hne : r2 ≠ r ∨ c2 ≠ c := by
            by_contra hcon
            push_neg at hcon
            exact e hcon
          rw [cell_put_other hput r2 c2 hne] at hcell
          have hpeer : peers g.boxSize r c r2 c2 := by
            refine ⟨?_, ?_⟩
            · rcases hne with h1 | h1
              · exact Or.inl (Ne.symm h1)
              · exact Or.inr (Ne.symm h1)
            · rcases hp with h1 | h1 | h1
              · exact Or.inl h1.symm
              · exact Or.inr (Or.inl h1.symm)
              · exact Or.inr (Or.inr ⟨h1.1.symm, h1.2.symm⟩)
          exact hcons r hr c hc r2 hr2 c2 hc2 hpeer (hfull r hr c hc) (by rw [hv, hcell])
      rcases hbiff.1 rfl with ⟨c2, hc2, hcell⟩ | ⟨r2, hr2, hcell⟩ | ⟨r2, hr2, c2, hc2, e1, e2, hcell⟩
      · exact key r c2 hr (by rw [← put_size hput]; exact hc2) hcell (Or.inl rfl)
      · exact key r2 c (by rw [← put_size hput]; exact hr2) hc hcell (Or.inr (Or.inl rfl))
      · rw [put_boxSize hput] at e1 e2
        exact key r2 c2 (by rw [← put_size hput]; exact hr2) (by rw [← put_size hput]; exact hc2)
          hcell (Or.inr (Or.inr ⟨e1, e2⟩))
  · intro h r1 hr1 c1 hc1 r2 hr2 c2 hc2 hp _ heq
    obtain ⟨v, hv, _, _⟩ := hdigits r1 hr1 c1 hc1
    obtain ⟨g1, hput, hvalid⟩ := h r1 hr1 c1 hc1 v hv
    have hwf1 := put_wellFormed hwf hput
    have hne : r2 ≠ r1 ∨ c2 ≠ c1 := by
      rcases hp.1 with h1 | h1
      · exact Or.inl (Ne.symm h1)
      · exact Or.inr (Ne.symm h1)
    have := isValid_true_peers hwf1 (by rw [put_size hput]; exact hr1)
      (by rw [put_size hput]; exact hc1) hvalid (r := r2) (c := c2)
      (by rw [put_size hput]; exact hr2) (by rw [put_size hput]; exact hc2)
      (by
        rw [put_boxSize hput]
        rcases hp.2 with h1 | h1 | h1
        · exact Or.inl h1.symm
        · exact Or.inr (Or.inl h1.symm)
        · exact Or.inr (Or.inr ⟨h1.1.symm, h1.2.symm⟩))
    rw [cell_put_other hput r2 c2 hne] at this
    exact this (by rw [← heq, hv])

set_option maxRecDepth 1000000 in
/-- C20 at the completed grid of the scenario. -/
theorem legality_checks_agree_scenario :
    scenarioSolution.WellFormed ∧
    (∀ r, r < scenarioSolution.size → ∀ c, c < scenarioSolution.size →
      ∃ v, scenarioSolution.cell r c = some v ∧ 1 ≤ v ∧ v ≤ (scenarioSolution.size : Int)) ∧
    (scenarioSolution.validateSolution = some true ↔
      ∀ r, r < scenarioSolution.size → ∀ c, c < scenarioSolution.size →
        ∀ v, scenarioSolution.cell r c = some v →
          ∃ g1, scenarioSolution.put r c 0 = some g1 ∧ g1.isValid r c v = some true) := by
  have h1 : scenarioSolution.WellFormed := by decide
  have h2 : ∀ r, r < scenarioSolution.size → ∀ c, c < scenarioSolution.size →
      ∃ v, scenarioSolution.cell r c = some v ∧ 1 ≤ v ∧ v ≤ (scenarioSolution.size : Int) := by
    decide
  exact ⟨h1, h2, legality_checks_agree scenarioSolution h1 h2⟩

end Sudoku
